import Mathlib

/-!
# Dependency-injection resolution core of `@angular/core` (esm2015 build)

A shallow embedding of

* `src/esm2015/src/di/injector_compatibility.js`
  (`setCurrentInjector`, `injectInjectorOnly`, `ɵɵinject` / `inject`, `injectArgs`,
  `getInjectFlag`, `catchInjectorError`, `formatError`), and
* `src/esm2015/src/render3/instructions/di.js` (`ɵɵdirectiveInject`).

The module-level variables of the JavaScript sources become fields of an explicit
`World`, threaded through every call.  A call either returns a value or throws, and
in both cases leaves a world behind; that pair is an `Outcome × World`.

Functions the sources import from modules outside `src/` (the injector's `get`, the
tree walker, the render-state accessors, `resolveForwardRef`, the `InjectFlags`
enumeration, `ngDevMode`) are fields of an environment `Env`, over which every theorem
is universally quantified.  The source symbol `ɵɵinject` is embedded under its exported
alias `inject`, and `ɵɵdirectiveInject` as `directiveInject`.

Objects that the code reads or writes property by property (decorators, decorator lists,
error objects, token paths) live in a `Heap`; `injectArgs` runs in a world whose state
holds one (`Store`), `catchInjectorError` and `formatError` work on the heap alone.
-/

namespace AngularDI

/-! ## Data model -/

/-- JavaScript values as far as the resolution layer tells them apart: the two
"nothing" values, primitives, and references to objects or functions (compared by
identity). Tokens, injectors, render contexts and resolved values are all `Value`s.
`array id` is a reference to an array object (`Array.isArray` holds of it, and of nothing
else); numbers are the integers. -/
inductive Value where
  | undefined
  | null
  | bool (b : Bool)
  | number (n : Int)
  | string (s : String)
  | object (id : Nat)
  | array (id : Nat)
  deriving DecidableEq, Repr

/-- What a `throw` carries: an `Error` built by the embedded code itself
(`throw new Error(message)`), whatever value a collaborator threw or the code re-throws,
or the `TypeError` with which the JavaScript runtime answers a property access on
`undefined` or `null`, a call of something that is not a function, or (in strict mode) a
property write on a primitive. -/
inductive Thrown where
  | newError (message : String)
  | foreign (v : Value)
  | typeError
  deriving DecidableEq, Repr

/-- Result of a call: `Except.ok v` is `return v`, `Except.error e` is `throw e`. -/
abbrev Outcome := Except Thrown Value

/-- The function installed as the active global implementation of `inject`: either
`ɵɵdirectiveInject` itself, or some other function object (told apart by identity). -/
inductive InjectImpl where
  | directiveInject
  | function (id : Nat)
  deriving DecidableEq, Repr

/-- Process-wide mutable state.
* `_currentInjector` is the variable of `injector_compatibility.js` (line 35):
  `undefined` (unset), `null` (limp mode) or an injector.
* `_injectImplementation` is the slot of the injector switch; `none` is "nothing installed".
* `ext` is every other piece of state the collaborators own (render state, heap). -/
structure World (σ : Type) where
  _currentInjector : Value
  _injectImplementation : Option InjectImpl
  ext : σ

/-- An effectful call of a collaborator: from a world to an outcome and a new world. -/
abbrev Comp (σ : Type) := World σ → Outcome × World σ

/-- The unsigned 32-bit pattern of an integer: what the conversion of an operand of the
JavaScript operators `&` and `|` keeps of it (the integer modulo `2^32`). -/
def toUint32 (n : Int) : Nat :=
  (n % 4294967296).toNat

/-- The signed reading of a 32-bit pattern: the result of `&` and `|` is a signed 32-bit
integer, negative when bit 31 is set. -/
def toInt32 (u : Nat) : Int :=
  if u < 2147483648 then (u : Int) else (u : Int) - 4294967296

/-- The JavaScript operator `a & b` on integers: both operands are cut to 32 bits, the
patterns are AND-ed, and the result is read as a signed 32-bit integer. -/
def bitAnd (a b : Int) : Int :=
  toInt32 (toUint32 a &&& toUint32 b)

/-- The JavaScript operator `a | b` on integers (the operation of `flags |= flag`): both
operands are cut to 32 bits, the patterns are OR-ed, and the result is read as a signed
32-bit integer. -/
def bitOr (a b : Int) : Int :=
  toInt32 (toUint32 a ||| toUint32 b)

/-- Bit values of the `InjectFlags` enumeration (`di/interface/injector`, not under
`src/`), taken as parameters. Flags are JavaScript numbers, here integers, combined with
`bitAnd` and `bitOr`. -/
structure InjectFlags where
  Default : Int
  Host : Int
  Self : Int
  SkipSelf : Int
  Optional : Int

/-- Everything the two source files import from outside `src/`, as parameters.
* `resolveForwardRef` unwraps a forward reference; it is a function of the token alone;
* `get recv token notFoundValue flags` is the method call `recv.get(token, notFoundValue, flags)`;
* `call f token flags` is the call `f(token, flags)` of an installed function object other
  than `ɵɵdirectiveInject`, taken to return or throw; an installed function that does not
  return (`ɵɵinject` itself, or a function that calls back into it without end) has no
  representation here;
* `getLView`, `getCurrentTNode` read the render state;
* `getOrCreateInjectable tNode lView token flags` is the tree walker. -/
structure Env (σ : Type) where
  ngDevMode : Bool
  InjectFlags : InjectFlags
  resolveForwardRef : Value → Value
  injectRootLimpMode : Value → Value → Int → Comp σ
  get : Value → Value → Value → Int → Comp σ
  call : Nat → Value → Int → Comp σ
  getLView : World σ → Value
  getCurrentTNode : World σ → Value
  getOrCreateInjectable : Value → Value → Value → Int → Comp σ

/-! ## Errors raised by the embedded code -/

/-- The error of `injectInjectorOnly` (line 43): `ContextError` in the taxonomy. -/
def ContextError : Thrown :=
  Thrown.newError "inject() must be called from an injection context"

/-- Modelled from the spec: the `LogicError` ("would cause infinite recursion") that
`assertInjectImplementationNotEqual` of `di/inject_switch` (not under `src/`) raises. -/
def LogicError : Thrown :=
  Thrown.newError "would cause infinite recursion"

/-- Modelled from the spec: the `InjectorError` ("no injector context") with which the
default limp-mode fallback of `di/inject_switch` (not under `src/`) fails. -/
def InjectorError : Thrown :=
  Thrown.newError "no injector context"

/-! ## Injector switch (`di/inject_switch`) -/

/-- Modelled from the spec: `getInjectImplementation` of `di/inject_switch` (not under
`src/`): returns the current override, or nothing, meaning "use flat-only". -/
def getInjectImplementation {σ : Type} (w : World σ) : Option InjectImpl :=
  w._injectImplementation

/-- Modelled from the spec: `assertInjectImplementationNotEqual` of `di/inject_switch`
(not under `src/`): fails with `LogicError` if the active implementation equals the given
candidate, and does nothing otherwise. -/
def assertInjectImplementationNotEqual {σ : Type} (candidate : InjectImpl) (w : World σ) :
    Except Thrown Unit :=
  if getInjectImplementation w = some candidate then Except.error LogicError else Except.ok ()

/-- Modelled from the spec: the default limp-mode fallback of `di/inject_switch` (not
under `src/`), a function of `(token, notFoundValue, flags)`: it fails with
`InjectorError`, unless the `Optional` bit is set in `flags`, which turns the miss into
the result `null`. `F` is the `InjectFlags` enumeration. -/
def defaultInjectRootLimpMode {σ : Type} (F : InjectFlags) (_token _notFoundValue : Value)
    (flags : Int) : Comp σ :=
  fun w =>
    if bitAnd flags F.Optional ≠ 0 then (Except.ok Value.null, w)
    else (Except.error InjectorError, w)

/-! ## `injector_compatibility.js` -/

/-- Embedding of `setCurrentInjector` (lines 36-40): stores `injector`, returns `former`. -/
def setCurrentInjector {σ : Type} (injector : Value) (w : World σ) : Value × World σ :=
  let former := w._currentInjector
  (former, { w with _currentInjector := injector })

/-- Embedding of `injectInjectorOnly` (lines 41-51). -/
def injectInjectorOnly {σ : Type} (env : Env σ) (token : Value) (flags : Int) : Comp σ :=
  fun w =>
    if w._currentInjector = Value.undefined then
      (Except.error ContextError, w)
    else if w._currentInjector = Value.null then
      env.injectRootLimpMode token Value.undefined flags w
    else
      env.get w._currentInjector token
        (if bitAnd flags env.InjectFlags.Optional ≠ 0 then Value.null else Value.undefined) flags w

mutual

/-- Embedding of `ɵɵinject`, exported as `inject` (lines 52-54 and 100):
`(getInjectImplementation() || injectInjectorOnly)(resolveForwardRef(token), flags)`.
The first argument is fuel: every call of `inject` or `directiveInject` spends one unit,
and `none` means the fuel ran out. -/
def inject {σ : Type} (env : Env σ) : Nat → Value → Int → World σ → Option (Outcome × World σ)
  | 0, _, _, _ => none
  | fuel + 1, token, flags, w =>
    match getInjectImplementation w with
    | some InjectImpl.directiveInject =>
        directiveInject env fuel (env.resolveForwardRef token) flags w
    | some (InjectImpl.function f) =>
        some (env.call f (env.resolveForwardRef token) flags w)
    | none =>
        some (injectInjectorOnly env (env.resolveForwardRef token) flags w)

/-- Embedding of `ɵɵdirectiveInject` (`render3/instructions/di.js`, lines 13-24). -/
def directiveInject {σ : Type} (env : Env σ) :
    Nat → Value → Int → World σ → Option (Outcome × World σ)
  | 0, _, _, _ => none
  | fuel + 1, token, flags, w =>
    let lView := env.getLView w
    if lView = Value.null then
      match (if env.ngDevMode then
               assertInjectImplementationNotEqual InjectImpl.directiveInject w
             else Except.ok ()) with
      | Except.error e => some (Except.error e, w)
      | Except.ok _ => inject env fuel token flags w
    else
      let tNode := env.getCurrentTNode w
      some (env.getOrCreateInjectable tNode lView (env.resolveForwardRef token) flags w)

end

/-! ## Specification-side predicates -/

/-- The two not-found sentinels. -/
def isNotFoundSentinel (v : Value) : Bool :=
  v = Value.null || v = Value.undefined

/-- A collaborator call that leaves Current Injector State as it found it. -/
def PreservesCurrentInjector {σ : Type} (c : Comp σ) : Prop :=
  ∀ w : World σ, (c w).2._currentInjector = w._currentInjector

/-! ## A concrete environment

Render state is a single `Value`, the current render context (`null` when there is
none). The forward reference `object 100` stands for the token `object 1`. The injector
knows the token `object 1` only. -/

/-- Concrete collaborators used to evaluate the embedding on explicit inputs. -/
def sampleEnv : Env Value where
  ngDevMode := true
  InjectFlags := ⟨0, 1, 2, 4, 8⟩
  resolveForwardRef := fun v => if v = Value.object 100 then Value.object 1 else v
  injectRootLimpMode := defaultInjectRootLimpMode ⟨0, 1, 2, 4, 8⟩
  get := fun _recv token notFoundValue _flags w =>
    if token = Value.object 1 then (Except.ok (Value.string "service"), w)
    else if notFoundValue = Value.undefined then
      (Except.error (Thrown.foreign (Value.string "NullInjectorError")), w)
    else (Except.ok notFoundValue, w)
  call := fun f _token flags w => (Except.ok (Value.number (f + flags)), w)
  getLView := fun w => w.ext
  getCurrentTNode := fun _ => Value.object 50
  getOrCreateInjectable := fun _tNode _lView token _flags w =>
    if token = Value.object 1 then (Except.ok (Value.string "from the tree"), w)
    else (Except.ok Value.null, w)

/-- A world with the given injector slot and implementation slot, and no render context. -/
def sampleWorld (injector : Value) (impl : Option InjectImpl) : World Value :=
  ⟨injector, impl, Value.null⟩

/-- A world inside a render context (`object 60`), with `ɵɵdirectiveInject` installed. -/
def renderWorld : World Value :=
  ⟨Value.undefined, some InjectImpl.directiveInject, Value.object 60⟩

/-! ## Heap

Objects live in a heap indexed by address. An object has a prototype link, own enumerable
string-keyed properties in enumeration order, and, when it is an array, its elements.
Prototype links point to smaller addresses (an object's prototype exists before the
object does), so a property lookup from address `id` visits at most `id + 1` objects. -/

/-- One heap cell. `callable` tells `typeof` apart: `'function'` when set, `'object'`
otherwise. `items` are the elements of an array object. -/
structure Obj where
  proto : Option Nat
  callable : Bool
  props : List (String × Value)
  items : List Value

/-- The heap: every address holds a cell (by default an empty plain object). -/
abbrev Heap := Nat → Obj

/-- State of the world when the heap is part of it: the heap, and the rest. -/
structure Store (τ : Type) where
  heap : Heap
  rest : τ

/-- Own-property write on a property list: replaces the value in place when the key is
there, appends the pair otherwise. -/
def setProp : List (String × Value) → String → Value → List (String × Value)
  | [], key, x => [(key, x)]
  | (k, v) :: rest, key, x =>
    if k = key then (k, x) :: rest else (k, v) :: setProp rest key x

/-- Own-property read on a property list. -/
def getProp : List (String × Value) → String → Option Value
  | [], _ => none
  | (k, v) :: rest, key => if k = key then some v else getProp rest key

/-- Property lookup along the prototype chain, starting at address `id`. -/
def lookupChain (h : Heap) : Nat → Nat → String → Value
  | 0, _, _ => Value.undefined
  | fuel + 1, id, key =>
    match getProp (h id).props key with
    | some v => v
    | none =>
      match (h id).proto with
      | some p => lookupChain h fuel p key
      | none => Value.undefined

/-- The read `v[key]`, for the property names this code reads (none of which is defined
on the wrappers of primitives, nor is an array index or `length`). -/
def getProperty (h : Heap) (v : Value) (key : String) : Except Thrown Value :=
  match v with
  | Value.undefined => Except.error Thrown.typeError
  | Value.null => Except.error Thrown.typeError
  | Value.object id => Except.ok (lookupChain h (id + 1) id key)
  | Value.array id => Except.ok (lookupChain h (id + 1) id key)
  | _ => Except.ok Value.undefined

/-- The heap with the cell at `id` replaced. -/
def Heap.update (h : Heap) (id : Nat) (o : Obj) : Heap :=
  fun j => if j = id then o else h j

/-- The heap after the own property `key` of the object at `id` is set to `x`. -/
def Heap.setOwn (h : Heap) (id : Nat) (key : String) (x : Value) : Heap :=
  h.update id { h id with props := setProp (h id).props key x }

/-- The heap after `x` is put in front of the elements of the array at `id`. -/
def Heap.unshiftAt (h : Heap) (id : Nat) (x : Value) : Heap :=
  h.update id { h id with items := x :: (h id).items }

/-- The write `v[key] = x` (strict mode): an own property of the object `v`. -/
def setProperty (h : Heap) (v : Value) (key : String) (x : Value) : Except Thrown Heap :=
  match v with
  | Value.object id => Except.ok (h.setOwn id key x)
  | Value.array id => Except.ok (h.setOwn id key x)
  | _ => Except.error Thrown.typeError

/-- The call `arr.unshift(x)`: only arrays have the method. -/
def unshift (h : Heap) (arr : Value) (x : Value) : Except Thrown Heap :=
  match arr with
  | Value.array id => Except.ok (h.unshiftAt id x)
  | _ => Except.error Thrown.typeError

/-- JavaScript truthiness (`if (v)`, `v ? a : b`). -/
def truthy : Value → Bool
  | Value.undefined => false
  | Value.null => false
  | Value.bool b => b
  | Value.number n => n ≠ 0
  | Value.string s => s ≠ ""
  | Value.object _ => true
  | Value.array _ => true

/-- Names enumerated by `for (key in obj)`: own keys first, then the inherited ones that
are not shadowed. -/
def forInKeys (h : Heap) : Nat → Nat → List String
  | 0, _ => []
  | fuel + 1, id =>
    let own := (h id).props.map Prod.fst
    match (h id).proto with
    | some p => own ++ (forInKeys h fuel p).filter (fun k => !(own.contains k))
    | none => own

/-- The built-in `hasOwnProperty` of `Object.prototype`, applied to the object at address
`id`: whether `key` is an own property of it. -/
def hasOwnProperty (h : Heap) (id : Nat) (key : String) : Bool :=
  (getProp (h id).props key).isSome

/-- Search of a property along the prototype chain, starting at address `id`: the value
held by the first object of the chain that has `key` as own property, if there is one.
What `Object.prototype` itself provides is not part of the heap. -/
def findProperty (h : Heap) : Nat → Nat → String → Option Value
  | 0, _, _ => none
  | fuel + 1, id, key =>
    match getProp (h id).props key with
    | some v => some v
    | none =>
      match (h id).proto with
      | some p => findProperty h fuel p key
      | none => none

/-! ## Constants and library functions of `injector_compatibility.js` -/

/-- The constant `DI_DECORATOR_FLAG` (line 21). -/
def DI_DECORATOR_FLAG : String := "__NG_DI_FLAG__"

/-- The constant `NG_TEMP_TOKEN_PATH` (line 22). -/
def NG_TEMP_TOKEN_PATH : String := "ngTempTokenPath"

/-- The constant `NG_TOKEN_PATH` (line 23). -/
def NG_TOKEN_PATH : String := "ngTokenPath"

/-- The constant `NO_NEW_LINE` (line 25), the marker glyph. -/
def NO_NEW_LINE : Char := 'ɵ'

/-- The constant `SOURCE` (line 26). -/
def SOURCE : String := "__source"

/-- The error of `injectArgs` (line 107): `ArgumentError` in the taxonomy. -/
def ArgumentError : Thrown :=
  Thrown.newError "Arguments array must have arguments."

/-- Utility functions used for formatting, as parameters: `stringify` is
`util/stringify` (not under `src/`); `objectToString` is the string an object or array
operand of `+` is converted to; `callFunction h f thisArg arg` is the call of the function
object at address `f` with the given receiver and argument (code of the caller, which
returns a value or throws, and is taken to leave the heap alone). -/
structure Lib where
  stringify : Heap → Value → String
  objectToString : Heap → Value → String
  callFunction : Heap → Nat → Value → Value → Except Thrown Value

/-- The string that the operand `v` of `'\n' + v` is converted to. -/
def toStringValue (L : Lib) (h : Heap) (v : Value) : String :=
  match v with
  | Value.undefined => "undefined"
  | Value.null => "null"
  | Value.bool b => if b then "true" else "false"
  | Value.number n => toString n
  | Value.string s => s
  | Value.object id => L.objectToString h (Value.object id)
  | Value.array id => L.objectToString h (Value.array id)

/-- Lower-case hexadecimal digit. -/
def hexDigit (n : Nat) : Char :=
  if n < 10 then Char.ofNat (48 + n) else Char.ofNat (87 + n)

/-- Escape of one character inside a JSON string: the quotation mark (34), the reverse
solidus (92), and the control characters below 32. -/
def jsonEscape (c : Char) : List Char :=
  if c.toNat = 34 then [Char.ofNat 92, Char.ofNat 34]
  else if c.toNat = 92 then [Char.ofNat 92, Char.ofNat 92]
  else if c.toNat = 8 then [Char.ofNat 92, 'b']
  else if c.toNat = 9 then [Char.ofNat 92, 't']
  else if c.toNat = 10 then [Char.ofNat 92, 'n']
  else if c.toNat = 12 then [Char.ofNat 92, 'f']
  else if c.toNat = 13 then [Char.ofNat 92, 'r']
  else if c.toNat < 32 then
    [Char.ofNat 92, 'u', '0', '0', hexDigit (c.toNat / 16), hexDigit (c.toNat % 16)]
  else [c]

/-- The built-in `JSON.stringify` applied to a string: the escaped characters between
quotation marks. -/
def JSON_stringify (s : String) : String :=
  String.mk (Char.ofNat 34 :: (s.data.flatMap jsonEscape ++ [Char.ofNat 34]))

/-- Line 169 of `formatError`: a text that starts with a newline followed by the marker
glyph loses these two characters (`text.substr(2)`); any other text is kept. -/
def stripMarker (text : String) : String :=
  match text.data with
  | c0 :: c1 :: rest => if c0 = '\n' ∧ c1 = NO_NEW_LINE then String.mk rest else text
  | _ => text

/-- The call `text.replace(NEW_LINE, '\n  ')` of `formatError` (line 184), `NEW_LINE` being
the global pattern `/\n/gm`: every newline is followed by two added spaces. -/
def replaceNewLine : List Char → List Char
  | [] => []
  | c :: cs => if c = '\n' then '\n' :: ' ' :: ' ' :: replaceNewLine cs else c :: replaceNewLine cs

/-- The call `obj.hasOwnProperty(key)` of line 177, a method call on the object at
address `id`. The method is looked up on the object: when neither the object nor its
prototype chain defines a property named `hasOwnProperty`, it is the built-in of
`Object.prototype`; when that property holds a function object, this function is called
and its result taken as a truth value; when it holds anything else, the call throws a
`TypeError`. -/
def callHasOwnProperty (L : Lib) (h : Heap) (id : Nat) (key : String) : Except Thrown Bool :=
  match findProperty h (id + 1) id "hasOwnProperty" with
  | none => Except.ok (hasOwnProperty h id key)
  | some (Value.object f) =>
    if (h f).callable then
      match L.callFunction h f (Value.object id) (Value.string key) with
      | Except.error t => Except.error t
      | Except.ok v => Except.ok (truthy v)
    else Except.error Thrown.typeError
  | some _ => Except.error Thrown.typeError

/-- The loop of lines 176-181 over the enumerated keys that remain: the array `parts` of
the entries `key + ':' + value` of the keys for which `obj.hasOwnProperty(key)` holds, or
what the first failing call of `obj.hasOwnProperty` throws. -/
def formatErrorPartsLoop (L : Lib) (h : Heap) (id : Nat) :
    List String → Except Thrown (List String)
  | [] => Except.ok []
  | key :: rest =>
    match callHasOwnProperty L h id key with
    | Except.error t => Except.error t
    | Except.ok own =>
      match formatErrorPartsLoop L h id rest with
      | Except.error t => Except.error t
      | Except.ok parts =>
        if own then
          Except.ok ((key ++ ":" ++
            (match lookupChain h (id + 1) id key with
             | Value.string str => JSON_stringify str
             | value => L.stringify h value)) :: parts)
        else Except.ok parts

/-- The entries `key + ':' + value` that `formatError` collects for a non-list object
(lines 175-181). -/
def formatErrorParts (L : Lib) (h : Heap) (id : Nat) : Except Thrown (List String) :=
  formatErrorPartsLoop L h id (forInKeys h (id + 1) id)

/-- The variable `context` of `formatError` (lines 170-183): the path joined by `' -> '`
for an array; the entries between braces for a value whose `typeof` is `'object'` (`null`
included, which has no entry); `stringify(obj)` for anything else. The branch of the
object can throw, in the call of line 177. -/
def formatErrorContext (L : Lib) (h : Heap) (obj : Value) : Except Thrown String :=
  match obj with
  | Value.array id => Except.ok (" -> ".intercalate ((h id).items.map (L.stringify h)))
  | Value.null => Except.ok ("\x7b" ++ ", ".intercalate [] ++ "\x7d")
  | Value.object id =>
      if (h id).callable then Except.ok (L.stringify h obj)
      else
        match formatErrorParts L h id with
        | Except.error t => Except.error t
        | Except.ok parts => Except.ok ("\x7b" ++ ", ".intercalate parts ++ "\x7d")
  | _ => Except.ok (L.stringify h obj)

/-- Embedding of `formatError` (lines 168-185). `source` is `none` when it is `null` or
not passed. The result is the string returned, or what the computation of the context
throws. -/
def formatError (L : Lib) (h : Heap) (text : String) (obj : Value) (injectorErrorName : String)
    (source : Option String) : Except Thrown String :=
  let text := stripMarker text
  match formatErrorContext L h obj with
  | Except.error t => Except.error t
  | Except.ok context =>
    Except.ok (injectorErrorName ++
      (match source with
       | some src => if src ≠ "" then "(" ++ src ++ ")" else ""
       | none => "") ++
      "[" ++ context ++ "]: " ++ String.mk (replaceNewLine text.data))

/-- The processed text of `formatError`: the marker prefix stripped, then every newline
re-indented. -/
def processedText (text : String) : String :=
  String.mk (replaceNewLine (stripMarker text).data)

/-- Embedding of `getInjectFlag` (lines 155-157): `token[DI_DECORATOR_FLAG]`. -/
def getInjectFlag (h : Heap) (token : Value) : Except Thrown Value :=
  getProperty h token DI_DECORATOR_FLAG

/-- Embedding of `catchInjectorError` (lines 158-167). The result is the outcome together
with the heap as the function leaves it. -/
def catchInjectorError (L : Lib) (e token : Value) (injectorErrorName : String)
    (source : Option String) (h : Heap) : Outcome × Heap :=
  match getProperty h e NG_TEMP_TOKEN_PATH with
  | Except.error t => (Except.error t, h)
  | Except.ok tokenPath =>
    match getProperty h token SOURCE with
    | Except.error t => (Except.error t, h)
    | Except.ok src =>
      match (if truthy src then unshift h tokenPath src else Except.ok h) with
      | Except.error t => (Except.error t, h)
      | Except.ok h1 =>
        match getProperty h1 e "message" with
        | Except.error t => (Except.error t, h1)
        | Except.ok message =>
          match formatError L h1 ("\n" ++ toStringValue L h1 message) tokenPath
              injectorErrorName source with
          | Except.error t => (Except.error t, h1)
          | Except.ok newMessage =>
            match setProperty h1 e "message" (Value.string newMessage) with
            | Except.error t => (Except.error t, h1)
            | Except.ok h2 =>
              match setProperty h2 e NG_TOKEN_PATH tokenPath with
              | Except.error t => (Except.error t, h2)
              | Except.ok h3 =>
                match setProperty h3 e NG_TEMP_TOKEN_PATH Value.null with
                | Except.error t => (Except.error t, h3)
                | Except.ok h4 => (Except.error (Thrown.foreign e), h4)

/-! ## `injectArgs` -/

/-- Sequencing used by the loop of `injectArgs`: `args.push(<call>)` and then the rest
of the loop. A call that throws ends the loop with that error; a call that ran out of
fuel leaves no result. -/
def pushThen {σ : Type} (call : Option (Outcome × World σ))
    (next : Value → World σ → Option (Except Thrown (List Value) × World σ)) :
    Option (Except Thrown (List Value) × World σ) :=
  match call with
  | none => none
  | some (Except.error e, w) => some (Except.error e, w)
  | some (Except.ok v, w) => next v w

/-- The inner loop of `injectArgs` (lines 111-126) over the entries `meta` of one
decorator list, carrying the variables `type` and `flags`. A numeric annotation other than
`-1` is OR-ed into `flags` by `flags |= flag`, a 32-bit operation. -/
def injectArgsScan (h : Heap) : List Value → Value → Int → Except Thrown (Value × Int)
  | [], type, flags => Except.ok (type, flags)
  | meta :: rest, type, flags =>
    match getInjectFlag h meta with
    | Except.error t => Except.error t
    | Except.ok (Value.number flag) =>
      if flag = -1 then
        match getProperty h meta "token" with
        | Except.error t => Except.error t
        | Except.ok token => injectArgsScan h rest token flags
      else injectArgsScan h rest type (bitOr flags flag)
    | Except.ok _ => injectArgsScan h rest meta flags

/-- The outer loop of `injectArgs` (lines 103-132) over the remaining entries of `types`,
carrying the array `args` built so far. -/
def injectArgsLoop {τ : Type} (env : Env (Store τ)) (fuel : Nat) :
    List Value → List Value → World (Store τ) →
      Option (Except Thrown (List Value) × World (Store τ))
  | [], args, w => some (Except.ok args, w)
  | entry :: rest, args, w =>
    match env.resolveForwardRef entry with
    | Value.array id =>
      if (w.ext.heap id).items.length = 0 then some (Except.error ArgumentError, w)
      else
        match injectArgsScan w.ext.heap (w.ext.heap id).items Value.undefined
            env.InjectFlags.Default with
        | Except.error t => some (Except.error t, w)
        | Except.ok (type, flags) =>
          pushThen (inject env fuel type flags w)
            (fun v w1 => injectArgsLoop env fuel rest (args ++ [v]) w1)
    | arg =>
      pushThen (inject env fuel arg env.InjectFlags.Default w)
        (fun v w1 => injectArgsLoop env fuel rest (args ++ [v]) w1)

/-- Embedding of `injectArgs` (lines 101-134). The array `types` is given by its entries;
`fuel` bounds each call of `inject`. -/
def injectArgs {τ : Type} (env : Env (Store τ)) (fuel : Nat) (types : List Value)
    (w : World (Store τ)) : Option (Except Thrown (List Value) × World (Store τ)) :=
  injectArgsLoop env fuel types [] w

/-! ## Specification-side definitions for `injectArgs` -/

/-- The number a flag decorator carries as annotation (zero when the entry has no
numeric annotation). -/
def flagBits (h : Heap) (m : Value) : Int :=
  match getInjectFlag h m with
  | Except.ok (Value.number flag) => flag
  | _ => 0

/-- What one entry of a decorator list does to the variable `flags` (lines 115-122): a
numeric annotation other than `-1` is OR-ed in by `flags |= flag`; any other entry
leaves `flags` alone. -/
def orFlagStep (h : Heap) (acc : Int) (m : Value) : Int :=
  match getInjectFlag h m with
  | Except.ok (Value.number flag) => if flag = -1 then acc else bitOr acc flag
  | _ => acc

/-- The bitwise OR of the flag annotations of a list of entries, on top of `start`. -/
def orFlagBits (h : Heap) (start : Int) (ms : List Value) : Int :=
  ms.foldl (orFlagStep h) start

/-- A flag decorator: its annotation is a number other than `-1`. -/
def IsFlagDecorator (h : Heap) (m : Value) : Prop :=
  ∃ f : Int, f ≠ -1 ∧ getInjectFlag h m = Except.ok (Value.number f)

/-- A plain, un-annotated token inside a decorator list: reading its annotation gives
something that is not a number. -/
def IsPlainToken (h : Heap) (m : Value) : Prop :=
  ∃ v : Value, getInjectFlag h m = Except.ok v ∧ ∀ n : Int, v ≠ Value.number n

/-- An explicit-inject decorator carrying `token`: its annotation is `-1` (`Inject`). -/
def IsInjectDecorator (h : Heap) (m : Value) (token : Value) : Prop :=
  getInjectFlag h m = Except.ok (Value.number (-1)) ∧
    getProperty h m "token" = Except.ok token

/-- What the body of the loop of `injectArgs` does for one entry, up to the `push`: the
single call of `inject` it makes, or the failure that comes before any call. -/
def injectArgsEntry {τ : Type} (env : Env (Store τ)) (fuel : Nat) (entry : Value)
    (w : World (Store τ)) : Option (Outcome × World (Store τ)) :=
  match env.resolveForwardRef entry with
  | Value.array id =>
    if (w.ext.heap id).items.length = 0 then some (Except.error ArgumentError, w)
    else
      match injectArgsScan w.ext.heap (w.ext.heap id).items Value.undefined
          env.InjectFlags.Default with
      | Except.error t => some (Except.error t, w)
      | Except.ok (type, flags) => inject env fuel type flags w
  | arg => inject env fuel arg env.InjectFlags.Default w

/-- Spec side of `injectArgs` on plain tokens: inject each token in input order with
default flags and collect the values; the first failure ends it. -/
def injectEach {τ : Type} (env : Env (Store τ)) (fuel : Nat) :
    List Value → World (Store τ) → Option (Except Thrown (List Value) × World (Store τ))
  | [], w => some (Except.ok [], w)
  | token :: rest, w =>
    pushThen (inject env fuel token env.InjectFlags.Default w) (fun v w1 =>
      match injectEach env fuel rest w1 with
      | none => none
      | some (Except.error e, w2) => some (Except.error e, w2)
      | some (Except.ok vs, w2) => some (Except.ok (v :: vs), w2))

/-- Two environments whose resolution targets (the installed function, the injector's
`get`, the limp-mode fallback, the tree walker) agree on every token that is a result of
`resolveForwardRef`, and which are otherwise the same. -/
def AgreeOnResolved {σ : Type} (env env2 : Env σ) : Prop :=
  env2.ngDevMode = env.ngDevMode ∧ env2.InjectFlags = env.InjectFlags ∧
  env2.resolveForwardRef = env.resolveForwardRef ∧
  env2.getLView = env.getLView ∧ env2.getCurrentTNode = env.getCurrentTNode ∧
  (∀ t n f w, env2.injectRootLimpMode (env.resolveForwardRef t) n f w =
    env.injectRootLimpMode (env.resolveForwardRef t) n f w) ∧
  (∀ r t n f w, env2.get r (env.resolveForwardRef t) n f w =
    env.get r (env.resolveForwardRef t) n f w) ∧
  (∀ g t f w, env2.call g (env.resolveForwardRef t) f w =
    env.call g (env.resolveForwardRef t) f w) ∧
  (∀ n l t f w, env2.getOrCreateInjectable n l (env.resolveForwardRef t) f w =
    env.getOrCreateInjectable n l (env.resolveForwardRef t) f w)

/-! ## A concrete heap

Address 1 is the service class, 2 another class, 3 a token with the source label `A`;
20 is an `Inject` decorator carrying the token at 1, 21 the `Host` decorator (bit 1), 22 the
`Optional` decorator (bit 8); 30 to 33 are decorator lists; 40 is an error object whose
temporary path is the array at 41. -/

/-- Concrete heap used to evaluate the embedding on explicit inputs. -/
def sampleHeap : Heap := fun id =>
  match id with
  | 1 => ⟨none, true, [], []⟩
  | 2 => ⟨none, true, [], []⟩
  | 3 => ⟨none, true, [(SOURCE, Value.string "A")], []⟩
  | 20 => ⟨none, false, [(DI_DECORATOR_FLAG, Value.number (-1)), ("token", Value.object 1)], []⟩
  | 21 => ⟨none, false, [(DI_DECORATOR_FLAG, Value.number 1)], []⟩
  | 22 => ⟨none, false, [(DI_DECORATOR_FLAG, Value.number 8)], []⟩
  | 30 => ⟨none, false, [], [Value.object 20, Value.object 21]⟩
  | 31 => ⟨none, false, [], []⟩
  | 32 => ⟨none, false, [], [Value.object 20, Value.object 2]⟩
  | 33 => ⟨none, false, [], [Value.object 22, Value.object 20, Value.object 21]⟩
  | 40 => ⟨none, false,
      [("message", Value.string "msg"), (NG_TEMP_TOKEN_PATH, Value.array 41)], []⟩
  | 41 => ⟨none, false, [], [Value.string "B"]⟩
  | 42 => ⟨none, false, [], [Value.string "A", Value.string "B"]⟩
  | _ => ⟨none, false, [], []⟩

/-- Concrete formatting utilities: `stringify` returns a string as it is. -/
def sampleLib : Lib where
  stringify := fun _ v =>
    match v with
    | Value.string s => s
    | Value.number n => toString n
    | _ => "?"
  objectToString := fun _ _ => "[object Object]"
  callFunction := fun _ _ _ _ => Except.ok (Value.bool false)

/-- The collaborators of `sampleEnv`, over a world that holds a heap and, as render
state, the current render context. The injector knows the token `object 1` only; asked
for it with flags `f` it answers `number f` when `f` is not zero. -/
def storeEnv : Env (Store Value) where
  ngDevMode := true
  InjectFlags := ⟨0, 1, 2, 4, 8⟩
  resolveForwardRef := fun v => if v = Value.object 100 then Value.object 1 else v
  injectRootLimpMode := defaultInjectRootLimpMode ⟨0, 1, 2, 4, 8⟩
  get := fun _recv token notFoundValue flags w =>
    if token = Value.object 1 then
      (Except.ok (if flags = 0 then Value.string "service" else Value.number flags), w)
    else if notFoundValue = Value.undefined then
      (Except.error (Thrown.foreign (Value.string "NullInjectorError")), w)
    else (Except.ok notFoundValue, w)
  call := fun f _token flags w => (Except.ok (Value.number (f + flags)), w)
  getLView := fun w => w.ext.rest
  getCurrentTNode := fun _ => Value.object 50
  getOrCreateInjectable := fun _tNode _lView token _flags w =>
    if token = Value.object 1 then (Except.ok (Value.string "from the tree"), w)
    else (Except.ok Value.null, w)

/-- A world over `sampleHeap` with the injector `object 9` current, nothing installed and
no render context. -/
def storeWorld : World (Store Value) :=
  ⟨Value.object 9, none, ⟨sampleHeap, Value.null⟩⟩

/-! ## `attachInjectFlag` -/

/-- Embedding of `attachInjectFlag` (lines 145-149): writes the flag on the decorator
and on the object its `prototype` property holds, and returns the decorator. The result
is the outcome together with the heap as the function leaves it. -/
def attachInjectFlag (decorator flag : Value) (h : Heap) : Outcome × Heap :=
  match setProperty h decorator DI_DECORATOR_FLAG flag with
  | Except.error t => (Except.error t, h)
  | Except.ok h1 =>
    match getProperty h1 decorator "prototype" with
    | Except.error t => (Except.error t, h1)
    | Except.ok prototype =>
      match setProperty h1 prototype DI_DECORATOR_FLAG flag with
      | Except.error t => (Except.error t, h1)
      | Except.ok h2 => (Except.ok decorator, h2)

/-! ## Specification-side definitions for `formatError` -/

/-- Spec side of a joined path: the strings in list order with the separator between
neighbours, none in front and none behind. -/
def joinWith (sep : String) : List String → String
  | [] => ""
  | [x] => x
  | x :: y :: rest => x ++ sep ++ joinWith sep (y :: rest)

/-- Spec side of one rendered entry of a mapping: `key + ':' + value`, a string value
JSON-quoted, any other value rendered by `stringify`. -/
def renderEntry (L : Lib) (h : Heap) (entry : String × Value) : String :=
  entry.1 ++ ":" ++
    (match entry.2 with
     | Value.string str => JSON_stringify str
     | value => L.stringify h value)

/-- Spec side of the parenthesised source label: present when the label is a non-empty
string. -/
def sourcePart (source : Option String) : String :=
  match source with
  | some src => if src ≠ "" then "(" ++ src ++ ")" else ""
  | none => ""

/-- Spec side of the re-indentation: each newline becomes a newline and two spaces, any
other character stays. -/
def indentChar (c : Char) : List Char :=
  if c = '\n' then ['\n', ' ', ' '] else [c]

/-! ## `util/comparison.js`

`devModeEqual` only looks at the shape of its arguments: whether a value is list-like
and what its iteration yields, whether it is an object or a function, and which scalar it
is. `CmpValue` is a finite value seen that way. -/

/-- A finite JavaScript value as `devModeEqual` sees it. `number` is an integer other
than negative zero; `object` and `function` are references to values that are not
list-like; `list` is a reference to a list-like iterable together with the items its
iteration yields, in order. -/
inductive CmpValue where
  | undefined
  | null
  | bool (b : Bool)
  | number (n : Int)
  | negZero
  | nan
  | string (s : String)
  | object (id : Nat)
  | function (id : Nat)
  | list (id : Nat) (items : List CmpValue)

/-- Modelled from the spec: `isListLikeIterable` of `util/iterable` (not under `src/`):
whether the value is list-like (iterable, array-like). -/
def isListLikeIterable : CmpValue → Bool
  | CmpValue.list _ _ => true
  | _ => false

/-- Modelled from the spec: `areIterablesEqual` of `util/iterable` (not under `src/`):
compares the items of two iterations element-wise, in order, with the comparator; the
iterations are equal when they end together and no pair of items differs. -/
def areIterablesEqual {α : Type} (comparator : α → α → Bool) : List α → List α → Bool
  | [], [] => true
  | x :: xs, y :: ys => if comparator x y then areIterablesEqual comparator xs ys else false
  | _, _ => false

/-- The items a list-like value yields (none for any other value). -/
def itemsOf : CmpValue → List CmpValue
  | CmpValue.list _ items => items
  | _ => []

/-- JavaScript truthiness of a `CmpValue`. -/
def CmpValue.truthy : CmpValue → Bool
  | CmpValue.undefined => false
  | CmpValue.null => false
  | CmpValue.bool b => b
  | CmpValue.number n => n ≠ 0
  | CmpValue.negZero => false
  | CmpValue.nan => false
  | CmpValue.string s => s ≠ ""
  | CmpValue.object _ => true
  | CmpValue.function _ => true
  | CmpValue.list _ _ => true

/-- The operator `typeof` on a `CmpValue`. -/
def CmpValue.typeof : CmpValue → String
  | CmpValue.undefined => "undefined"
  | CmpValue.null => "object"
  | CmpValue.bool _ => "boolean"
  | CmpValue.number _ => "number"
  | CmpValue.negZero => "number"
  | CmpValue.nan => "number"
  | CmpValue.string _ => "string"
  | CmpValue.object _ => "object"
  | CmpValue.function _ => "function"
  | CmpValue.list _ _ => "object"

/-- The built-in `Object.is` (same-value identity): scalars by value, with `NaN` the same
as `NaN` and zero not the same as negative zero; references by identity. -/
def objectIs : CmpValue → CmpValue → Bool
  | CmpValue.undefined, CmpValue.undefined => true
  | CmpValue.null, CmpValue.null => true
  | CmpValue.bool a, CmpValue.bool b => a = b
  | CmpValue.number a, CmpValue.number b => a = b
  | CmpValue.negZero, CmpValue.negZero => true
  | CmpValue.nan, CmpValue.nan => true
  | CmpValue.string a, CmpValue.string b => a = b
  | CmpValue.object i, CmpValue.object j => i = j
  | CmpValue.function i, CmpValue.function j => i = j
  | CmpValue.list i _, CmpValue.list j _ => i = j
  | _, _ => false

/-- The variable `isAObject` of `devModeEqual` (lines 16-17):
`a && (typeof a === 'object' || typeof a === 'function')`, as a truth value. -/
def isObjectLike (a : CmpValue) : Bool :=
  a.truthy && (a.typeof = "object" || a.typeof = "function")

mutual

/-- Embedding of `devModeEqual` (lines 9-25). The first case is the branch where both
values are list-like: the call `areIterablesEqual(a, b, devModeEqual)` is spelled out as
`devModeEqualItems` so that the recursion descends into the items. The second case is the
`else` branch. -/
def devModeEqual : CmpValue → CmpValue → Bool
  | CmpValue.list _ xs, CmpValue.list _ ys => devModeEqualItems xs ys
  | a, b =>
    let isAObject := isObjectLike a
    let isBObject := isObjectLike b
    if !isListLikeIterable a && isAObject && !isListLikeIterable b && isBObject then true
    else objectIs a b

/-- The call `areIterablesEqual(a, b, devModeEqual)` on the items of `a` and `b`. -/
def devModeEqualItems : List CmpValue → List CmpValue → Bool
  | [], [] => true
  | x :: xs, y :: ys => if devModeEqual x y then devModeEqualItems xs ys else false
  | _, _ => false

end

/-! ## `render3/features/copy_definition_feature.js` -/

/-- The constant `COPY_DIRECTIVE_FIELDS` (lines 14-17). -/
def COPY_DIRECTIVE_FIELDS : List String :=
  ["providersResolver"]

/-- The constant `COPY_COMPONENT_FIELDS` (lines 25-39). -/
def COPY_COMPONENT_FIELDS : List String :=
  ["template", "decls", "consts", "vars", "onPush", "ngContentSelectors", "styles",
    "encapsulation", "schemas"]

/-- The functions `copy_definition_feature.js` takes from modules outside `src/`, as
parameters: `getSuperType` (`inherit_definition_feature`) and the component-kind
discriminator `isComponentDef` (`interfaces/type_checks`). -/
structure DefLib where
  getSuperType : Heap → Value → Value
  isComponentDef : Heap → Value → Bool

/-- The loops of `ɵɵCopyDefinitionFeature` (lines 70-72 and 75-77):
`defAny[field] = superDef[field]` for each field of the list, in order. -/
def copyFields (defAny superDef : Value) : List String → Heap → Except Thrown Unit × Heap
  | [], h => (Except.ok (), h)
  | field :: rest, h =>
    match getProperty h superDef field with
    | Except.error t => (Except.error t, h)
    | Except.ok v =>
      match setProperty h defAny field v with
      | Except.error t => (Except.error t, h)
      | Except.ok h1 => copyFields defAny superDef rest h1

/-- Embedding of `ɵɵCopyDefinitionFeature` (lines 56-79). The result is the outcome
(`undefined` when the call completes) together with the heap as the function leaves it. -/
def CopyDefinitionFeature (D : DefLib) (definition : Value) (h : Heap) : Outcome × Heap :=
  match getProperty h definition "type" with
  | Except.error t => (Except.error t, h)
  | Except.ok type =>
    let superType := D.getSuperType h type
    match (if D.isComponentDef h definition then getProperty h superType "ɵcmp"
           else getProperty h superType "ɵdir") with
    | Except.error t => (Except.error t, h)
    | Except.ok superDef =>
      match copyFields definition superDef COPY_DIRECTIVE_FIELDS h with
      | (Except.error t, h1) => (Except.error t, h1)
      | (Except.ok _, h1) =>
        if D.isComponentDef h1 superDef then
          match copyFields definition superDef COPY_COMPONENT_FIELDS h1 with
          | (Except.error t, h2) => (Except.error t, h2)
          | (Except.ok _, h2) => (Except.ok Value.undefined, h2)
        else (Except.ok Value.undefined, h1)

/-! ## More concrete objects

`recordHeap` extends `sampleHeap`. Address 60 is the mapping with `a` set to the string
`x` and `b` set to 1; 62 is a mapping with the own key `own` whose prototype, at 59, has
the key `inherited`; 63 is an empty mapping; 64 is the mapping whose only key is
`hasOwnProperty`, set to 1. Address 80 is a decorator function whose
`prototype` is the object at 79, and 81 an instance created from it. Addresses 90 to 98
are classes and definitions: the class at 91 carries the component definition at 90, the
class at 95 the directive definition at 94; the definitions at 93 (component-kind), 97
(directive-kind) and 98 (component-kind) belong to child classes, 92 below 91 and 96 below
95. -/

/-- Concrete heap for the formatting, annotation and definition-copy examples. -/
def recordHeap : Heap := fun id =>
  match id with
  | 59 => ⟨none, false, [("inherited", Value.string "i")], []⟩
  | 60 => ⟨none, false, [("a", Value.string "x"), ("b", Value.number 1)], []⟩
  | 62 => ⟨some 59, false, [("own", Value.number 2)], []⟩
  | 64 => ⟨none, false, [("hasOwnProperty", Value.number 1)], []⟩
  | 79 => ⟨none, false, [], []⟩
  | 80 => ⟨none, true, [("prototype", Value.object 79)], []⟩
  | 81 => ⟨some 79, false, [], []⟩
  | 90 => ⟨none, false,
      [("providersResolver", Value.object 190), ("template", Value.object 191),
       ("decls", Value.number 3), ("consts", Value.null), ("vars", Value.number 2),
       ("onPush", Value.bool true), ("ngContentSelectors", Value.null),
       ("styles", Value.array 192), ("encapsulation", Value.number 0),
       ("schemas", Value.null)], []⟩
  | 91 => ⟨none, true, [("ɵcmp", Value.object 90)], []⟩
  | 93 => ⟨none, false,
      [("type", Value.object 92), ("template", Value.object 193),
       ("inputs", Value.string "childInputs")], []⟩
  | 94 => ⟨none, false,
      [("providersResolver", Value.object 194), ("template", Value.null)], []⟩
  | 95 => ⟨none, true, [("ɵdir", Value.object 94)], []⟩
  | 97 => ⟨none, false,
      [("type", Value.object 96), ("template", Value.null), ("decls", Value.number 7)], []⟩
  | 98 => ⟨none, false, [("type", Value.object 96), ("template", Value.object 195)], []⟩
  | n => sampleHeap n

/-- Concrete definition utilities: the class at 92 extends the one at 91, the class at 96
the one at 95; a definition is component-kind when its `template` is not `null`. -/
def sampleDefLib : DefLib where
  getSuperType := fun _ type =>
    if type = Value.object 92 then Value.object 91
    else if type = Value.object 96 then Value.object 95
    else Value.undefined
  isComponentDef := fun h v =>
    match getProperty h v "template" with
    | Except.ok Value.null => false
    | Except.ok _ => true
    | Except.error _ => false

/-! ## `render3/view_engine_compatibility_prebound.js` -/

/-- The functions and constants `ɵɵinjectPipeChangeDetectorRef` takes from modules outside
`src/`, as parameters: the `InjectFlags` enumeration, `injectChangeDetectorRef`
(`change_detection/change_detector_ref`) and `throwProviderNotFoundError`
(`render3/errors_di`). Both functions are effectful calls that return or throw. -/
structure PipeLib (σ : Type) where
  InjectFlags : InjectFlags
  injectChangeDetectorRef : Bool → Comp σ
  throwProviderNotFoundError : String → Comp σ

/-- Embedding of `ɵɵinjectPipeChangeDetectorRef` (lines 26-34). `flags` is `none` when the
argument is not passed, and then takes the default `InjectFlags.Default`. The test
`value == null` holds of `null` and `undefined` only. The branch of line 29 has no
`return`: should the call on that line return, the function returns `undefined`. -/
def injectPipeChangeDetectorRef {σ : Type} (P : PipeLib σ) (flags : Option Int) : Comp σ :=
  fun w =>
    let flags := match flags with
      | some f => f
      | none => P.InjectFlags.Default
    match P.injectChangeDetectorRef true w with
    | (Except.error t, w1) => (Except.error t, w1)
    | (Except.ok value, w1) =>
      if (value = Value.null ∨ value = Value.undefined) ∧
          bitAnd flags P.InjectFlags.Optional = 0 then
        match P.throwProviderNotFoundError "ChangeDetectorRef" w1 with
        | (Except.error t, w2) => (Except.error t, w2)
        | (Except.ok _, w2) => (Except.ok Value.undefined, w2)
      else (Except.ok value, w1)

/-- Concrete pipe utilities over a world whose extra state is the change detector at hand:
`injectChangeDetectorRef` returns it, `throwProviderNotFoundError` throws an error that
names the token. -/
def samplePipeLib : PipeLib Value where
  InjectFlags := ⟨0, 1, 2, 4, 8⟩
  injectChangeDetectorRef := fun _ w => (Except.ok w.ext, w)
  throwProviderNotFoundError := fun token w =>
    (Except.error (Thrown.newError ("No provider for " ++ token ++ " found")), w)

/-! ## More decorator lists

`argsHeap` extends `sampleHeap`. Address 23 is a decorator whose annotation is the number
2147483648, which has bit 31 set, and 24 one whose annotation is -2. The decorator lists
without explicit-inject decorator are 34, `[Host, Y, Optional]`, 35, `[Host, Optional]`,
36, `[Optional, Y]`, 38, `[Host, 23]`, and 39, `[24]`, where `Y` is the class at 2; the
list 37 is `[Inject(X), 23]`. -/

/-- Concrete heap for more decorator lists. -/
def argsHeap : Heap := fun id =>
  match id with
  | 23 => ⟨none, false, [(DI_DECORATOR_FLAG, Value.number 2147483648)], []⟩
  | 24 => ⟨none, false, [(DI_DECORATOR_FLAG, Value.number (-2))], []⟩
  | 34 => ⟨none, false, [], [Value.object 21, Value.object 2, Value.object 22]⟩
  | 35 => ⟨none, false, [], [Value.object 21, Value.object 22]⟩
  | 36 => ⟨none, false, [], [Value.object 22, Value.object 2]⟩
  | 37 => ⟨none, false, [], [Value.object 20, Value.object 23]⟩
  | 38 => ⟨none, false, [], [Value.object 21, Value.object 23]⟩
  | 39 => ⟨none, false, [], [Value.object 24]⟩
  | n => sampleHeap n

/-- A world over `argsHeap` with the given current injector, nothing installed and no
render context. -/
def argsWorld (injector : Value) : World (Store Value) :=
  ⟨injector, none, ⟨argsHeap, Value.null⟩⟩

/-- An environment like `storeEnv` whose injector knows the token `object 1` only and, for
any other token, throws whatever the not-found value and the flags are. -/
def failingEnv : Env (Store Value) :=
  { storeEnv with get := fun _recv token _notFoundValue _flags w => if token = Value.object 1 then (Except.ok (Value.string "service"), w) else (Except.error (Thrown.foreign (Value.string "ConstructionError")), w) }

/-! ## Helper lemmas -/

theorem inject_succ {σ : Type} (env : Env σ) (fuel : Nat) (token : Value) (flags : Int)
    (w : World σ) :
    inject env (fuel + 1) token flags w =
      match getInjectImplementation w with
      | some InjectImpl.directiveInject =>
          directiveInject env fuel (env.resolveForwardRef token) flags w
      | some (InjectImpl.function f) =>
          some (env.call f (env.resolveForwardRef token) flags w)
      | none => some (injectInjectorOnly env (env.resolveForwardRef token) flags w) := by
  rw [inject]

theorem directiveInject_succ {σ : Type} (env : Env σ) (fuel : Nat) (token : Value)
    (flags : Int) (w : World σ) :
    directiveInject env (fuel + 1) token flags w =
      if env.getLView w = Value.null then
        match (if env.ngDevMode then
                 assertInjectImplementationNotEqual InjectImpl.directiveInject w
               else Except.ok ()) with
        | Except.error e => some (Except.error e, w)
        | Except.ok _ => inject env fuel token flags w
      else
        some (env.getOrCreateInjectable (env.getCurrentTNode w) (env.getLView w)
          (env.resolveForwardRef token) flags w) := by
  rw [directiveInject]

/-- With an implementation installed, neither `inject` nor `directiveInject` depends on
the flat collaborators (the injector's `get` and the limp-mode fallback). -/
theorem installed_ignores_flat {σ : Type} (env : Env σ)
    (limp : Value → Value → Int → Comp σ) (get : Value → Value → Value → Int → Comp σ)
    (fuel : Nat) :
    ∀ (token : Value) (flags : Int) (w : World σ), getInjectImplementation w ≠ none →
      inject { env with injectRootLimpMode := limp, get := get } fuel token flags w =
          inject env fuel token flags w ∧
      directiveInject { env with injectRootLimpMode := limp, get := get } fuel token flags w =
          directiveInject env fuel token flags w := by
  induction fuel with
  | zero =>
    intro token flags w _
    constructor
    · rw [inject, inject]
    · rw [directiveInject, directiveInject]
  | succ n ih =>
    intro token flags w hw
    constructor
    · rw [inject_succ, inject_succ]
      cases himpl : getInjectImplementation w with
      | none => exact absurd himpl hw
      | some impl =>
        cases impl with
        | directiveInject => exact (ih _ flags w hw).2
        | function f => rfl
    · rw [directiveInject_succ, directiveInject_succ]
      by_cases hl : env.getLView w = Value.null
      · simp only [hl, if_true]
        cases (if env.ngDevMode then
            assertInjectImplementationNotEqual InjectImpl.directiveInject w
          else Except.ok ()) with
        | error e => rfl
        | ok u => exact (ih token flags w hw).1
      · simp only [hl, if_false]

/-- If every collaborator leaves Current Injector State as it found it, so do
`injectInjectorOnly`, `inject` and `directiveInject`, on their return path and on their
throw path alike. -/
theorem resolution_preserves_currentInjector {σ : Type} (env : Env σ)
    (hlimp : ∀ t n f, PreservesCurrentInjector (env.injectRootLimpMode t n f))
    (hget : ∀ r t n f, PreservesCurrentInjector (env.get r t n f))
    (hcall : ∀ g t f, PreservesCurrentInjector (env.call g t f))
    (htree : ∀ n l t f, PreservesCurrentInjector (env.getOrCreateInjectable n l t f)) :
    (∀ (token : Value) (flags : Int) (w : World σ),
      (injectInjectorOnly env token flags w).2._currentInjector = w._currentInjector) ∧
    ∀ (fuel : Nat) (token : Value) (flags : Int) (w : World σ) (out : Outcome) (w2 : World σ),
      (inject env fuel token flags w = some (out, w2) →
        w2._currentInjector = w._currentInjector) ∧
      (directiveInject env fuel token flags w = some (out, w2) →
        w2._currentInjector = w._currentInjector) := by
  have honly : ∀ (token : Value) (flags : Int) (w : World σ),
      (injectInjectorOnly env token flags w).2._currentInjector = w._currentInjector := by
    intro token flags w
    unfold injectInjectorOnly
    by_cases h1 : w._currentInjector = Value.undefined
    · rw [if_pos h1]
    · rw [if_neg h1]
      by_cases h2 : w._currentInjector = Value.null
      · rw [if_pos h2]
        exact hlimp _ _ _ w
      · rw [if_neg h2]
        exact hget _ _ _ _ w
  refine ⟨honly, ?_⟩
  intro fuel
  induction fuel with
  | zero =>
    intro token flags w out w2
    constructor
    · intro h
      rw [inject] at h
      exact Option.noConfusion h
    · intro h
      rw [directiveInject] at h
      exact Option.noConfusion h
  | succ n ih =>
    intro token flags w out w2
    constructor
    · intro h
      rw [inject_succ] at h
      cases himpl : getInjectImplementation w with
      | none =>
        rw [himpl] at h
        have h2 := Option.some.inj h
        have h3 : _ = w2 := congrArg Prod.snd h2
        subst h3
        exact honly _ _ w
      | some impl =>
        rw [himpl] at h
        cases impl with
        | directiveInject => exact (ih _ flags w out w2).2 h
        | function f =>
          have h2 := Option.some.inj h
          have h3 : _ = w2 := congrArg Prod.snd h2
          subst h3
          exact hcall _ _ _ w
    · intro h
      rw [directiveInject_succ] at h
      by_cases hl : env.getLView w = Value.null
      · rw [if_pos hl] at h
        cases hg : (if env.ngDevMode then
            assertInjectImplementationNotEqual InjectImpl.directiveInject w
          else Except.ok ()) with
        | error e =>
          rw [hg] at h
          have h2 := Option.some.inj h
          have h3 : _ = w2 := congrArg Prod.snd h2
          subst h3
          rfl
        | ok u =>
          rw [hg] at h
          exact (ih token flags w out w2).1 h
      · rw [if_neg hl] at h
        have h2 := Option.some.inj h
        have h3 : _ = w2 := congrArg Prod.snd h2
        subst h3
        exact htree _ _ _ _ w

/-- Every collaborator of `sampleEnv` hands back the world it was given. -/
theorem sampleEnv_preserves :
    (∀ t n f, PreservesCurrentInjector (sampleEnv.injectRootLimpMode t n f)) ∧
    (∀ r t n f, PreservesCurrentInjector (sampleEnv.get r t n f)) ∧
    (∀ g t f, PreservesCurrentInjector (sampleEnv.call g t f)) ∧
    (∀ n l t f, PreservesCurrentInjector (sampleEnv.getOrCreateInjectable n l t f)) := by
  refine ⟨?_, ?_, ?_, ?_⟩
  · intro t n f w
    simp only [sampleEnv, defaultInjectRootLimpMode]
    split_ifs <;> rfl
  · intro r t n f w
    simp only [sampleEnv]
    split_ifs <;> rfl
  · intro g t f w
    rfl
  · intro n l t f w
    simp only [sampleEnv]
    split_ifs <;> rfl

/-- In limp mode `injectInjectorOnly` is the limp-mode fallback applied to
`(token, undefined, flags)`. -/
theorem injectInjectorOnly_of_null {σ : Type} (env : Env σ) (token : Value) (flags : Int)
    (w : World σ) (hlimp : w._currentInjector = Value.null) :
    injectInjectorOnly env token flags w =
      env.injectRootLimpMode token Value.undefined flags w := by
  have hne : w._currentInjector ≠ Value.undefined := by
    rw [hlimp]
    exact fun hv => Value.noConfusion hv
  unfold injectInjectorOnly
  rw [if_neg hne, if_pos hlimp]

/-! ## Claims -/

/-- C1. `inject` resolves the token's forward reference and hands the resolved token and
the unchanged flags to the active global implementation when one is installed (another
function object, or `directiveInject` itself), and to `injectInjectorOnly` when none is;
outcome and world are exactly the callee's. With an implementation installed the result
does not depend on what `injectInjectorOnly` would consult (the injector's `get`, the
limp-mode fallback), for any amount of fuel. -/
theorem inject_delegates {σ : Type} (env : Env σ) (fuel : Nat) (token : Value) (flags : Int)
    (w : World σ) :
    (∀ f : Nat, getInjectImplementation w = some (InjectImpl.function f) →
      inject env (fuel + 1) token flags w =
        some (env.call f (env.resolveForwardRef token) flags w)) ∧
    (getInjectImplementation w = some InjectImpl.directiveInject →
      inject env (fuel + 1) token flags w =
        directiveInject env fuel (env.resolveForwardRef token) flags w) ∧
    (getInjectImplementation w = none →
      inject env (fuel + 1) token flags w =
        some (injectInjectorOnly env (env.resolveForwardRef token) flags w)) ∧
    (getInjectImplementation w ≠ none →
      ∀ (limp : Value → Value → Int → Comp σ) (get : Value → Value → Value → Int → Comp σ),
        inject { env with injectRootLimpMode := limp, get := get } fuel token flags w =
          inject env fuel token flags w) := by
  refine ⟨?_, ?_, ?_, ?_⟩
  · intro f hf
    rw [inject_succ, hf]
  · intro hd
    rw [inject_succ, hd]
  · intro hn
    rw [inject_succ, hn]
  · intro hw limp get
    exact (installed_ignores_flat env limp get fuel token flags w hw).1

/-- C1 at concrete inputs: the forward reference `object 100` reaches an installed
function as `object 1`; with `directiveInject` installed inside a render context the tree
walker answers; with nothing installed the injector answers. -/
theorem inject_delegates_witness :
    inject sampleEnv 1 (Value.object 100) 8
        (sampleWorld Value.undefined (some (InjectImpl.function 5))) =
      some (sampleEnv.call 5 (Value.object 1) 8
        (sampleWorld Value.undefined (some (InjectImpl.function 5)))) ∧
    inject sampleEnv 2 (Value.object 100) 0 renderWorld =
      some (Except.ok (Value.string "from the tree"), renderWorld) ∧
    inject sampleEnv 1 (Value.object 100) 0 (sampleWorld (Value.object 9) none) =
      some (Except.ok (Value.string "service"), sampleWorld (Value.object 9) none) ∧
    inject { sampleEnv with
        injectRootLimpMode := fun _ _ _ w => (Except.ok Value.null, w),
        get := fun _ _ _ _ w => (Except.ok Value.null, w) } 2 (Value.object 100) 0 renderWorld =
      inject sampleEnv 2 (Value.object 100) 0 renderWorld :=
  ⟨(inject_delegates sampleEnv 0 (Value.object 100) 8
      (sampleWorld Value.undefined (some (InjectImpl.function 5)))).1 5 rfl,
   ((inject_delegates sampleEnv 1 (Value.object 100) 0 renderWorld).2.1 rfl).trans rfl,
   ((inject_delegates sampleEnv 0 (Value.object 100) 0
      (sampleWorld (Value.object 9) none)).2.2.1 rfl).trans rfl,
   (inject_delegates sampleEnv 2 (Value.object 100) 0 renderWorld).2.2.2 (by decide)
      (fun _ _ _ w => (Except.ok Value.null, w)) (fun _ _ _ _ w => (Except.ok Value.null, w))⟩

/-- C2. While Current Injector State holds a concrete injector (neither `undefined` nor
`null`), `injectInjectorOnly` returns exactly what that injector's
`get(token, notFoundValue, flags)` returns, with the token and the flags passed through
unchanged, where `notFoundValue` is `null` if and only if the Optional bit is set in
`flags` and is `undefined` otherwise. -/
theorem injectInjectorOnly_concrete_injector {σ : Type} (env : Env σ) (token : Value)
    (flags : Int) (w : World σ)
    (hset : w._currentInjector ≠ Value.undefined) (hlimp : w._currentInjector ≠ Value.null) :
    ∃ notFoundValue : Value,
      injectInjectorOnly env token flags w =
        env.get w._currentInjector token notFoundValue flags w ∧
      (notFoundValue = Value.null ↔ bitAnd flags env.InjectFlags.Optional ≠ 0) ∧
      (notFoundValue = Value.undefined ↔ ¬ (bitAnd flags env.InjectFlags.Optional ≠ 0)) := by
  refine ⟨if bitAnd flags env.InjectFlags.Optional ≠ 0 then Value.null else Value.undefined,
    ?_, ?_, ?_⟩
  · simp only [injectInjectorOnly, if_neg hset, if_neg hlimp]
  · by_cases h : bitAnd flags env.InjectFlags.Optional ≠ 0
    · rw [if_pos h]
      exact ⟨fun _ => h, fun _ => rfl⟩
    · rw [if_neg h]
      exact ⟨fun hv => Value.noConfusion hv, fun hb => absurd hb h⟩
  · by_cases h : bitAnd flags env.InjectFlags.Optional ≠ 0
    · rw [if_pos h]
      exact ⟨fun hv => Value.noConfusion hv, fun hb => absurd h hb⟩
    · rw [if_neg h]
      exact ⟨fun _ => h, fun _ => rfl⟩

/-- C2 at a concrete input: Host and Optional set (9), injector `object 9`. -/
theorem injectInjectorOnly_concrete_injector_witness :
    ∃ notFoundValue : Value,
      injectInjectorOnly sampleEnv (Value.object 7) 9 (sampleWorld (Value.object 9) none) =
        sampleEnv.get (Value.object 9) (Value.object 7) notFoundValue 9
          (sampleWorld (Value.object 9) none) ∧
      (notFoundValue = Value.null ↔ bitAnd 9 sampleEnv.InjectFlags.Optional ≠ 0) ∧
      (notFoundValue = Value.undefined ↔ ¬ (bitAnd 9 sampleEnv.InjectFlags.Optional ≠ 0)) :=
  injectInjectorOnly_concrete_injector sampleEnv (Value.object 7) 9
    (sampleWorld (Value.object 9) none) (by decide) (by decide)

/-- C3. While Current Injector State is unset (`undefined`), `injectInjectorOnly` fails
with the error "inject() must be called from an injection context" for every token and
every flags value, leaves the world untouched, and the outcome is the same whatever the
collaborators are: neither the limp-mode fallback nor any injector is consulted. -/
theorem injectInjectorOnly_unset {σ : Type} (env : Env σ) (token : Value) (flags : Int)
    (w : World σ) (hunset : w._currentInjector = Value.undefined) :
    injectInjectorOnly env token flags w =
      (Except.error (Thrown.newError "inject() must be called from an injection context"), w) ∧
    ∀ env2 : Env σ, injectInjectorOnly env2 token flags w = injectInjectorOnly env token flags w := by
  have key : ∀ e : Env σ, injectInjectorOnly e token flags w = (Except.error ContextError, w) := by
    intro e
    simp only [injectInjectorOnly, hunset, if_true]
  refine ⟨key env, fun env2 => ?_⟩
  rw [key env2, key env]

/-- C3 at a concrete input, with the Optional bit set. -/
theorem injectInjectorOnly_unset_witness :
    injectInjectorOnly sampleEnv (Value.object 1) 8 (sampleWorld Value.undefined none) =
      (Except.error (Thrown.newError "inject() must be called from an injection context"),
        sampleWorld Value.undefined none) ∧
    ∀ env2 : Env Value,
      injectInjectorOnly env2 (Value.object 1) 8 (sampleWorld Value.undefined none) =
        injectInjectorOnly sampleEnv (Value.object 1) 8 (sampleWorld Value.undefined none) :=
  injectInjectorOnly_unset sampleEnv (Value.object 1) 8 (sampleWorld Value.undefined none) rfl

/-- C4, as stated, fails: inside a render context with `ɵɵdirectiveInject` installed as
the global implementation, Current Injector State is unset and the flags (0) do not
include Optional, yet `inject` returns the tree walker's value, and for no amount of fuel
does it fail with `ContextError`. -/
theorem inject_unset_counterexample :
    (bitAnd 0 sampleEnv.InjectFlags.Optional = 0) ∧
    renderWorld._currentInjector = Value.undefined ∧
    inject sampleEnv 2 (Value.object 1) 0 renderWorld =
      some (Except.ok (Value.string "from the tree"), renderWorld) ∧
    ∀ (fuel : Nat) (w2 : World Value),
      inject sampleEnv fuel (Value.object 1) 0 renderWorld ≠ some (Except.error ContextError, w2) := by
  refine ⟨by decide, rfl, rfl, ?_⟩
  intro fuel w2 h
  rcases fuel with _ | _ | n
  · exact Option.noConfusion h
  · exact Option.noConfusion h
  · have hev : inject sampleEnv (n + 1 + 1) (Value.object 1) 0 renderWorld =
        some (Except.ok (Value.string "from the tree"), renderWorld) := by
      rw [inject_succ]
      show directiveInject sampleEnv (n + 1) _ 0 renderWorld = _
      rw [directiveInject_succ]
      rfl
    rw [hev] at h
    exact Except.noConfusion (congrArg Prod.fst (Option.some.inj h))

/-- C4, amended. For every token and every flag combination that does not include
Optional, `inject` called while Current Injector State is unset and no global
implementation is installed fails with `ContextError`, leaving the world untouched. -/
theorem inject_unset_no_implementation {σ : Type} (env : Env σ) (fuel : Nat) (token : Value)
    (flags : Int) (w : World σ)
    (_hflags : bitAnd flags env.InjectFlags.Optional = 0)
    (hunset : w._currentInjector = Value.undefined)
    (himpl : getInjectImplementation w = none) :
    inject env (fuel + 1) token flags w = some (Except.error ContextError, w) := by
  rw [inject_succ, himpl]
  simp only [injectInjectorOnly, hunset, if_true]

/-- C4 amended, at a concrete input: flags Host and Self (3). -/
theorem inject_unset_no_implementation_witness :
    inject sampleEnv 1 (Value.object 1) 3 (sampleWorld Value.undefined none) =
      some (Except.error ContextError, sampleWorld Value.undefined none) :=
  inject_unset_no_implementation sampleEnv 0 (Value.object 1) 3
    (sampleWorld Value.undefined none) (by decide) rfl rfl

/-- C5. While Current Injector State is `null` (limp mode), `injectInjectorOnly` returns
exactly what the limp-mode fallback returns for `(token, undefined, flags)`: the
not-found value handed over is `undefined` whatever the flags, Optional included, and the
token and the flags are passed unchanged. -/
theorem injectInjectorOnly_limp_mode {σ : Type} (env : Env σ) (token : Value) (flags : Int)
    (w : World σ) (hlimp : w._currentInjector = Value.null) :
    injectInjectorOnly env token flags w =
      env.injectRootLimpMode token Value.undefined flags w :=
  injectInjectorOnly_of_null env token flags w hlimp

/-- C5 at a concrete input, with the Optional bit set. -/
theorem injectInjectorOnly_limp_mode_witness :
    injectInjectorOnly sampleEnv (Value.object 1) 8 (sampleWorld Value.null none) =
      sampleEnv.injectRootLimpMode (Value.object 1) Value.undefined 8
        (sampleWorld Value.null none) :=
  injectInjectorOnly_limp_mode sampleEnv (Value.object 1) 8 (sampleWorld Value.null none) rfl

/-- C6, as stated, fails: with Current Injector State `null` and the Optional bit set
(8), `inject` hands the call to the installed global implementation. With
`ɵɵdirectiveInject` installed outside any render context it fails with `LogicError`, and
for no amount of fuel does it return a value; with another function installed it returns
what that function returns, here 13, which is not a sentinel. -/
theorem inject_limp_optional_counterexample :
    (bitAnd 8 sampleEnv.InjectFlags.Optional ≠ 0) ∧
    (sampleWorld Value.null (some InjectImpl.directiveInject))._currentInjector = Value.null ∧
    inject sampleEnv 2 (Value.object 1) 8
        (sampleWorld Value.null (some InjectImpl.directiveInject)) =
      some (Except.error LogicError, sampleWorld Value.null (some InjectImpl.directiveInject)) ∧
    (∀ (fuel : Nat) (v : Value) (w2 : World Value),
      inject sampleEnv fuel (Value.object 1) 8
          (sampleWorld Value.null (some InjectImpl.directiveInject)) ≠
        some (Except.ok v, w2)) ∧
    inject sampleEnv 1 (Value.object 1) 8
        (sampleWorld Value.null (some (InjectImpl.function 5))) =
      some (Except.ok (Value.number 13), sampleWorld Value.null (some (InjectImpl.function 5))) ∧
    isNotFoundSentinel (Value.number 13) = false := by
  refine ⟨by decide, rfl, rfl, ?_, rfl, rfl⟩
  intro fuel v w2 h
  rcases fuel with _ | _ | n
  · exact Option.noConfusion h
  · exact Option.noConfusion h
  · have hev : inject sampleEnv (n + 1 + 1) (Value.object 1) 8
          (sampleWorld Value.null (some InjectImpl.directiveInject)) =
        some (Except.error LogicError,
          sampleWorld Value.null (some InjectImpl.directiveInject)) := by
      rw [inject_succ]
      exact directiveInject_succ sampleEnv n _ 8 _
    rw [hev] at h
    exact Except.noConfusion (congrArg Prod.fst (Option.some.inj h))

/-- C6, amended. For every token and every flag combination that includes Optional,
`inject` called while Current Injector State is `null` and no global implementation is
installed hands `(resolved token, undefined, flags)` to the limp-mode fallback and returns
what it returns; with the default fallback, which answers a miss under Optional with
`null`, the call returns the not-found sentinel `null` and leaves the world as it was,
rather than failing. -/
theorem inject_limp_optional {σ : Type} (env : Env σ) (fuel : Nat) (token : Value)
    (flags : Int) (w : World σ)
    (hflags : bitAnd flags env.InjectFlags.Optional ≠ 0)
    (hlimp : w._currentInjector = Value.null)
    (himpl : getInjectImplementation w = none)
    (hfallback : env.injectRootLimpMode = defaultInjectRootLimpMode env.InjectFlags) :
    inject env (fuel + 1) token flags w =
      some (env.injectRootLimpMode (env.resolveForwardRef token) Value.undefined flags w) ∧
    inject env (fuel + 1) token flags w = some (Except.ok Value.null, w) ∧
    isNotFoundSentinel Value.null = true := by
  have key : inject env (fuel + 1) token flags w =
      some (env.injectRootLimpMode (env.resolveForwardRef token) Value.undefined flags w) := by
    rw [inject_succ, himpl]
    rw [injectInjectorOnly_of_null env _ flags w hlimp]
  refine ⟨key, ?_, rfl⟩
  rw [key, hfallback]
  unfold defaultInjectRootLimpMode
  rw [if_pos hflags]

/-- C6 amended, at concrete inputs: with Optional alone (8) and with Host and Optional
(9), `inject` in limp mode returns `null`. -/
theorem inject_limp_optional_witness :
    inject sampleEnv 1 (Value.object 1) 8 (sampleWorld Value.null none) =
      some (Except.ok Value.null, sampleWorld Value.null none) ∧
    inject sampleEnv 1 (Value.object 100) 9 (sampleWorld Value.null none) =
      some (Except.ok Value.null, sampleWorld Value.null none) :=
  ⟨(inject_limp_optional sampleEnv 0 (Value.object 1) 8 (sampleWorld Value.null none)
      (by decide) rfl rfl rfl).2.1,
   (inject_limp_optional sampleEnv 0 (Value.object 100) 9 (sampleWorld Value.null none)
      (by decide) rfl rfl rfl).2.1⟩

/-- C7. `setCurrentInjector` is a pure swap: it returns the prior state and leaves the
state equal to its argument, touching nothing else; a second call returns the first
argument and leaves the state equal to the second. It is total (it cannot fail). -/
theorem setCurrentInjector_swap {σ : Type} (w : World σ) (v1 v2 : Value) :
    (setCurrentInjector v1 w).1 = w._currentInjector ∧
    (setCurrentInjector v1 w).2._currentInjector = v1 ∧
    (setCurrentInjector v1 w).2._injectImplementation = w._injectImplementation ∧
    (setCurrentInjector v1 w).2.ext = w.ext ∧
    (setCurrentInjector v2 (setCurrentInjector v1 w).2).1 = v1 ∧
    (setCurrentInjector v2 (setCurrentInjector v1 w).2).2._currentInjector = v2 ∧
    (setCurrentInjector v2 (setCurrentInjector v1 w).2).2._injectImplementation =
      w._injectImplementation ∧
    (setCurrentInjector v2 (setCurrentInjector v1 w).2).2.ext = w.ext :=
  ⟨rfl, rfl, rfl, rfl, rfl, rfl, rfl, rfl⟩

/-- C8. Re-entrant restoration. In the nested sequence
`prevA = setCurrentInjector(a); prevB = setCurrentInjector(b); inject(token, flags);
setCurrentInjector(prevB); setCurrentInjector(prevA)` started in state `s0`, `prevA` is the
state of `s0` and `prevB` is `a`; whatever outcome `out` (a value or a thrown error) and
world `w3` the inner resolution leaves, restoring `prevB` gives state `a` and restoring
`prevA` gives back the state of `s0`. `injectInjectorOnly` changes the world only through
the single collaborator call it makes on the world it was given, and when the
collaborators leave Current Injector State alone, so do `injectInjectorOnly` and `inject`,
whether they return or throw. -/
theorem reentrant_restoration {σ : Type} (env : Env σ) (s0 : World σ) (a b : Value)
    (fuel : Nat) (token : Value) (flags : Int) :
    (setCurrentInjector a s0).1 = s0._currentInjector ∧
    (setCurrentInjector b (setCurrentInjector a s0).2).1 = a ∧
    (setCurrentInjector b (setCurrentInjector a s0).2).2._currentInjector = b ∧
    (∀ (out : Outcome) (w3 : World σ),
      inject env fuel token flags (setCurrentInjector b (setCurrentInjector a s0).2).2 =
          some (out, w3) →
        (setCurrentInjector (setCurrentInjector b (setCurrentInjector a s0).2).1
            w3).2._currentInjector = a ∧
        (setCurrentInjector (setCurrentInjector a s0).1
            (setCurrentInjector (setCurrentInjector b (setCurrentInjector a s0).2).1
              w3).2).2._currentInjector = s0._currentInjector) ∧
    (∀ (t : Value) (f : Int) (w : World σ),
      injectInjectorOnly env t f w = (Except.error ContextError, w) ∨
      injectInjectorOnly env t f w = env.injectRootLimpMode t Value.undefined f w ∨
      ∃ notFoundValue, injectInjectorOnly env t f w =
        env.get w._currentInjector t notFoundValue f w) ∧
    ((∀ t n f, PreservesCurrentInjector (env.injectRootLimpMode t n f)) →
      (∀ r t n f, PreservesCurrentInjector (env.get r t n f)) →
      (∀ g t f, PreservesCurrentInjector (env.call g t f)) →
      (∀ n l t f, PreservesCurrentInjector (env.getOrCreateInjectable n l t f)) →
      (∀ (t : Value) (f : Int) (w : World σ),
        (injectInjectorOnly env t f w).2._currentInjector = w._currentInjector) ∧
      (∀ (n : Nat) (t : Value) (f : Int) (w : World σ) (out : Outcome) (w2 : World σ),
        inject env n t f w = some (out, w2) → w2._currentInjector = w._currentInjector)) := by
  refine ⟨rfl, rfl, rfl, fun _ _ _ => ⟨rfl, rfl⟩, ?_, ?_⟩
  · intro t f w
    unfold injectInjectorOnly
    by_cases h1 : w._currentInjector = Value.undefined
    · left
      rw [if_pos h1]
    · by_cases h2 : w._currentInjector = Value.null
      · right
        left
        rw [if_neg h1, if_pos h2]
      · right
        right
        rw [if_neg h1, if_neg h2]
        exact ⟨_, rfl⟩
  · intro hlimp hget hcall htree
    have hp := resolution_preserves_currentInjector env hlimp hget hcall htree
    exact ⟨hp.1, fun n t f w out w2 => (hp.2 n t f w out w2).1⟩

/-- C8 at concrete inputs: starting unset, with injectors `object 9` and `object 10`, an
inner resolution that throws (token `object 7` is unknown) still ends with the state
restored to unset, and the throwing `inject` left the state at `object 10`. -/
theorem reentrant_restoration_witness :
    inject sampleEnv 1 (Value.object 7) 0 (sampleWorld (Value.object 10) none) =
      some (Except.error (Thrown.foreign (Value.string "NullInjectorError")),
        sampleWorld (Value.object 10) none) ∧
    (setCurrentInjector (setCurrentInjector (Value.object 9)
          (sampleWorld Value.undefined none)).1
        (setCurrentInjector (setCurrentInjector (Value.object 10)
            (setCurrentInjector (Value.object 9) (sampleWorld Value.undefined none)).2).1
          (sampleWorld (Value.object 10) none)).2).2._currentInjector =
      (sampleWorld Value.undefined none)._currentInjector ∧
    (sampleWorld (Value.object 10) none)._currentInjector = Value.object 10 :=
  ⟨rfl,
   ((reentrant_restoration sampleEnv (sampleWorld Value.undefined none) (Value.object 9)
      (Value.object 10) 1 (Value.object 7) 0).2.2.2.1
      (Except.error (Thrown.foreign (Value.string "NullInjectorError")))
      (sampleWorld (Value.object 10) none) rfl).2,
   ((reentrant_restoration sampleEnv (sampleWorld Value.undefined none) (Value.object 9)
      (Value.object 10) 1 (Value.object 7) 0).2.2.2.2.2
      sampleEnv_preserves.1 sampleEnv_preserves.2.1 sampleEnv_preserves.2.2.1
      sampleEnv_preserves.2.2.2).2 1 (Value.object 7) 0 (sampleWorld (Value.object 10) none)
      (Except.error (Thrown.foreign (Value.string "NullInjectorError")))
      (sampleWorld (Value.object 10) none) rfl⟩

/-- C9. When a render context exists (`getLView()` is not `null`), `directiveInject`
returns exactly `getOrCreateInjectable(getCurrentTNode(), getLView(),
resolveForwardRef(token), flags)`, run on the world it was given. The result is the same
whatever `ngDevMode`, the limp-mode fallback, the injector's `get` and the installed
function do, so the flat entry point is not consulted; and the outcome depends on the
implementation slot and on Current Injector State only as far as the render-state
accessors and the tree walker themselves do. -/
theorem directiveInject_render_context {σ : Type} (env : Env σ) (fuel : Nat) (token : Value)
    (flags : Int) (w : World σ) (hctx : env.getLView w ≠ Value.null) :
    directiveInject env (fuel + 1) token flags w =
      some (env.getOrCreateInjectable (env.getCurrentTNode w) (env.getLView w)
        (env.resolveForwardRef token) flags w) ∧
    (∀ (dev : Bool) (limp : Value → Value → Int → Comp σ)
        (get : Value → Value → Value → Int → Comp σ) (call : Nat → Value → Int → Comp σ),
      directiveInject
          { env with ngDevMode := dev, injectRootLimpMode := limp, get := get, call := call }
          (fuel + 1) token flags w =
        directiveInject env (fuel + 1) token flags w) ∧
    (∀ (injector : Value) (impl : Option InjectImpl),
      env.getLView ⟨injector, impl, w.ext⟩ = env.getLView w →
      env.getCurrentTNode ⟨injector, impl, w.ext⟩ = env.getCurrentTNode w →
      (∀ n l t f, (env.getOrCreateInjectable n l t f ⟨injector, impl, w.ext⟩).1 =
        (env.getOrCreateInjectable n l t f w).1) →
      (directiveInject env (fuel + 1) token flags ⟨injector, impl, w.ext⟩).map Prod.fst =
        (directiveInject env (fuel + 1) token flags w).map Prod.fst) := by
  have key : ∀ (e : Env σ) (w1 : World σ), e.getLView w1 ≠ Value.null →
      directiveInject e (fuel + 1) token flags w1 =
        some (e.getOrCreateInjectable (e.getCurrentTNode w1) (e.getLView w1)
          (e.resolveForwardRef token) flags w1) := by
    intro e w1 h
    rw [directiveInject_succ, if_neg h]
  refine ⟨key env w hctx, ?_, ?_⟩
  · intro dev limp get call
    have h1 :=
      key { env with ngDevMode := dev, injectRootLimpMode := limp, get := get, call := call }
        w hctx
    exact h1.trans (key env w hctx).symm
  · intro injector impl hl ht hwalk
    have hctx2 : env.getLView ⟨injector, impl, w.ext⟩ ≠ Value.null := by
      rw [hl]
      exact hctx
    rw [key env _ hctx2, key env w hctx, Option.map_some', Option.map_some', hl, ht, hwalk]

/-- C9 at a concrete input: inside the render context `object 60` the forward reference
`object 100` is resolved by the tree walker. -/
theorem directiveInject_render_context_witness :
    directiveInject sampleEnv 1 (Value.object 100) 0 renderWorld =
      some (Except.ok (Value.string "from the tree"), renderWorld) :=
  ((directiveInject_render_context sampleEnv 0 (Value.object 100) 0 renderWorld
    (by decide)).1).trans rfl

/-- C10. When no render context exists (`getLView()` is `null`) and the active global
implementation is not `directiveInject` itself, `directiveInject` returns exactly
`inject(token, flags)` with the same token and the same flags, that call does produce an
outcome, and the result is the same whatever the tree walker does: the walker is not
called. -/
theorem directiveInject_no_render_context {σ : Type} (env : Env σ) (fuel : Nat)
    (token : Value) (flags : Int) (w : World σ)
    (hnone : env.getLView w = Value.null)
    (hother : getInjectImplementation w ≠ some InjectImpl.directiveInject) :
    directiveInject env (fuel + 1) token flags w = inject env fuel token flags w ∧
    (∃ r, inject env (fuel + 1) token flags w = some r) ∧
    (∀ walker : Value → Value → Value → Int → Comp σ,
      directiveInject { env with getOrCreateInjectable := walker } (fuel + 1) token flags w =
        directiveInject env (fuel + 1) token flags w) := by
  have key : ∀ (e : Env σ) (n : Nat), e.getLView w = Value.null →
      directiveInject e (n + 1) token flags w = inject e n token flags w := by
    intro e n h
    rw [directiveInject_succ, if_pos h]
    cases e.ngDevMode with
    | false => rfl
    | true =>
      simp only [if_true, assertInjectImplementationNotEqual, if_neg hother]
  have hwalk : ∀ (walker : Value → Value → Value → Int → Comp σ) (n : Nat),
      inject { env with getOrCreateInjectable := walker } n token flags w =
        inject env n token flags w := by
    intro walker n
    cases n with
    | zero => rw [inject, inject]
    | succ m =>
      rw [inject_succ, inject_succ]
      cases himpl : getInjectImplementation w with
      | none => rfl
      | some impl =>
        cases impl with
        | directiveInject => exact absurd himpl hother
        | function f => rfl
  refine ⟨key env fuel hnone, ?_, ?_⟩
  · rw [inject_succ]
    cases himpl : getInjectImplementation w with
    | none => exact ⟨_, rfl⟩
    | some impl =>
      cases impl with
      | directiveInject => exact absurd himpl hother
      | function f => exact ⟨_, rfl⟩
  · intro walker
    exact ((key { env with getOrCreateInjectable := walker } fuel hnone).trans
      (hwalk walker fuel)).trans (key env fuel hnone).symm

/-- C10 at a concrete input: outside any render context, with nothing installed and the
injector `object 9` current, `directiveInject` answers what `inject` answers. -/
theorem directiveInject_no_render_context_witness :
    directiveInject sampleEnv 2 (Value.object 100) 0 (sampleWorld (Value.object 9) none) =
      inject sampleEnv 1 (Value.object 100) 0 (sampleWorld (Value.object 9) none) ∧
    inject sampleEnv 1 (Value.object 100) 0 (sampleWorld (Value.object 9) none) =
      some (Except.ok (Value.string "service"), sampleWorld (Value.object 9) none) :=
  ⟨(directiveInject_no_render_context sampleEnv 1 (Value.object 100) 0
      (sampleWorld (Value.object 9) none) rfl (by decide)).1, rfl⟩

/-! ## Helper lemmas for the second group of claims -/

/-- With the guard off (`ngDevMode` false), `directiveInject` installed and no render
context, neither `inject` nor `directiveInject` produces an outcome, whatever the fuel. -/
theorem guard_off_no_outcome {σ : Type} (env : Env σ) (w : World σ)
    (hdev : env.ngDevMode = false) (hnone : env.getLView w = Value.null)
    (himpl : getInjectImplementation w = some InjectImpl.directiveInject) (fuel : Nat) :
    ∀ (token : Value) (flags : Int),
      inject env fuel token flags w = none ∧ directiveInject env fuel token flags w = none := by
  induction fuel with
  | zero =>
    intro token flags
    constructor
    · rw [inject]
    · rw [directiveInject]
  | succ n ih =>
    intro token flags
    constructor
    · rw [inject_succ, himpl]
      exact (ih _ flags).2
    · rw [directiveInject_succ, if_pos hnone, hdev]
      exact (ih token flags).1

/-- One turn of the loop of `injectArgs`: the body for the entry, then the rest. -/
theorem injectArgsLoop_cons {τ : Type} (env : Env (Store τ)) (fuel : Nat) (entry : Value)
    (rest args : List Value) (w : World (Store τ)) :
    injectArgsLoop env fuel (entry :: rest) args w =
      pushThen (injectArgsEntry env fuel entry w)
        (fun v w1 => injectArgsLoop env fuel rest (args ++ [v]) w1) := by
  rw [injectArgsLoop]
  unfold injectArgsEntry
  split
  · split
    · rfl
    · split <;> rfl
  · rfl

/-- The loop over a concatenation: the first part, then the second part from where the
first one left the array and the world. -/
theorem injectArgsLoop_append {τ : Type} (env : Env (Store τ)) (fuel : Nat) :
    ∀ (pre rest args : List Value) (w : World (Store τ)),
      injectArgsLoop env fuel (pre ++ rest) args w =
        match injectArgsLoop env fuel pre args w with
        | some (Except.ok a, w1) => injectArgsLoop env fuel rest a w1
        | r => r := by
  intro pre
  induction pre with
  | nil =>
    intro rest args w
    rw [List.nil_append, injectArgsLoop]
  | cons entry pre ih =>
    intro rest args w
    rw [List.cons_append, injectArgsLoop_cons, injectArgsLoop_cons]
    cases hcall : injectArgsEntry env fuel entry w with
    | none => rfl
    | some r =>
      obtain ⟨out, w1⟩ := r
      cases out with
      | error e => rfl
      | ok v => exact ih rest (args ++ [v]) w1

/-- A flag decorator is OR-ed into `flags` and leaves `type` alone. -/
theorem injectArgsScan_flag (h : Heap) (m : Value) (rest : List Value) (type : Value)
    (flags : Int) (hm : IsFlagDecorator h m) :
    injectArgsScan h (m :: rest) type flags =
      injectArgsScan h rest type (bitOr flags (flagBits h m)) := by
  obtain ⟨f, hne, hf⟩ := hm
  rw [injectArgsScan]
  simp only [hf, flagBits, if_neg hne]

/-- The step of the OR for a flag decorator. -/
theorem orFlagStep_flag (h : Heap) (acc : Int) (m : Value) (hm : IsFlagDecorator h m) :
    orFlagStep h acc m = bitOr acc (flagBits h m) := by
  obtain ⟨f, hne, hf⟩ := hm
  simp only [orFlagStep, flagBits, hf, if_neg hne]

/-- The step of the OR for an entry whose annotation is not a number. -/
theorem orFlagStep_plain (h : Heap) (acc : Int) (m : Value) (hm : IsPlainToken h m) :
    orFlagStep h acc m = acc := by
  obtain ⟨v, hv, hnum⟩ := hm
  unfold orFlagStep
  rw [hv]
  cases v with
  | number n => exact absurd rfl (hnum n)
  | undefined => rfl
  | null => rfl
  | bool b => rfl
  | string str => rfl
  | object id => rfl
  | array id => rfl

/-- A run of flag decorators ORs all their bits into `flags`. -/
theorem injectArgsScan_flags (h : Heap) :
    ∀ (ms rest : List Value) (type : Value) (flags : Int),
      (∀ m ∈ ms, IsFlagDecorator h m) →
      injectArgsScan h (ms ++ rest) type flags =
        injectArgsScan h rest type (orFlagBits h flags ms) := by
  intro ms
  induction ms with
  | nil =>
    intro rest type flags _
    rfl
  | cons m ms ih =>
    intro rest type flags hms
    rw [List.cons_append, injectArgsScan_flag h m _ type flags (hms m (List.mem_cons_self m ms)),
      ih rest type _ (fun x hx => hms x (List.mem_cons_of_mem m hx)),
      ← orFlagStep_flag h flags m (hms m (List.mem_cons_self m ms))]
    rfl

/-- An explicit-inject decorator sets `type` to its token and leaves `flags` alone. -/
theorem injectArgsScan_inject (h : Heap) (m token : Value) (rest : List Value) (type : Value)
    (flags : Int) (hm : IsInjectDecorator h m token) :
    injectArgsScan h (m :: rest) type flags = injectArgsScan h rest token flags := by
  rw [injectArgsScan]
  simp only [hm.1, hm.2, if_true]

/-- Entries other than `undefined` and `null` are scanned without failure. -/
theorem injectArgsScan_prefix (h : Heap) :
    ∀ (ms : List Value) (type : Value) (flags : Int),
      (∀ m ∈ ms, m ≠ Value.undefined ∧ m ≠ Value.null) →
      ∃ (type2 : Value) (flags2 : Int), ∀ rest : List Value,
        injectArgsScan h (ms ++ rest) type flags = injectArgsScan h rest type2 flags2 := by
  intro ms
  induction ms with
  | nil =>
    intro type flags _
    exact ⟨type, flags, fun _ => rfl⟩
  | cons m ms ih =>
    intro type flags hms
    have hm := hms m (List.mem_cons_self m ms)
    have hrest : ∀ x ∈ ms, x ≠ Value.undefined ∧ x ≠ Value.null :=
      fun x hx => hms x (List.mem_cons_of_mem m hx)
    have hflag : ∃ v, getInjectFlag h m = Except.ok v := by
      cases m with
      | undefined => exact absurd rfl hm.1
      | null => exact absurd rfl hm.2
      | bool b => exact ⟨_, rfl⟩
      | number n => exact ⟨_, rfl⟩
      | string s => exact ⟨_, rfl⟩
      | object id => exact ⟨_, rfl⟩
      | array id => exact ⟨_, rfl⟩
    have htok : ∃ v, getProperty h m "token" = Except.ok v := by
      cases m with
      | undefined => exact absurd rfl hm.1
      | null => exact absurd rfl hm.2
      | bool b => exact ⟨_, rfl⟩
      | number n => exact ⟨_, rfl⟩
      | string s => exact ⟨_, rfl⟩
      | object id => exact ⟨_, rfl⟩
      | array id => exact ⟨_, rfl⟩
    obtain ⟨v, hv⟩ := hflag
    obtain ⟨tok, htok⟩ := htok
    have hstep : ∃ (t1 : Value) (f1 : Int), ∀ rest : List Value,
        injectArgsScan h (m :: rest) type flags = injectArgsScan h rest t1 f1 := by
      by_cases hnum : ∃ n : Int, v = Value.number n
      · obtain ⟨n, hn⟩ := hnum
        by_cases hneg : n = -1
        · refine ⟨tok, flags, fun rest => ?_⟩
          rw [injectArgsScan]
          simp only [hv, hn, hneg, htok, if_true]
        · refine ⟨type, bitOr flags n, fun rest => ?_⟩
          rw [injectArgsScan]
          simp only [hv, hn, hneg, if_false]
      · refine ⟨m, flags, fun rest => ?_⟩
        rw [injectArgsScan]
        rw [hv]
        cases v with
        | number n => exact absurd ⟨n, rfl⟩ hnum
        | undefined => rfl
        | null => rfl
        | bool b => rfl
        | string s => rfl
        | object id => rfl
        | array id => rfl
    obtain ⟨t1, f1, h1⟩ := hstep
    obtain ⟨t2, f2, h2⟩ := ih t1 f1 hrest
    refine ⟨t2, f2, fun rest => ?_⟩
    rw [List.cons_append, h1, h2]

/-- A plain token becomes `type` and leaves `flags` alone. -/
theorem injectArgsScan_plain (h : Heap) (m : Value) (rest : List Value) (type : Value)
    (flags : Int) (hm : IsPlainToken h m) :
    injectArgsScan h (m :: rest) type flags = injectArgsScan h rest m flags := by
  obtain ⟨v, hv, hnum⟩ := hm
  rw [injectArgsScan, hv]
  cases v with
  | number n => exact absurd rfl (hnum n)
  | undefined => rfl
  | null => rfl
  | bool b => rfl
  | string s => rfl
  | object id => rfl
  | array id => rfl

/-- The body of the loop for a non-empty decorator list whose scan gives `(type, flags)`
is the call `inject(type, flags)`. -/
theorem injectArgsEntry_of_scan {τ : Type} (env : Env (Store τ)) (fuel : Nat) (entry : Value)
    (id : Nat) (w : World (Store τ)) (type : Value) (flags : Int)
    (hentry : env.resolveForwardRef entry = Value.array id)
    (hlen : (w.ext.heap id).items ≠ [])
    (hscan : injectArgsScan w.ext.heap (w.ext.heap id).items Value.undefined
      env.InjectFlags.Default = Except.ok (type, flags)) :
    injectArgsEntry env fuel entry w = inject env fuel type flags w := by
  have hl : ¬ (w.ext.heap id).items.length = 0 := fun h0 => hlen (List.length_eq_zero.mp h0)
  unfold injectArgsEntry
  simp only [hentry, if_neg hl, hscan]

/-- `inject` sees its token only through `resolveForwardRef`. -/
theorem inject_congr_resolved {σ : Type} (env : Env σ) (fuel : Nat) (t1 t2 : Value)
    (flags : Int) (w : World σ) (h : env.resolveForwardRef t1 = env.resolveForwardRef t2) :
    inject env fuel t1 flags w = inject env fuel t2 flags w := by
  cases fuel with
  | zero => rw [inject, inject]
  | succ n => rw [inject_succ, inject_succ, h]

/-- The body of the loop for an entry that does not resolve to an array. -/
theorem injectArgsEntry_plain {τ : Type} (env : Env (Store τ)) (fuel : Nat) (entry : Value)
    (w : World (Store τ)) (hplain : ∀ id, env.resolveForwardRef entry ≠ Value.array id) :
    injectArgsEntry env fuel entry w =
      inject env fuel (env.resolveForwardRef entry) env.InjectFlags.Default w := by
  unfold injectArgsEntry
  split
  · rename_i id hid
    exact absurd hid (hplain id)
  · rfl

/-- On plain tokens the loop of `injectArgs` appends to `args` what `injectEach` collects. -/
theorem injectArgsLoop_plain {τ : Type} (env : Env (Store τ)) (fuel : Nat) :
    ∀ (tokens args : List Value) (w : World (Store τ)),
      (∀ t ∈ tokens, (∀ id, env.resolveForwardRef t ≠ Value.array id) ∧
        env.resolveForwardRef (env.resolveForwardRef t) = env.resolveForwardRef t) →
      injectArgsLoop env fuel tokens args w =
        match injectEach env fuel tokens w with
        | none => none
        | some (Except.error e, w2) => some (Except.error e, w2)
        | some (Except.ok vs, w2) => some (Except.ok (args ++ vs), w2) := by
  intro tokens
  induction tokens with
  | nil =>
    intro args w _
    rw [injectArgsLoop, injectEach]
    simp only [List.append_nil]
  | cons t tokens ih =>
    intro args w hplain
    have ht := hplain t (List.mem_cons_self t tokens)
    rw [injectArgsLoop_cons, injectArgsEntry_plain env fuel t w ht.1,
      inject_congr_resolved env fuel _ t _ w ht.2, injectEach]
    cases hcall : inject env fuel t env.InjectFlags.Default w with
    | none => rfl
    | some r =>
      obtain ⟨out, w1⟩ := r
      cases out with
      | error e => rfl
      | ok v =>
        simp only [pushThen]
        rw [ih (args ++ [v]) w1 (fun x hx => hplain x (List.mem_cons_of_mem t hx))]
        cases hrest : injectEach env fuel tokens w1 with
        | none => rfl
        | some r2 =>
          obtain ⟨out2, w2⟩ := r2
          cases out2 with
          | error e => rfl
          | ok vs => simp only [List.append_assoc, List.singleton_append]

/-- What `injectEach` returns has one value per token. -/
theorem injectEach_length {τ : Type} (env : Env (Store τ)) (fuel : Nat) :
    ∀ (tokens : List Value) (w : World (Store τ)) (vs : List Value) (w2 : World (Store τ)),
      injectEach env fuel tokens w = some (Except.ok vs, w2) → vs.length = tokens.length := by
  intro tokens
  induction tokens with
  | nil =>
    intro w vs w2 h
    rw [injectEach] at h
    have h2 := congrArg Prod.fst (Option.some.inj h)
    have h3 : [] = vs := Except.ok.inj h2
    rw [← h3]
  | cons t tokens ih =>
    intro w vs w2 h
    rw [injectEach] at h
    cases hcall : inject env fuel t env.InjectFlags.Default w with
    | none =>
      rw [hcall] at h
      exact Option.noConfusion h
    | some r =>
      obtain ⟨out, w1⟩ := r
      rw [hcall] at h
      cases out with
      | error e =>
        exact Except.noConfusion (congrArg Prod.fst (Option.some.inj h))
      | ok v =>
        simp only [pushThen] at h
        cases hrest : injectEach env fuel tokens w1 with
        | none =>
          rw [hrest] at h
          exact Option.noConfusion h
        | some r2 =>
          obtain ⟨out2, w3⟩ := r2
          rw [hrest] at h
          cases out2 with
          | error e => exact Except.noConfusion (congrArg Prod.fst (Option.some.inj h))
          | ok vs2 =>
            have h2 := congrArg Prod.fst (Option.some.inj h)
            have h3 : v :: vs2 = vs := Except.ok.inj h2
            rw [← h3, List.length_cons, List.length_cons, ih w1 vs2 w3 hrest]

/-- Environments that agree on resolved tokens give the same `injectInjectorOnly` on a
resolved token. -/
theorem agree_injectInjectorOnly {σ : Type} (env env2 : Env σ) (hag : AgreeOnResolved env env2)
    (t : Value) (flags : Int) (w : World σ) :
    injectInjectorOnly env2 (env.resolveForwardRef t) flags w =
      injectInjectorOnly env (env.resolveForwardRef t) flags w := by
  obtain ⟨_, hf, _, _, _, hlimp, hget, _, _⟩ := hag
  unfold injectInjectorOnly
  rw [hf, hlimp, hget]

/-- Environments that agree on resolved tokens give the same `inject` and the same
`directiveInject`. -/
theorem agree_inject {σ : Type} (env env2 : Env σ) (hag : AgreeOnResolved env env2)
    (fuel : Nat) :
    ∀ (token : Value) (flags : Int) (w : World σ),
      inject env2 fuel token flags w = inject env fuel token flags w ∧
      directiveInject env2 fuel token flags w = directiveInject env fuel token flags w := by
  have hag2 := hag
  obtain ⟨hd, _, hr, hl, ht, _, _, hcall, htree⟩ := hag2
  induction fuel with
  | zero =>
    intro token flags w
    constructor
    · rw [inject, inject]
    · rw [directiveInject, directiveInject]
  | succ n ih =>
    intro token flags w
    constructor
    · rw [inject_succ, inject_succ, hr]
      cases getInjectImplementation w with
      | none => simp only [agree_injectInjectorOnly env env2 hag]
      | some impl =>
        cases impl with
        | directiveInject => exact (ih _ flags w).2
        | function f => simp only [hcall]
    · rw [directiveInject_succ, directiveInject_succ, hd, hl, ht, hr, htree, (ih token flags w).1]

/-- Environments that agree on resolved tokens give the same loop of `injectArgs`. -/
theorem agree_injectArgsLoop {τ : Type} (env env2 : Env (Store τ))
    (hag : AgreeOnResolved env env2) (fuel : Nat) :
    ∀ (types args : List Value) (w : World (Store τ)),
      injectArgsLoop env2 fuel types args w = injectArgsLoop env fuel types args w := by
  have hbody : ∀ (entry : Value) (w : World (Store τ)),
      injectArgsEntry env2 fuel entry w = injectArgsEntry env fuel entry w := by
    intro entry w
    unfold injectArgsEntry
    rw [hag.2.2.1, hag.2.1]
    simp only [(agree_inject env env2 hag fuel _ _ _).1]
  intro types
  induction types with
  | nil =>
    intro args w
    rw [injectArgsLoop, injectArgsLoop]
  | cons entry types ih =>
    intro args w
    rw [injectArgsLoop_cons, injectArgsLoop_cons, hbody]
    simp only [ih]

/-- No token is resolved to the forward reference `object 100` by `storeEnv`. -/
theorem storeEnv_resolved_ne (t : Value) : storeEnv.resolveForwardRef t ≠ Value.object 100 := by
  show (if t = Value.object 100 then Value.object 1 else t) ≠ Value.object 100
  by_cases h : t = Value.object 100
  · rw [if_pos h]
    decide
  · rw [if_neg h]
    exact h

/-- Reading the key just written. -/
theorem getProp_setProp_same (ps : List (String × Value)) (k : String) (x : Value) :
    getProp (setProp ps k x) k = some x := by
  induction ps with
  | nil => simp only [setProp, getProp, if_true]
  | cons p ps ih =>
    obtain ⟨k1, v1⟩ := p
    by_cases hk : k1 = k
    · simp only [setProp, if_pos hk, getProp]
    · simp only [setProp, if_neg hk, getProp, ih]

/-- Reading another key than the one just written. -/
theorem getProp_setProp_other (ps : List (String × Value)) (k k2 : String) (x : Value)
    (hne : k2 ≠ k) : getProp (setProp ps k x) k2 = getProp ps k2 := by
  induction ps with
  | nil =>
    have hne2 : ¬ k = k2 := fun hc => hne hc.symm
    simp only [setProp, getProp, if_neg hne2]
  | cons p ps ih =>
    obtain ⟨k1, v1⟩ := p
    by_cases hk : k1 = k
    · have hk2 : ¬ k1 = k2 := fun hc => hne (hc.symm.trans hk)
      simp only [setProp, if_pos hk, getProp, if_neg hk2]
    · by_cases hk2 : k1 = k2
      · simp only [setProp, if_neg hk, getProp, if_pos hk2]
      · simp only [setProp, if_neg hk, getProp, if_neg hk2, ih]

/-- The cell written to by a property write. -/
theorem setOwn_self (h : Heap) (id : Nat) (k : String) (x : Value) :
    h.setOwn id k x id =
      ⟨(h id).proto, (h id).callable, setProp (h id).props k x, (h id).items⟩ := by
  simp only [Heap.setOwn, Heap.update, if_true]

/-- The other cells after a property write. -/
theorem setOwn_ne (h : Heap) (id : Nat) (k : String) (x : Value) (j : Nat) (hj : j ≠ id) :
    h.setOwn id k x j = h j := by
  simp only [Heap.setOwn, Heap.update, if_neg hj]

/-- The cell of the array after an element is put in front. -/
theorem unshiftAt_self (h : Heap) (id : Nat) (x : Value) :
    h.unshiftAt id x id =
      ⟨(h id).proto, (h id).callable, (h id).props, x :: (h id).items⟩ := by
  simp only [Heap.unshiftAt, Heap.update, if_true]

/-- The other cells after an element is put in front of an array. -/
theorem unshiftAt_ne (h : Heap) (id : Nat) (x : Value) (j : Nat) (hj : j ≠ id) :
    h.unshiftAt id x j = h j := by
  simp only [Heap.unshiftAt, Heap.update, if_neg hj]

/-- A property write leaves the lookup of every other key as it was. -/
theorem lookupChain_setOwn_other (h : Heap) (id : Nat) (k k2 : String) (x : Value)
    (hne : k2 ≠ k) :
    ∀ (fuel j : Nat), lookupChain (h.setOwn id k x) fuel j k2 = lookupChain h fuel j k2 := by
  intro fuel
  induction fuel with
  | zero =>
    intro j
    rfl
  | succ n ih =>
    intro j
    by_cases hj : j = id
    · subst hj
      simp only [lookupChain, setOwn_self, getProp_setProp_other _ k k2 x hne, ih]
    · simp only [lookupChain, setOwn_ne h id k x j hj, ih]

/-- A property write is read back from the object written to. -/
theorem lookupChain_setOwn_same (h : Heap) (id : Nat) (k : String) (x : Value) (fuel : Nat) :
    lookupChain (h.setOwn id k x) (fuel + 1) id k = x := by
  simp only [lookupChain, setOwn_self, getProp_setProp_same]

/-- Putting an element in front of an array changes no property lookup. -/
theorem lookupChain_unshiftAt (h : Heap) (id : Nat) (x : Value) (k : String) :
    ∀ (fuel j : Nat), lookupChain (h.unshiftAt id x) fuel j k = lookupChain h fuel j k := by
  intro fuel
  induction fuel with
  | zero =>
    intro j
    rfl
  | succ n ih =>
    intro j
    by_cases hj : j = id
    · subst hj
      simp only [lookupChain, unshiftAt_self, ih]
    · simp only [lookupChain, unshiftAt_ne h id x j hj, ih]

/-- A property write leaves the elements of every array as they were. -/
theorem items_setOwn (h : Heap) (id : Nat) (k : String) (x : Value) (j : Nat) :
    (h.setOwn id k x j).items = (h j).items := by
  by_cases hj : j = id
  · subst hj
    rw [setOwn_self]
  · rw [setOwn_ne h id k x j hj]

/-- Reading a property of a value other than `undefined` and `null` does not throw. -/
theorem getProperty_ok (h : Heap) (v : Value) (k : String) (hu : v ≠ Value.undefined)
    (hn : v ≠ Value.null) : ∃ x, getProperty h v k = Except.ok x := by
  cases v with
  | undefined => exact absurd rfl hu
  | null => exact absurd rfl hn
  | object j => exact ⟨_, rfl⟩
  | array j => exact ⟨_, rfl⟩
  | bool b => exact ⟨_, rfl⟩
  | number n => exact ⟨_, rfl⟩
  | string str => exact ⟨_, rfl⟩

/-- The run of `catchInjectorError` on an error object whose temporary path is
`tokenPath`, once the reads succeed, the `unshift`, if any, is done and `formatError` has
returned `newMessage`: the error is re-thrown and three own properties of it are written. -/
theorem catchInjectorError_eval (L : Lib) (eid : Nat) (token : Value) (name : String)
    (source : Option String) (h h1 : Heap) (tokenPath message src : Value)
    (newMessage : String)
    (hpath : getProperty h (Value.object eid) NG_TEMP_TOKEN_PATH = Except.ok tokenPath)
    (hsrc : getProperty h token SOURCE = Except.ok src)
    (hun : (if truthy src then unshift h tokenPath src else Except.ok h) = Except.ok h1)
    (hmsg : getProperty h1 (Value.object eid) "message" = Except.ok message)
    (hformat : formatError L h1 ("\n" ++ toStringValue L h1 message) tokenPath name source =
      Except.ok newMessage) :
    catchInjectorError L (Value.object eid) token name source h =
      (Except.error (Thrown.foreign (Value.object eid)),
        ((h1.setOwn eid "message" (Value.string newMessage)).setOwn eid NG_TOKEN_PATH
          tokenPath).setOwn eid NG_TEMP_TOKEN_PATH Value.null) := by
  unfold catchInjectorError
  simp only [hpath, hsrc, hun, hmsg, hformat, setProperty]

/-- What is read from the error object after the three writes of `catchInjectorError`. -/
theorem reads_after_writes (h1 : Heap) (eid : Nat) (newMessage tokenPath : Value) :
    getProperty (((h1.setOwn eid "message" newMessage).setOwn eid NG_TOKEN_PATH
        tokenPath).setOwn eid NG_TEMP_TOKEN_PATH Value.null) (Value.object eid) "message" =
      Except.ok newMessage ∧
    getProperty (((h1.setOwn eid "message" newMessage).setOwn eid NG_TOKEN_PATH
        tokenPath).setOwn eid NG_TEMP_TOKEN_PATH Value.null) (Value.object eid)
        NG_TOKEN_PATH = Except.ok tokenPath ∧
    getProperty (((h1.setOwn eid "message" newMessage).setOwn eid NG_TOKEN_PATH
        tokenPath).setOwn eid NG_TEMP_TOKEN_PATH Value.null) (Value.object eid)
        NG_TEMP_TOKEN_PATH = Except.ok Value.null ∧
    ∀ j : Nat, ((((h1.setOwn eid "message" newMessage).setOwn eid NG_TOKEN_PATH
        tokenPath).setOwn eid NG_TEMP_TOKEN_PATH Value.null) j).items = (h1 j).items := by
  refine ⟨?_, ?_, ?_, ?_⟩
  · simp only [getProperty]
    rw [lookupChain_setOwn_other _ eid NG_TEMP_TOKEN_PATH "message" _ (by decide),
      lookupChain_setOwn_other _ eid NG_TOKEN_PATH "message" _ (by decide),
      lookupChain_setOwn_same]
  · simp only [getProperty]
    rw [lookupChain_setOwn_other _ eid NG_TEMP_TOKEN_PATH NG_TOKEN_PATH _ (by decide),
      lookupChain_setOwn_same]
  · simp only [getProperty]
    rw [lookupChain_setOwn_same]
  · intro j
    rw [items_setOwn, items_setOwn, items_setOwn]

/-- `formatError` returns the label, the parenthesised source when it is a non-empty
string, the bracketed context, a colon and the processed text; it throws what the
computation of the context throws. -/
theorem formatError_eq (L : Lib) (h : Heap) (text : String) (obj : Value) (name : String)
    (source : Option String) :
    formatError L h text obj name source =
      (formatErrorContext L h obj).map (fun context =>
        name ++ ((match source with
          | some src => if src ≠ "" then "(" ++ (src ++ ")") else ""
          | none => "") ++
          ("[" ++ (context ++ ("]: " ++ processedText text))))) := by
  unfold formatError processedText
  cases formatErrorContext L h obj with
  | error t => rfl
  | ok context =>
    simp only [Except.map]
    cases source with
    | none => simp only [String.append_assoc]
    | some src =>
      by_cases hs : src ≠ ""
      · simp only [if_pos hs, String.append_assoc]
      · simp only [if_neg hs, String.append_assoc]

/-- The context of a list path is computed without failure. -/
theorem formatErrorContext_array (L : Lib) (h : Heap) (id : Nat) :
    formatErrorContext L h (Value.array id) =
      Except.ok (" -> ".intercalate ((h id).items.map (L.stringify h))) := rfl

/-- A text without newline is left alone by the re-indentation. -/
theorem replaceNewLine_of_no_newline :
    ∀ cs : List Char, (∀ c ∈ cs, c ≠ '\n') → replaceNewLine cs = cs := by
  intro cs
  induction cs with
  | nil =>
    intro _
    rfl
  | cons c cs ih =>
    intro hcs
    have hc : c ≠ '\n' := hcs c (List.mem_cons_self c cs)
    rw [replaceNewLine, if_neg hc, ih (fun x hx => hcs x (List.mem_cons_of_mem c hx))]

/-- The processed text of a newline followed by a message that has no newline and does
not start with the marker glyph: a newline, two spaces, the message. -/
theorem processedText_newline_message (msg : String) (hnl : ∀ c ∈ msg.data, c ≠ '\n')
    (hmarker : msg.data.head? ≠ some NO_NEW_LINE) :
    processedText ("\n" ++ msg) = "\n  " ++ msg := by
  have hdata : ("\n" ++ msg).data = '\n' :: msg.data := rfl
  have hstrip : stripMarker ("\n" ++ msg) = "\n" ++ msg := by
    unfold stripMarker
    rw [hdata]
    cases hm : msg.data with
    | nil => rfl
    | cons c rest =>
      have hc : ¬ ('\n' = '\n' ∧ c = NO_NEW_LINE) := by
        intro hcon
        apply hmarker
        rw [hm, List.head?_cons, hcon.2]
      exact if_neg hc
  unfold processedText
  rw [hstrip, hdata, replaceNewLine, if_pos rfl, replaceNewLine_of_no_newline _ hnl]
  rfl

/-! ## Claims, second group -/

/-- C11, as stated, fails: with `ngDevMode` off the guard is skipped; with
`ɵɵdirectiveInject` installed and no render context, `directiveInject` then calls `inject`,
which calls `directiveInject`, and so on: for no amount of fuel is there an outcome, so
there is no `LogicError` and no termination. -/
theorem directiveInject_guard_counterexample :
    ({ sampleEnv with ngDevMode := false }).getLView
        (sampleWorld Value.undefined (some InjectImpl.directiveInject)) = Value.null ∧
    getInjectImplementation (sampleWorld Value.undefined (some InjectImpl.directiveInject)) =
      some InjectImpl.directiveInject ∧
    ∀ fuel : Nat,
      directiveInject { sampleEnv with ngDevMode := false } fuel (Value.object 1) 0
        (sampleWorld Value.undefined (some InjectImpl.directiveInject)) = none :=
  ⟨rfl, rfl, fun fuel =>
    (guard_off_no_outcome { sampleEnv with ngDevMode := false }
      (sampleWorld Value.undefined (some InjectImpl.directiveInject)) rfl rfl rfl fuel
      (Value.object 1) 0).2⟩

/-- C11, amended. With `ngDevMode` on: when no render context exists and the active
global implementation is `directiveInject` itself, `directiveInject` fails with
`LogicError`, leaving the world untouched, instead of recursing through `inject` back into
itself. It never calls itself again: inside a render context its outcome is the tree
walker's; outside, with nothing installed, it is that of `injectInjectorOnly`; and with
another function installed it is the outcome of the one call of that function, once that
call returns or throws. So `directiveInject` terminates for every input for which the
installed function, if there is one other than `directiveInject`, returns or throws. -/
theorem directiveInject_guard {σ : Type} (env : Env σ) (fuel : Nat) (token : Value)
    (flags : Int) (w : World σ) (hdev : env.ngDevMode = true) :
    (env.getLView w = Value.null →
      getInjectImplementation w = some InjectImpl.directiveInject →
      directiveInject env (fuel + 1) token flags w = some (Except.error LogicError, w)) ∧
    (env.getLView w ≠ Value.null →
      directiveInject env (fuel + 1) token flags w =
        some (env.getOrCreateInjectable (env.getCurrentTNode w) (env.getLView w)
          (env.resolveForwardRef token) flags w)) ∧
    (env.getLView w = Value.null → getInjectImplementation w = none →
      directiveInject env (fuel + 2) token flags w =
        some (injectInjectorOnly env (env.resolveForwardRef token) flags w)) ∧
    (∀ (f : Nat) (r : Outcome × World σ), env.getLView w = Value.null →
      getInjectImplementation w = some (InjectImpl.function f) →
      env.call f (env.resolveForwardRef token) flags w = r →
      directiveInject env (fuel + 2) token flags w = some r) := by
  refine ⟨?_, ?_, ?_, ?_⟩
  · intro hnone himpl
    rw [directiveInject_succ, if_pos hnone, hdev]
    simp only [if_true, assertInjectImplementationNotEqual, himpl]
  · intro hctx
    rw [directiveInject_succ, if_neg hctx]
  · intro hnone himpl
    rw [directiveInject_succ, if_pos hnone, hdev]
    simp only [if_true, assertInjectImplementationNotEqual, himpl]
    rw [if_neg (fun hc => Option.noConfusion hc), inject_succ, himpl]
  · intro f r hnone himpl hcall
    subst hcall
    rw [directiveInject_succ, if_pos hnone, hdev]
    simp only [if_true, assertInjectImplementationNotEqual, himpl]
    rw [if_neg (fun hc => InjectImpl.noConfusion (Option.some.inj hc)), inject_succ, himpl]

/-- C11 amended, at concrete inputs: in dev mode the guarded call fails with
`LogicError`; with the function 5 installed the outcome is that of its one call. -/
theorem directiveInject_guard_witness :
    directiveInject sampleEnv 1 (Value.object 1) 0
        (sampleWorld Value.undefined (some InjectImpl.directiveInject)) =
      some (Except.error LogicError,
        sampleWorld Value.undefined (some InjectImpl.directiveInject)) ∧
    directiveInject sampleEnv 2 (Value.object 100) 8
        (sampleWorld Value.undefined (some (InjectImpl.function 5))) =
      some (Except.ok (Value.number 13),
        sampleWorld Value.undefined (some (InjectImpl.function 5))) :=
  ⟨(directiveInject_guard sampleEnv 0 (Value.object 1) 0
      (sampleWorld Value.undefined (some InjectImpl.directiveInject)) rfl).1 rfl rfl,
   (directiveInject_guard sampleEnv 0 (Value.object 100) 8
      (sampleWorld Value.undefined (some (InjectImpl.function 5))) rfl).2.2.2 5 _ rfl rfl rfl⟩

/-- C12. For a decorator list made of one explicit-inject decorator carrying `X` with
flag decorators before and after it, in any order, `injectArgs` makes exactly one call of
`inject` for the entry, with token `X` and flags the bitwise OR (the 32-bit `|` of
`flags |= flag`) of the flag decorators' annotations on top of `Default`, which is 0, and
then goes on with the rest. -/
theorem injectArgs_inject_with_flags {τ : Type} (env : Env (Store τ)) (fuel : Nat)
    (entry : Value) (id : Nat) (before after : List Value) (inj X : Value)
    (rest args : List Value) (w : World (Store τ))
    (hdefault : env.InjectFlags.Default = 0)
    (hentry : env.resolveForwardRef entry = Value.array id)
    (hlist : (w.ext.heap id).items = before ++ inj :: after)
    (hinj : IsInjectDecorator w.ext.heap inj X)
    (hflags : ∀ m ∈ before ++ after, IsFlagDecorator w.ext.heap m) :
    injectArgsLoop env fuel (entry :: rest) args w =
      pushThen (inject env fuel X (orFlagBits w.ext.heap 0 (before ++ after)) w)
        (fun v w1 => injectArgsLoop env fuel rest (args ++ [v]) w1) ∧
    injectArgs env fuel [entry] w =
      pushThen (inject env fuel X (orFlagBits w.ext.heap 0 (before ++ after)) w)
        (fun v w1 => some (Except.ok [v], w1)) := by
  have hscan : injectArgsScan w.ext.heap (w.ext.heap id).items Value.undefined
      env.InjectFlags.Default =
        Except.ok (X, orFlagBits w.ext.heap 0 (before ++ after)) := by
    rw [hlist, hdefault,
      injectArgsScan_flags w.ext.heap before _ _ _
        (fun m hm => hflags m (List.mem_append_left after hm)),
      injectArgsScan_inject w.ext.heap inj X after _ _ hinj]
    have h2 := injectArgsScan_flags w.ext.heap after [] X (orFlagBits w.ext.heap 0 before)
      (fun m hm => hflags m (List.mem_append_right before hm))
    rw [List.append_nil] at h2
    rw [h2, injectArgsScan]
    simp only [orFlagBits, List.foldl_append]
  have hlen : ¬ (w.ext.heap id).items.length = 0 := by
    rw [hlist, List.length_append, List.length_cons]
    omega
  have hbody : injectArgsEntry env fuel entry w =
      inject env fuel X (orFlagBits w.ext.heap 0 (before ++ after)) w := by
    unfold injectArgsEntry
    simp only [hentry, if_neg hlen, hscan]
  constructor
  · rw [injectArgsLoop_cons, hbody]
  · unfold injectArgs
    rw [injectArgsLoop_cons, hbody]
    rfl

/-- C12 at concrete inputs: the entry `[Inject(X), Host]` is injected once with token `X`
(`object 1`) and flags 1, the Host bit; `[Optional, Inject(X), Host]` with flags 9; and
`[Inject(X), 23]`, whose flag annotation 2147483648 has bit 31 set, with flags
-2147483648. -/
theorem injectArgs_inject_with_flags_witness :
    injectArgs storeEnv 1 [Value.array 30] storeWorld =
      pushThen (inject storeEnv 1 (Value.object 1) storeEnv.InjectFlags.Host storeWorld)
        (fun v w1 => some (Except.ok [v], w1)) ∧
    injectArgs storeEnv 1 [Value.array 33] storeWorld =
      some (Except.ok [Value.number 9], storeWorld) ∧
    injectArgs storeEnv 1 [Value.array 37] (argsWorld (Value.object 9)) =
      pushThen (inject storeEnv 1 (Value.object 1) (-2147483648) (argsWorld (Value.object 9)))
        (fun v w1 => some (Except.ok [v], w1)) :=
  ⟨(injectArgs_inject_with_flags storeEnv 1 (Value.array 30) 30 [] [Value.object 21]
      (Value.object 20) (Value.object 1) [] [] storeWorld rfl rfl rfl ⟨rfl, rfl⟩
      (fun m hm => by
        rw [List.nil_append, List.mem_singleton] at hm
        rw [hm]
        exact ⟨1, by decide, rfl⟩)).2,
   ((injectArgs_inject_with_flags storeEnv 1 (Value.array 33) 33 [Value.object 22]
      [Value.object 21] (Value.object 20) (Value.object 1) [] [] storeWorld rfl rfl rfl
      ⟨rfl, rfl⟩
      (fun m hm => by
        rw [List.singleton_append, List.mem_cons, List.mem_singleton] at hm
        rcases hm with hm | hm
        · rw [hm]
          exact ⟨8, by decide, rfl⟩
        · rw [hm]
          exact ⟨1, by decide, rfl⟩)).2).trans rfl,
   (injectArgs_inject_with_flags storeEnv 1 (Value.array 37) 37 [] [Value.object 23]
      (Value.object 20) (Value.object 1) [] [] (argsWorld (Value.object 9)) rfl rfl rfl
      ⟨rfl, rfl⟩
      (fun m hm => by
        rw [List.nil_append, List.mem_singleton] at hm
        rw [hm]
        exact ⟨2147483648, by decide, rfl⟩)).2⟩

/-- C13, as stated, fails: in the list `[Inject(X), Y]` (address 32), where `Y`
(`object 2`) is a plain token placed after the explicit-inject decorator carrying `X`
(`object 1`), `injectArgs` injects `Y`: the call is `inject(Y, 0)`, which fails here,
whereas injecting `X` would have returned the service. -/
theorem injectArgs_explicit_inject_counterexample :
    IsInjectDecorator sampleHeap (Value.object 20) (Value.object 1) ∧
    (storeWorld.ext.heap 32).items = [Value.object 20, Value.object 2] ∧
    injectArgs storeEnv 1 [Value.array 32] storeWorld =
      pushThen (inject storeEnv 1 (Value.object 2) 0 storeWorld)
        (fun v w1 => some (Except.ok [v], w1)) ∧
    injectArgs storeEnv 1 [Value.array 32] storeWorld =
      some (Except.error (Thrown.foreign (Value.string "NullInjectorError")), storeWorld) ∧
    pushThen (inject storeEnv 1 (Value.object 1) 0 storeWorld)
        (fun v w1 => some (Except.ok [v], w1)) =
      some (Except.ok [Value.string "service"], storeWorld) :=
  ⟨⟨rfl, rfl⟩, rfl, rfl, rfl, rfl⟩

/-- C13, amended. In a decorator list, the last entry that supplies a token wins. If
only flag decorators follow an explicit-inject decorator carrying `X`, the token injected
for the entry is `X`, whatever stands before it (plain tokens and other explicit-inject
decorators included); if only flag decorators follow a plain token, that plain token is
injected, even when an explicit-inject decorator stands before it. -/
theorem injectArgs_last_token_wins {τ : Type} (env : Env (Store τ)) (fuel : Nat)
    (entry : Value) (id : Nat) (before after : List Value) (m X : Value)
    (rest args : List Value) (w : World (Store τ))
    (hentry : env.resolveForwardRef entry = Value.array id)
    (hlist : (w.ext.heap id).items = before ++ m :: after)
    (hbefore : ∀ x ∈ before, x ≠ Value.undefined ∧ x ≠ Value.null)
    (hafter : ∀ x ∈ after, IsFlagDecorator w.ext.heap x) :
    (IsInjectDecorator w.ext.heap m X →
      ∃ flags : Int, injectArgsLoop env fuel (entry :: rest) args w =
        pushThen (inject env fuel X flags w)
          (fun v w1 => injectArgsLoop env fuel rest (args ++ [v]) w1)) ∧
    (IsPlainToken w.ext.heap m →
      ∃ flags : Int, injectArgsLoop env fuel (entry :: rest) args w =
        pushThen (inject env fuel m flags w)
          (fun v w1 => injectArgsLoop env fuel rest (args ++ [v]) w1)) := by
  have hne : (w.ext.heap id).items ≠ [] := by
    rw [hlist]
    exact fun hnil => List.noConfusion (List.append_eq_nil.mp hnil).2
  obtain ⟨t1, f1, hpre⟩ := injectArgsScan_prefix w.ext.heap before Value.undefined
    env.InjectFlags.Default hbefore
  have htail : ∀ (t : Value) (f : Int), injectArgsScan w.ext.heap after t f =
      Except.ok (t, orFlagBits w.ext.heap f after) := by
    intro t f
    have h2 := injectArgsScan_flags w.ext.heap after [] t f hafter
    rw [List.append_nil] at h2
    rw [h2, injectArgsScan]
  constructor
  · intro hinj
    refine ⟨orFlagBits w.ext.heap f1 after, ?_⟩
    rw [injectArgsLoop_cons, injectArgsEntry_of_scan env fuel entry id w X _ hentry hne]
    rw [hlist, hpre, injectArgsScan_inject w.ext.heap m X after t1 f1 hinj, htail]
  · intro hplain
    refine ⟨orFlagBits w.ext.heap f1 after, ?_⟩
    rw [injectArgsLoop_cons, injectArgsEntry_of_scan env fuel entry id w m _ hentry hne]
    rw [hlist, hpre, injectArgsScan_plain w.ext.heap m after t1 f1 hplain, htail]

/-- C13 amended, at concrete inputs: in `[Inject(X), Host]` the token is `X`; in
`[Inject(X), Y]` it is `Y`. -/
theorem injectArgs_last_token_wins_witness :
    (∃ flags : Int, injectArgsLoop storeEnv 1 [Value.array 30] [] storeWorld =
      pushThen (inject storeEnv 1 (Value.object 1) flags storeWorld)
        (fun v w1 => injectArgsLoop storeEnv 1 [] ([] ++ [v]) w1)) ∧
    (∃ flags : Int, injectArgsLoop storeEnv 1 [Value.array 32] [] storeWorld =
      pushThen (inject storeEnv 1 (Value.object 2) flags storeWorld)
        (fun v w1 => injectArgsLoop storeEnv 1 [] ([] ++ [v]) w1)) :=
  ⟨(injectArgs_last_token_wins storeEnv 1 (Value.array 30) 30 [] [Value.object 21]
      (Value.object 20) (Value.object 1) [] [] storeWorld rfl rfl
      (fun x hx => absurd hx (List.not_mem_nil x))
      (fun x hx => by
        rw [List.mem_singleton] at hx
        rw [hx]
        exact ⟨1, by decide, rfl⟩)).1 ⟨rfl, rfl⟩,
   (injectArgs_last_token_wins storeEnv 1 (Value.array 32) 32 [Value.object 20] []
      (Value.object 2) (Value.object 1) [] [] storeWorld rfl rfl
      (fun x hx => by
        rw [List.mem_singleton] at hx
        rw [hx]
        exact ⟨fun hc => Value.noConfusion hc, fun hc => Value.noConfusion hc⟩)
      (fun x hx => absurd hx (List.not_mem_nil x))).2
      ⟨Value.undefined, rfl, fun n hc => Value.noConfusion hc⟩⟩

/-- C14. On a list of plain tokens (none resolves to an array, and resolving one twice
gives what resolving it once gives) `injectArgs` is `injectEach`: it injects every token
in input order with default flags and returns the values in that order, one per token
when all injections succeed; for the empty list it returns the empty list whatever the
environment and the fuel, hence without calling `inject`. -/
theorem injectArgs_plain_tokens {τ : Type} (env : Env (Store τ)) (fuel : Nat)
    (tokens : List Value) (w : World (Store τ))
    (hplain : ∀ t ∈ tokens, (∀ id, env.resolveForwardRef t ≠ Value.array id) ∧
      env.resolveForwardRef (env.resolveForwardRef t) = env.resolveForwardRef t) :
    injectArgs env fuel tokens w = injectEach env fuel tokens w ∧
    (∀ (vs : List Value) (w2 : World (Store τ)),
      injectArgs env fuel tokens w = some (Except.ok vs, w2) → vs.length = tokens.length) ∧
    (∀ (env2 : Env (Store τ)) (fuel2 : Nat),
      injectArgs env2 fuel2 [] w = some (Except.ok [], w)) := by
  have key : injectArgs env fuel tokens w = injectEach env fuel tokens w := by
    unfold injectArgs
    rw [injectArgsLoop_plain env fuel tokens [] w hplain]
    cases injectEach env fuel tokens w with
    | none => rfl
    | some r =>
      obtain ⟨out, w2⟩ := r
      cases out with
      | error e => rfl
      | ok vs => simp only [List.nil_append]
  refine ⟨key, ?_, fun env2 fuel2 => rfl⟩
  intro vs w2 h
  rw [key] at h
  exact injectEach_length env fuel tokens w vs w2 h

/-- C14 at a concrete input: the forward reference `object 100` and the class `object 1`
are injected in order, each giving the service. -/
theorem injectArgs_plain_tokens_witness :
    injectArgs storeEnv 1 [Value.object 100, Value.object 1] storeWorld =
      injectEach storeEnv 1 [Value.object 100, Value.object 1] storeWorld ∧
    injectEach storeEnv 1 [Value.object 100, Value.object 1] storeWorld =
      some (Except.ok [Value.string "service", Value.string "service"], storeWorld) :=
  ⟨(injectArgs_plain_tokens storeEnv 1 [Value.object 100, Value.object 1] storeWorld
      (fun t ht => by
        rw [List.mem_cons, List.mem_singleton] at ht
        rcases ht with ht | ht
        · rw [ht]
          exact ⟨fun id hc => Value.noConfusion hc, rfl⟩
        · rw [ht]
          exact ⟨fun id hc => Value.noConfusion hc, rfl⟩)).1, rfl⟩

/-- C15. If the entries before position `i` are all injected successfully, leaving the
world `w1`, and the entry at position `i` resolves to a list that is empty in `w1`, then
`injectArgs` fails with the error 'Arguments array must have arguments.' and leaves the
world `w1`, whatever follows: nothing is injected for position `i` or later. In
particular `injectArgs([[]])` fails with that error in the world it was called in, for
every environment and every fuel, hence without calling `inject`. -/
theorem injectArgs_empty_list {τ : Type} (env : Env (Store τ)) (fuel : Nat)
    (pre : List Value) (entry : Value) (rest : List Value) (id : Nat) (vals : List Value)
    (w w1 : World (Store τ))
    (hpre : injectArgs env fuel pre w = some (Except.ok vals, w1))
    (hentry : env.resolveForwardRef entry = Value.array id)
    (hempty : (w1.ext.heap id).items = []) :
    injectArgs env fuel (pre ++ entry :: rest) w =
      some (Except.error (Thrown.newError "Arguments array must have arguments."), w1) ∧
    (∀ (env2 : Env (Store τ)) (fuel2 : Nat), env2.resolveForwardRef entry = Value.array id →
      injectArgs env2 fuel2 [entry] w1 =
        some (Except.error (Thrown.newError "Arguments array must have arguments."), w1)) := by
  have hbody : ∀ (e : Env (Store τ)) (n : Nat), e.resolveForwardRef entry = Value.array id →
      injectArgsEntry e n entry w1 = some (Except.error ArgumentError, w1) := by
    intro e n he
    unfold injectArgsEntry
    simp only [he, hempty, List.length_nil, if_true]
  constructor
  · unfold injectArgs at hpre ⊢
    rw [injectArgsLoop_append, hpre]
    simp only
    rw [injectArgsLoop_cons, hbody env fuel hentry]
    rfl
  · intro env2 fuel2 he
    unfold injectArgs
    rw [injectArgsLoop_cons, hbody env2 fuel2 he]
    rfl

/-- C15 at concrete inputs: after the plain token `object 1`, the empty list at address
31 makes `injectArgs` fail, and the decorator list after it is not looked at;
`injectArgs([[]])` fails with no fuel at all. -/
theorem injectArgs_empty_list_witness :
    injectArgs storeEnv 1 ([Value.object 1] ++ Value.array 31 :: [Value.array 30]) storeWorld =
      some (Except.error (Thrown.newError "Arguments array must have arguments."),
        storeWorld) ∧
    injectArgs storeEnv 0 [Value.array 31] storeWorld =
      some (Except.error (Thrown.newError "Arguments array must have arguments."),
        storeWorld) :=
  ⟨(injectArgs_empty_list storeEnv 1 [Value.object 1] (Value.array 31) [Value.array 30] 31
      [Value.string "service"] storeWorld storeWorld rfl rfl rfl).1,
   (injectArgs_empty_list storeEnv 1 [Value.object 1] (Value.array 31) [Value.array 30] 31
      [Value.string "service"] storeWorld storeWorld rfl rfl rfl).2 storeEnv 0 rfl⟩

/-- C16. The resolution targets (the installed function, the injector's `get`, the
limp-mode fallback, the tree walker) are only ever handed tokens that went through
`resolveForwardRef`: whatever they would do on any other token has no influence on
`inject` nor on `injectArgs`, be the token a top-level entry, a plain token of a decorator
list or the token of an explicit-inject decorator. -/
theorem targets_get_resolved_tokens {τ : Type} (env env2 : Env (Store τ))
    (hag : AgreeOnResolved env env2) (fuel : Nat) :
    (∀ (token : Value) (flags : Int) (w : World (Store τ)),
      inject env2 fuel token flags w = inject env fuel token flags w) ∧
    (∀ (types : List Value) (w : World (Store τ)),
      injectArgs env2 fuel types w = injectArgs env fuel types w) :=
  ⟨fun token flags w => (agree_inject env env2 hag fuel token flags w).1,
   fun types w => agree_injectArgsLoop env env2 hag fuel types [] w⟩

/-- C16 at a concrete input: an injector that would throw on the unresolved forward
reference `object 100` answers the input `[forwardRef, [Optional, Inject(X), Host]]`
exactly as the plain injector does. -/
theorem targets_get_resolved_tokens_witness :
    injectArgs
        { storeEnv with get := fun r t n f w =>
            if t = Value.object 100 then (Except.error Thrown.typeError, w)
            else storeEnv.get r t n f w }
        1 [Value.object 100, Value.array 33] storeWorld =
      injectArgs storeEnv 1 [Value.object 100, Value.array 33] storeWorld ∧
    injectArgs storeEnv 1 [Value.object 100, Value.array 33] storeWorld =
      some (Except.ok [Value.string "service", Value.number 9], storeWorld) :=
  ⟨(targets_get_resolved_tokens storeEnv
      { storeEnv with get := fun r t n f w =>
          if t = Value.object 100 then (Except.error Thrown.typeError, w)
          else storeEnv.get r t n f w }
      ⟨rfl, rfl, rfl, rfl, rfl, fun _ _ _ _ => rfl,
        fun _ t _ _ _ => if_neg (storeEnv_resolved_ne t),
        fun _ _ _ _ => rfl, fun _ _ _ _ _ => rfl⟩ 1).2
      [Value.object 100, Value.array 33] storeWorld, rfl⟩

/-- C17, as stated, fails: for the token `undefined` the read of its source label
(line 160) throws a `TypeError`; the error at address 40 is not re-thrown, and it is left
as it was, message included. -/
theorem catchInjectorError_rethrows_counterexample :
    getProperty sampleHeap (Value.object 40) NG_TEMP_TOKEN_PATH = Except.ok (Value.array 41) ∧
    getProperty sampleHeap (Value.object 40) "message" = Except.ok (Value.string "msg") ∧
    catchInjectorError sampleLib (Value.object 40) Value.undefined "R3InjectorError" none
        sampleHeap = (Except.error Thrown.typeError, sampleHeap) ∧
    Thrown.typeError ≠ Thrown.foreign (Value.object 40) :=
  ⟨rfl, rfl, rfl, by decide⟩

/-- C17, amended. For an error object `e` whose temporary path is the list at `pid` and
whose message is the string `m`, and a token other than `undefined` and `null`, whose
source label therefore reads some `src`, `catchInjectorError` re-throws `e` itself after:
putting `src` in front of the path when it is truthy and leaving the path alone otherwise;
setting `e.message` to what `formatError('\n' + m, path, injectorErrorName, source)`
returns, computed on the path so updated; storing the path in `ngTokenPath`; and setting
`ngTempTokenPath` to `null`. For the token `undefined` or `null` it throws a `TypeError`
instead and leaves everything as it was. Whatever its arguments, `catchInjectorError`
never returns a value. -/
theorem catchInjectorError_rethrows (L : Lib) (eid pid : Nat) (token : Value) (name : String)
    (source : Option String) (h : Heap) (m : String)
    (hpath : getProperty h (Value.object eid) NG_TEMP_TOKEN_PATH = Except.ok (Value.array pid))
    (hmsg : getProperty h (Value.object eid) "message" = Except.ok (Value.string m)) :
    (token ≠ Value.undefined → token ≠ Value.null →
      ∃ (src : Value) (h1 hf : Heap) (newMessage : String),
        getProperty h token SOURCE = Except.ok src ∧
        h1 = (if truthy src = true then h.unshiftAt pid src else h) ∧
        (h1 pid).items = (if truthy src = true then src :: (h pid).items else (h pid).items) ∧
        catchInjectorError L (Value.object eid) token name source h =
          (Except.error (Thrown.foreign (Value.object eid)), hf) ∧
        (hf pid).items = (h1 pid).items ∧
        formatError L h1 ("\n" ++ m) (Value.array pid) name source = Except.ok newMessage ∧
        getProperty hf (Value.object eid) "message" = Except.ok (Value.string newMessage) ∧
        getProperty hf (Value.object eid) NG_TOKEN_PATH = Except.ok (Value.array pid) ∧
        getProperty hf (Value.object eid) NG_TEMP_TOKEN_PATH = Except.ok Value.null) ∧
    (token = Value.undefined ∨ token = Value.null →
      catchInjectorError L (Value.object eid) token name source h =
        (Except.error Thrown.typeError, h)) ∧
    (∀ (e2 token2 : Value) (h2 : Heap), ∃ t : Thrown,
      (catchInjectorError L e2 token2 name source h2).1 = Except.error t) := by
  refine ⟨?_, ?_, ?_⟩
  · intro hu hn
    obtain ⟨src, hsrc⟩ := getProperty_ok h token SOURCE hu hn
    have hun : (if truthy src then unshift h (Value.array pid) src else Except.ok h) =
        Except.ok (if truthy src = true then h.unshiftAt pid src else h) := by
      by_cases ht : truthy src = true
      · simp only [ht, if_true, unshift]
      · simp only [ht, if_false]
        rfl
    have hitems : ((if truthy src = true then h.unshiftAt pid src else h) pid).items =
        (if truthy src = true then src :: (h pid).items else (h pid).items) := by
      by_cases ht : truthy src = true
      · simp only [ht, if_true, unshiftAt_self]
      · simp only [ht, if_false]
        rfl
    have hmsg1 : getProperty (if truthy src = true then h.unshiftAt pid src else h)
        (Value.object eid) "message" = Except.ok (Value.string m) := by
      by_cases ht : truthy src = true
      · simp only [ht, if_true]
        simp only [getProperty, lookupChain_unshiftAt]
        exact hmsg
      · simp only [ht, if_false]
        exact hmsg
    obtain ⟨newMessage, hformat⟩ : ∃ s : String,
        formatError L (if truthy src = true then h.unshiftAt pid src else h) ("\n" ++ m)
          (Value.array pid) name source = Except.ok s := by
      rw [formatError_eq, formatErrorContext_array]
      exact ⟨_, rfl⟩
    have hrun := catchInjectorError_eval L eid token name source h _ (Value.array pid)
      (Value.string m) src newMessage hpath hsrc hun hmsg1 hformat
    have hreads := reads_after_writes (if truthy src = true then h.unshiftAt pid src else h)
      eid (Value.string newMessage) (Value.array pid)
    exact ⟨src, _, _, newMessage, hsrc, rfl, hitems, hrun, hreads.2.2.2 pid, hformat,
      hreads.1, hreads.2.1, hreads.2.2.1⟩
  · intro hnullish
    rcases hnullish with hnull | hnull
    · rw [hnull]
      unfold catchInjectorError
      simp only [hpath, getProperty]
    · rw [hnull]
      unfold catchInjectorError
      simp only [hpath, getProperty]
  · intro e2 token2 h2
    unfold catchInjectorError
    repeat' split
    all_goals exact ⟨_, rfl⟩

/-- C17 amended, at a concrete input: the error at address 40 (message `msg`, temporary
path `[B]`), caught for the token at address 3 whose source label is `A`. -/
theorem catchInjectorError_rethrows_witness :
    ∃ hf : Heap,
      catchInjectorError sampleLib (Value.object 40) (Value.object 3) "R3InjectorError"
          (some "AppModule") sampleHeap =
        (Except.error (Thrown.foreign (Value.object 40)), hf) ∧
      (hf 41).items = [Value.string "A", Value.string "B"] ∧
      getProperty hf (Value.object 40) "message" =
        Except.ok (Value.string "R3InjectorError(AppModule)[A -> B]: \n  msg") ∧
      getProperty hf (Value.object 40) NG_TOKEN_PATH = Except.ok (Value.array 41) ∧
      getProperty hf (Value.object 40) NG_TEMP_TOKEN_PATH = Except.ok Value.null := by
  obtain ⟨src, h1, hf, newMessage, hsrc, hh1, hitems, hrun, hfitems, hformat, hmessage,
      hfinal, htemp⟩ :=
    (catchInjectorError_rethrows sampleLib 40 41 (Value.object 3) "R3InjectorError"
      (some "AppModule") sampleHeap "msg" rfl rfl).1 (fun hc => Value.noConfusion hc)
      (fun hc => Value.noConfusion hc)
  have hsrcA : src = Value.string "A" := (Except.ok.inj hsrc).symm
  subst hsrcA
  subst hh1
  have hnew : newMessage = "R3InjectorError(AppModule)[A -> B]: \n  msg" :=
    (Except.ok.inj hformat).symm
  refine ⟨hf, hrun, ?_, ?_, hfinal, htemp⟩
  · rw [hfitems, hitems]
    rfl
  · rw [hmessage, hnew]

/-- C18, as stated, fails: the error at address 40, once augmented for the token at
address 1, has its temporary path set to `null`; applying `catchInjectorError` to it
again for the outer token at address 3, which has the source label `A`, calls `unshift`
on `null` and fails with a `TypeError`, a different error. -/
theorem catchInjectorError_again_counterexample :
    (catchInjectorError sampleLib (Value.object 40) (Value.object 1) "R3InjectorError" none
        sampleHeap).1 = Except.error (Thrown.foreign (Value.object 40)) ∧
    getProperty sampleHeap (Value.object 3) SOURCE = Except.ok (Value.string "A") ∧
    (catchInjectorError sampleLib (Value.object 40) (Value.object 3) "R3InjectorError" none
        (catchInjectorError sampleLib (Value.object 40) (Value.object 1) "R3InjectorError"
          none sampleHeap).2).1 = Except.error Thrown.typeError ∧
    (catchInjectorError sampleLib (Value.object 40) (Value.object 3) "R3InjectorError" none
        (catchInjectorError sampleLib (Value.object 40) (Value.object 1) "R3InjectorError"
          none sampleHeap).2).1 ≠ Except.error (Thrown.foreign (Value.object 40)) :=
  ⟨rfl, rfl, rfl, fun hc => Thrown.noConfusion (Except.error.inj hc)⟩

/-- C18, amended. Applied to an error it has already augmented, whose temporary path it
has therefore set to `null` and whose message is `m1`, `catchInjectorError` re-throws that
same error when the outer token has no (truthy) source label: the message becomes what
`formatError('\n' + m1, null, injectorErrorName, source)` returns, in which the context is
the empty pair of braces and `m1`, path included, follows re-indented; `ngTokenPath`
becomes `null`. When the outer token has a source label it fails with a `TypeError` and
leaves the heap alone. -/
theorem catchInjectorError_again (L : Lib) (eid : Nat) (token : Value) (name : String)
    (source : Option String) (h : Heap) (m1 : String) (src : Value)
    (htemp : getProperty h (Value.object eid) NG_TEMP_TOKEN_PATH = Except.ok Value.null)
    (hmsg : getProperty h (Value.object eid) "message" = Except.ok (Value.string m1))
    (hsrc : getProperty h token SOURCE = Except.ok src) :
    (truthy src = false →
      ∃ (hf : Heap) (newMessage : String),
        catchInjectorError L (Value.object eid) token name source h =
          (Except.error (Thrown.foreign (Value.object eid)), hf) ∧
        formatError L h ("\n" ++ m1) Value.null name source = Except.ok newMessage ∧
        getProperty hf (Value.object eid) "message" = Except.ok (Value.string newMessage) ∧
        formatErrorContext L h Value.null = Except.ok "\x7b\x7d" ∧
        getProperty hf (Value.object eid) NG_TOKEN_PATH = Except.ok Value.null ∧
        getProperty hf (Value.object eid) NG_TEMP_TOKEN_PATH = Except.ok Value.null) ∧
    (truthy src = true →
      catchInjectorError L (Value.object eid) token name source h =
        (Except.error Thrown.typeError, h)) := by
  constructor
  · intro hfalse
    have hun : (if truthy src then unshift h Value.null src else Except.ok h) =
        Except.ok h := by
      simp only [hfalse]
      rfl
    obtain ⟨newMessage, hformat⟩ : ∃ s : String,
        formatError L h ("\n" ++ m1) Value.null name source = Except.ok s := by
      rw [formatError_eq]
      exact ⟨_, rfl⟩
    have hrun := catchInjectorError_eval L eid token name source h h Value.null
      (Value.string m1) src newMessage htemp hsrc hun hmsg hformat
    have hreads := reads_after_writes h eid (Value.string newMessage) Value.null
    exact ⟨_, newMessage, hrun, hformat, hreads.1, rfl, hreads.2.1, hreads.2.2.1⟩
  · intro htrue
    unfold catchInjectorError
    simp only [htemp, hsrc, htrue, if_true, unshift]

/-- C18 amended, at a concrete input: the error at address 40, augmented for the token
at address 1 and caught again for the token at address 2, neither of which has a source
label, is re-thrown with the earlier message nested in the new one. -/
theorem catchInjectorError_again_witness :
    ∃ hf : Heap,
      catchInjectorError sampleLib (Value.object 40) (Value.object 2) "Outer" none
          (catchInjectorError sampleLib (Value.object 40) (Value.object 1) "R3InjectorError"
            none sampleHeap).2 =
        (Except.error (Thrown.foreign (Value.object 40)), hf) ∧
      getProperty hf (Value.object 40) "message" =
        Except.ok (Value.string "Outer[\x7b\x7d]: \n  R3InjectorError[B]: \n    msg") := by
  obtain ⟨hf, newMessage, hrun, hformat, hmessage, _, _, _⟩ :=
    (catchInjectorError_again sampleLib 40 (Value.object 2) "Outer" none
      (catchInjectorError sampleLib (Value.object 40) (Value.object 1) "R3InjectorError"
        none sampleHeap).2 "R3InjectorError[B]: \n  msg" Value.undefined rfl rfl rfl).1 rfl
  have hnew : newMessage = "Outer[\x7b\x7d]: \n  R3InjectorError[B]: \n    msg" :=
    (Except.ok.inj hformat).symm
  exact ⟨hf, hrun, by rw [hmessage, hnew]⟩

/-- C19, as stated, fails: a source label that is given but is the empty string is
left out, parentheses included. -/
theorem formatError_shape_counterexample :
    formatError sampleLib sampleHeap "text" (Value.array 42) "Err" (some "") =
      Except.ok "Err[A -> B]: text" ∧
    formatError sampleLib sampleHeap "text" (Value.array 42) "Err" (some "") ≠
      Except.ok ("Err" ++ "(" ++ "" ++ ")" ++ "[" ++ "A -> B" ++ "]: " ++ "text") := by
  have hfirst : formatError sampleLib sampleHeap "text" (Value.array 42) "Err" (some "") =
      Except.ok "Err[A -> B]: text" := by
    rw [formatError_eq, formatErrorContext_array]
    exact congrArg Except.ok (by decide)
  refine ⟨hfirst, fun hc => ?_⟩
  exact absurd (Except.ok.inj (hfirst.symm.trans hc)) (by decide)

/-- C19, amended. `formatError` returns the injector label, `(` source label `)`, `[`
context `]: ` and the processed text when a non-empty source label is given, and the same
without the parenthesised part when the source label is absent or is the empty string (and
throws what the computation of the context throws). -/
theorem formatError_shape (L : Lib) (h : Heap) (text : String) (obj : Value) (name : String) :
    (∀ src : String, src ≠ "" →
      formatError L h text obj name (some src) =
        (formatErrorContext L h obj).map (fun context =>
          name ++ "(" ++ src ++ ")" ++ "[" ++ context ++ "]: " ++ processedText text)) ∧
    formatError L h text obj name none =
      (formatErrorContext L h obj).map (fun context =>
        name ++ "[" ++ context ++ "]: " ++ processedText text) ∧
    formatError L h text obj name (some "") =
      (formatErrorContext L h obj).map (fun context =>
        name ++ "[" ++ context ++ "]: " ++ processedText text) := by
  refine ⟨?_, ?_, ?_⟩
  · intro src hsrc
    rw [formatError_eq]
    simp only [if_pos hsrc, String.append_assoc]
  · rw [formatError_eq]
    simp only [String.append_assoc, String.empty_append]
  · rw [formatError_eq]
    simp only [ne_eq, not_true_eq_false, if_false, String.append_assoc, String.empty_append]

/-- C19 amended, at a concrete input, with the source label `Src`. -/
theorem formatError_shape_witness :
    formatError sampleLib sampleHeap "text" (Value.array 42) "Err" (some "Src") =
      Except.ok "Err(Src)[A -> B]: text" :=
  ((formatError_shape sampleLib sampleHeap "text" (Value.array 42) "Err").1 "Src"
    (by decide)).trans (congrArg Except.ok (by decide))

/-- C20, as stated, fails: `formatError('\nmsg', ['A','B'], 'NullInjectorError')` keeps
the leading newline and indents the message by two spaces. -/
theorem formatError_newline_counterexample :
    (sampleHeap 42).items = [Value.string "A", Value.string "B"] ∧
    formatError sampleLib sampleHeap "\nmsg" (Value.array 42) "NullInjectorError" none =
      Except.ok "NullInjectorError[A -> B]: \n  msg" ∧
    formatError sampleLib sampleHeap "\nmsg" (Value.array 42) "NullInjectorError" none ≠
      Except.ok "NullInjectorError[A -> B]: msg" := by
  have hfirst : formatError sampleLib sampleHeap "\nmsg" (Value.array 42)
      "NullInjectorError" none = Except.ok "NullInjectorError[A -> B]: \n  msg" := by
    rw [formatError_eq, formatErrorContext_array]
    exact congrArg Except.ok (by decide)
  refine ⟨rfl, hfirst, fun hc => ?_⟩
  exact absurd (Except.ok.inj (hfirst.symm.trans hc)) (by decide)

/-- C20, amended. For every message `msg` without newline that does not start with the
marker glyph, the newline the wrapper puts in front of `msg` comes out as a newline and
two spaces of indentation between `]: ` and `msg`; when `stringify` returns strings as
they are, `formatError('\nmsg', ['A','B'], 'NullInjectorError')` is
`NullInjectorError[A -> B]: `, a newline, two spaces and `msg`. -/
theorem formatError_newline (L : Lib) (h : Heap) (msg : String) (obj : Value) (name : String)
    (hnl : ∀ c ∈ msg.data, c ≠ '\n') (hmarker : msg.data.head? ≠ some NO_NEW_LINE) :
    formatError L h ("\n" ++ msg) obj name none =
      (formatErrorContext L h obj).map (fun context =>
        name ++ "[" ++ context ++ "]: " ++ "\n  " ++ msg) ∧
    (∀ id : Nat, (∀ str : String, L.stringify h (Value.string str) = str) →
      (h id).items = [Value.string "A", Value.string "B"] →
      formatError L h "\nmsg" (Value.array id) "NullInjectorError" none =
        Except.ok "NullInjectorError[A -> B]: \n  msg") := by
  constructor
  · rw [formatError_eq, processedText_newline_message msg hnl hmarker]
    simp only [String.append_assoc, String.empty_append]
  · intro id hstr hitems
    rw [formatError_eq, formatErrorContext_array]
    have hctx : " -> ".intercalate ((h id).items.map (L.stringify h)) = "A -> B" := by
      simp only [hitems, List.map, hstr]
      decide
    rw [hctx]
    exact congrArg Except.ok (by decide)

/-- C20 amended, at a concrete input. -/
theorem formatError_newline_witness :
    formatError sampleLib sampleHeap ("\n" ++ "No provider for B!") (Value.array 42)
        "NullInjectorError" none =
      Except.ok "NullInjectorError[A -> B]: \n  No provider for B!" :=
  ((formatError_newline sampleLib sampleHeap "No provider for B!" (Value.array 42)
    "NullInjectorError" (by decide) (by decide)).1).trans (congrArg Except.ok (by decide))

/-! ## Helper lemmas for the third group of claims -/

/-- The accumulating loop of the library joiner, in terms of `joinWith`. -/
theorem intercalate_go_eq (sep : String) :
    ∀ (rest : List String) (x acc : String),
      String.intercalate.go (acc ++ x) sep rest = acc ++ joinWith sep (x :: rest) := by
  intro rest
  induction rest with
  | nil =>
    intro x acc
    rfl
  | cons y rest ih =>
    intro x acc
    have h1 : String.intercalate.go (acc ++ x) sep (y :: rest) =
        String.intercalate.go ((acc ++ x ++ sep) ++ y) sep rest := rfl
    rw [h1, ih y (acc ++ x ++ sep)]
    simp only [joinWith, String.append_assoc]

/-- The library joiner is `joinWith`. -/
theorem intercalate_eq_joinWith (sep : String) (l : List String) :
    sep.intercalate l = joinWith sep l := by
  cases l with
  | nil => rfl
  | cons x rest =>
    have h1 : sep.intercalate (x :: rest) = String.intercalate.go ("" ++ x) sep rest := by
      rw [String.empty_append]
      rfl
    rw [h1, intercalate_go_eq, String.empty_append]

/-- An own-property read succeeds exactly on the keys of the list. -/
theorem getProp_isSome_iff (ps : List (String × Value)) (k : String) :
    (getProp ps k).isSome = true ↔ k ∈ ps.map Prod.fst := by
  induction ps with
  | nil => simp [getProp]
  | cons p ps ih =>
    obtain ⟨k1, v1⟩ := p
    by_cases hk : k1 = k
    · simp [getProp, hk]
    · have hk2 : ¬ k = k1 := fun hc => hk hc.symm
      simp [getProp, hk, hk2, ih]

/-- With distinct keys, every pair of the list is what reading its key gives. -/
theorem getProp_of_mem (ps : List (String × Value)) (hnodup : (ps.map Prod.fst).Nodup) :
    ∀ p ∈ ps, getProp ps p.1 = some p.2 := by
  induction ps with
  | nil =>
    intro p hp
    exact absurd hp (List.not_mem_nil p)
  | cons q ps ih =>
    obtain ⟨k1, v1⟩ := q
    intro p hp
    rw [List.map_cons, List.nodup_cons] at hnodup
    rcases List.mem_cons.mp hp with hp | hp
    · rw [hp]
      simp [getProp]
    · have hne : ¬ k1 = p.1 := by
        intro hc
        apply hnodup.1
        rw [hc]
        exact List.mem_map.mpr ⟨p, hp, rfl⟩
      simp only [getProp, if_neg hne]
      exact ih hnodup.2 p hp

/-- The enumerated keys of a non-list object with distinct keys, filtered by the
built-in `hasOwnProperty` and rendered, are its own pairs in order; what the prototype
chain holds is left out. -/
theorem ownParts_eq (L : Lib) (h : Heap) (id : Nat)
    (hnodup : ((h id).props.map Prod.fst).Nodup) :
    (forInKeys h (id + 1) id).filterMap (fun key =>
        if hasOwnProperty h id key then
          some (key ++ ":" ++
            (match lookupChain h (id + 1) id key with
             | Value.string str => JSON_stringify str
             | value => L.stringify h value))
        else none) = (h id).props.map (renderEntry L h) := by
  have hown : ∀ ps : List (String × Value), (∀ p ∈ ps, getProp (h id).props p.1 = some p.2) →
      (ps.map Prod.fst).filterMap (fun key =>
        if hasOwnProperty h id key then
          some (key ++ ":" ++
            (match lookupChain h (id + 1) id key with
             | Value.string str => JSON_stringify str
             | value => L.stringify h value))
        else none) = ps.map (renderEntry L h) := by
    intro ps
    induction ps with
    | nil =>
      intro _
      rfl
    | cons p ps ih =>
      intro hps
      have hp := hps p (List.mem_cons_self p ps)
      have hhas : hasOwnProperty h id p.1 = true := by
        simp only [hasOwnProperty, hp, Option.isSome_some]
      have hlook : lookupChain h (id + 1) id p.1 = p.2 := by
        simp only [lookupChain, hp]
      rw [List.map_cons, List.filterMap_cons]
      simp only [hhas, if_true, hlook]
      rw [ih (fun q hq => hps q (List.mem_cons_of_mem p hq)), List.map_cons]
      rfl
  have hinh : ∀ ks : List String, (∀ k ∈ ks, k ∉ (h id).props.map Prod.fst) →
      ks.filterMap (fun key =>
        if hasOwnProperty h id key then
          some (key ++ ":" ++
            (match lookupChain h (id + 1) id key with
             | Value.string str => JSON_stringify str
             | value => L.stringify h value))
        else none) = [] := by
    intro ks
    induction ks with
    | nil =>
      intro _
      rfl
    | cons k ks ih =>
      intro hks
      have hk := hks k (List.mem_cons_self k ks)
      have hhas : hasOwnProperty h id k = false := by
        cases hc : hasOwnProperty h id k with
        | false => rfl
        | true => exact absurd ((getProp_isSome_iff _ k).mp hc) hk
      rw [List.filterMap_cons]
      simp only [hhas, Bool.false_eq_true, if_false]
      exact ih (fun q hq => hks q (List.mem_cons_of_mem k hq))
  rw [forInKeys]
  cases hproto : (h id).proto with
  | none =>
    simp only
    exact hown _ (getProp_of_mem _ hnodup)
  | some p =>
    simp only
    rw [List.filterMap_append, hown _ (getProp_of_mem _ hnodup), hinh, List.append_nil]
    intro k hk
    have hk2 := (List.mem_filter.mp hk).2
    intro hmem
    have hc : ((h id).props.map Prod.fst).contains k = true := by
      simp only [List.contains_eq_any_beq, List.any_eq_true, beq_iff_eq]
      exact ⟨k, hmem, rfl⟩
    rw [hc] at hk2
    exact absurd hk2 (by decide)

/-- When `hasOwnProperty` is the built-in on the object, the loop of `formatError` does
not throw and keeps the keys the built-in accepts. -/
theorem formatErrorPartsLoop_builtin (L : Lib) (h : Heap) (id : Nat)
    (hbuiltin : findProperty h (id + 1) id "hasOwnProperty" = none) :
    ∀ keys : List String, formatErrorPartsLoop L h id keys =
      Except.ok (keys.filterMap (fun key =>
        if hasOwnProperty h id key then
          some (key ++ ":" ++
            (match lookupChain h (id + 1) id key with
             | Value.string str => JSON_stringify str
             | value => L.stringify h value))
        else none)) := by
  intro keys
  induction keys with
  | nil => rfl
  | cons key rest ih =>
    rw [formatErrorPartsLoop, ih, List.filterMap_cons]
    simp only [callHasOwnProperty, hbuiltin]
    cases hasOwnProperty h id key <;> rfl

/-- The entries `formatError` collects for a non-list object with distinct keys on which
`hasOwnProperty` is the built-in: its own pairs, rendered in order. -/
theorem formatErrorParts_eq (L : Lib) (h : Heap) (id : Nat)
    (hnodup : ((h id).props.map Prod.fst).Nodup)
    (hbuiltin : findProperty h (id + 1) id "hasOwnProperty" = none) :
    formatErrorParts L h id = Except.ok ((h id).props.map (renderEntry L h)) := by
  unfold formatErrorParts
  rw [formatErrorPartsLoop_builtin L h id hbuiltin, ownParts_eq L h id hnodup]

/-- The re-indentation is character by character. -/
theorem replaceNewLine_eq_flatMap :
    ∀ cs : List Char, replaceNewLine cs = cs.flatMap indentChar := by
  intro cs
  induction cs with
  | nil => rfl
  | cons c cs ih =>
    rw [replaceNewLine, List.flatMap_cons, ih]
    by_cases hc : c = '\n'
    · simp only [hc, if_true, indentChar]
      rfl
    · simp only [hc, if_false, indentChar]
      rfl

/-- A text without newline has no marker prefix to strip. -/
theorem stripMarker_of_no_newline (text : String) (hnl : ∀ c ∈ text.data, c ≠ '\n') :
    stripMarker text = text := by
  unfold stripMarker
  cases hd : text.data with
  | nil => rfl
  | cons c0 rest =>
    cases rest with
    | nil => rfl
    | cons c1 rest =>
      have hc0 : c0 ≠ '\n' := hnl c0 (by rw [hd]; exact List.mem_cons_self c0 _)
      exact if_neg (fun hcon => hc0 hcon.1)

/-- `formatError` returns what precedes the text, ending in `]: `, followed by the
processed text, and throws what the computation of the context throws. -/
theorem formatError_split (L : Lib) (h : Heap) (text : String) (obj : Value) (name : String)
    (source : Option String) :
    formatError L h text obj name source =
      (formatErrorContext L h obj).map (fun context =>
        (name ++ sourcePart source ++ "[" ++ context ++ "]: ") ++ processedText text) := by
  unfold formatError processedText sourcePart
  cases formatErrorContext L h obj with
  | error t => rfl
  | ok context => rfl

/-- The context of a non-list object with distinct keys on which `hasOwnProperty` is the
built-in: its own pairs, rendered and joined, between braces. -/
theorem formatErrorContext_object (L : Lib) (h : Heap) (id : Nat)
    (hplain : (h id).callable = false) (hnodup : ((h id).props.map Prod.fst).Nodup)
    (hbuiltin : findProperty h (id + 1) id "hasOwnProperty" = none) :
    formatErrorContext L h (Value.object id) =
      Except.ok ("\x7b" ++ joinWith ", " ((h id).props.map (renderEntry L h)) ++ "\x7d") := by
  simp only [formatErrorContext, hplain, Bool.false_eq_true, if_false,
    formatErrorParts_eq L h id hnodup hbuiltin, intercalate_eq_joinWith]

/-- A call of `obj.hasOwnProperty` on an object on which that name holds a value that is
not a function object throws a `TypeError`; so does the computation of the context when
the object is not callable and has at least one enumerated key. -/
theorem formatErrorContext_shadowed (L : Lib) (h : Heap) (id : Nat) (v : Value)
    (hplain : (h id).callable = false)
    (hshadow : findProperty h (id + 1) id "hasOwnProperty" = some v)
    (hvalue : ∀ f : Nat, v ≠ Value.object f)
    (hkeys : forInKeys h (id + 1) id ≠ []) :
    formatErrorContext L h (Value.object id) = Except.error Thrown.typeError := by
  have hcall : ∀ key, callHasOwnProperty L h id key = Except.error Thrown.typeError := by
    intro key
    unfold callHasOwnProperty
    rw [hshadow]
    cases v with
    | object f => exact absurd rfl (hvalue f)
    | undefined => rfl
    | null => rfl
    | bool b => rfl
    | number n => rfl
    | string str => rfl
    | array j => rfl
  have hparts : formatErrorParts L h id = Except.error Thrown.typeError := by
    unfold formatErrorParts
    cases hk : forInKeys h (id + 1) id with
    | nil => exact absurd hk hkeys
    | cons key rest => rw [formatErrorPartsLoop, hcall]
  simp only [formatErrorContext, hplain, Bool.false_eq_true, if_false, hparts]

/-- A property write is invisible to the read of another key, on any value. -/
theorem getProperty_setOwn_other (h : Heap) (id : Nat) (k k2 : String) (x v : Value)
    (hne : k2 ≠ k) : getProperty (h.setOwn id k x) v k2 = getProperty h v k2 := by
  cases v with
  | object j => simp only [getProperty, lookupChain_setOwn_other h id k k2 x hne]
  | array j => simp only [getProperty, lookupChain_setOwn_other h id k k2 x hne]
  | undefined => rfl
  | null => rfl
  | bool b => rfl
  | number n => rfl
  | string str => rfl

/-- A property write is read back from the object written to. -/
theorem getProperty_setOwn_same (h : Heap) (id : Nat) (k : String) (x : Value) :
    getProperty (h.setOwn id k x) (Value.object id) k = Except.ok x := by
  simp only [getProperty, lookupChain_setOwn_same]

/-- An object that has the key as own property keeps reading it when the same key is
written on another object. -/
theorem lookupChain_own_after_write (h : Heap) (id j : Nat) (k : String) (x v : Value)
    (fuel : Nat) (hj : j ≠ id) (hown : getProp (h j).props k = some v) :
    lookupChain (h.setOwn id k x) (fuel + 1) j k = v := by
  simp only [lookupChain, setOwn_ne h id k x j hj, hown]

/-- Where no object has the key, looking it up gives `undefined`. -/
theorem lookupChain_absent (h : Heap) (k : String) (habsent : ∀ j, getProp (h j).props k = none) :
    ∀ (fuel j : Nat), lookupChain h fuel j k = Value.undefined := by
  intro fuel
  induction fuel with
  | zero =>
    intro j
    rfl
  | succ n ih =>
    intro j
    simp only [lookupChain, habsent j]
    cases (h j).proto with
    | none => rfl
    | some p => exact ih p

/-- The run of `attachInjectFlag` on a decorator object whose `prototype` is an object:
two property writes, and the decorator comes back. -/
theorem attachInjectFlag_eval (h : Heap) (did pid : Nat) (flag : Value)
    (hproto : getProperty h (Value.object did) "prototype" = Except.ok (Value.object pid)) :
    attachInjectFlag (Value.object did) flag h =
      (Except.ok (Value.object did),
        (h.setOwn did DI_DECORATOR_FLAG flag).setOwn pid DI_DECORATOR_FLAG flag) := by
  have h1 : getProperty (h.setOwn did DI_DECORATOR_FLAG flag) (Value.object did) "prototype" =
      Except.ok (Value.object pid) := by
    rw [getProperty_setOwn_other h did DI_DECORATOR_FLAG "prototype" flag _ (by decide)]
    exact hproto
  unfold attachInjectFlag
  simp only [setProperty, h1]

/-- What is read after the two writes of `attachInjectFlag`: the flag on the decorator,
on its prototype object, and on every object that inherits from that prototype and has no
annotation of its own; the `prototype` property is as before. -/
theorem reads_after_attach (h : Heap) (did pid : Nat) (flag : Value)
    (hproto : getProperty h (Value.object did) "prototype" = Except.ok (Value.object pid)) :
    getInjectFlag ((h.setOwn did DI_DECORATOR_FLAG flag).setOwn pid DI_DECORATOR_FLAG flag)
        (Value.object did) = Except.ok flag ∧
    getInjectFlag ((h.setOwn did DI_DECORATOR_FLAG flag).setOwn pid DI_DECORATOR_FLAG flag)
        (Value.object pid) = Except.ok flag ∧
    getProperty ((h.setOwn did DI_DECORATOR_FLAG flag).setOwn pid DI_DECORATOR_FLAG flag)
        (Value.object did) "prototype" = Except.ok (Value.object pid) ∧
    (∀ i : Nat, i ≠ did → pid < i → (h i).proto = some pid →
      getProp (h i).props DI_DECORATOR_FLAG = none →
      getInjectFlag ((h.setOwn did DI_DECORATOR_FLAG flag).setOwn pid DI_DECORATOR_FLAG flag)
        (Value.object i) = Except.ok flag) := by
  refine ⟨?_, ?_, ?_, ?_⟩
  · by_cases hsame : did = pid
    · subst hsame
      exact getProperty_setOwn_same _ did DI_DECORATOR_FLAG flag
    · simp only [getInjectFlag, getProperty]
      rw [lookupChain_own_after_write _ pid did DI_DECORATOR_FLAG flag flag did hsame]
      rw [setOwn_self]
      exact getProp_setProp_same _ _ _
  · exact getProperty_setOwn_same _ pid DI_DECORATOR_FLAG flag
  · rw [getProperty_setOwn_other _ pid DI_DECORATOR_FLAG "prototype" flag _ (by decide),
      getProperty_setOwn_other _ did DI_DECORATOR_FLAG "prototype" flag _ (by decide)]
    exact hproto
  · intro i hid hlt hp hown
    have hip : i ≠ pid := by omega
    obtain ⟨n, hn⟩ : ∃ n, i = n + 1 := ⟨i - 1, by omega⟩
    have hcell : ((h.setOwn did DI_DECORATOR_FLAG flag).setOwn pid DI_DECORATOR_FLAG flag) i =
        h i := by
      rw [setOwn_ne _ pid _ _ i hip, setOwn_ne _ did _ _ i hid]
    simp only [getInjectFlag, getProperty]
    rw [lookupChain]
    simp only [hcell, hown, hp]
    rw [hn, lookupChain_setOwn_same]

/-- The spelled-out comparison of items is `areIterablesEqual` with `devModeEqual` as the
comparator. -/
theorem devModeEqualItems_eq :
    ∀ xs ys : List CmpValue, devModeEqualItems xs ys = areIterablesEqual devModeEqual xs ys := by
  intro xs
  induction xs with
  | nil =>
    intro ys
    cases ys with
    | nil => simp only [devModeEqualItems, areIterablesEqual]
    | cons y ys => simp only [devModeEqualItems, areIterablesEqual]
  | cons x xs ih =>
    intro ys
    cases ys with
    | nil => simp only [devModeEqualItems, areIterablesEqual]
    | cons y ys => simp only [devModeEqualItems, areIterablesEqual, ih]

/-- `devModeEqual` on two list-like values. -/
theorem devModeEqual_lists (i j : Nat) (xs ys : List CmpValue) :
    devModeEqual (CmpValue.list i xs) (CmpValue.list j ys) =
      areIterablesEqual devModeEqual xs ys := by
  rw [devModeEqual, devModeEqualItems_eq]

/-- `devModeEqual` when the two values are not both list-like: the `else` branch of the
source. -/
theorem devModeEqual_else (a b : CmpValue)
    (h : ¬ (isListLikeIterable a = true ∧ isListLikeIterable b = true)) :
    devModeEqual a b =
      if !isListLikeIterable a && isObjectLike a && !isListLikeIterable b && isObjectLike b
      then true else objectIs a b := by
  cases a <;> cases b <;> first
    | (simp only [devModeEqual]; done)
    | exact absurd ⟨rfl, rfl⟩ h

/-- The element-wise comparison holds exactly when the two lists have the same length and
the comparator holds on every pair of items at the same position. -/
theorem areIterablesEqual_iff {α : Type} (comparator : α → α → Bool) :
    ∀ xs ys : List α, areIterablesEqual comparator xs ys = true ↔
      List.Forall₂ (fun x y => comparator x y = true) xs ys := by
  intro xs
  induction xs with
  | nil =>
    intro ys
    cases ys with
    | nil => simp [areIterablesEqual]
    | cons y ys => simp [areIterablesEqual]
  | cons x xs ih =>
    intro ys
    cases ys with
    | nil => simp [areIterablesEqual]
    | cons y ys =>
      rw [areIterablesEqual, List.forall₂_cons, ← ih ys]
      by_cases hc : comparator x y = true
      · simp [hc]
      · simp [hc]

/-- Writing on an object the value that a lookup of the same key gave leaves that lookup
as it was, whether or not the chain of the lookup passes through the object written to. -/
theorem lookupChain_copy_back (h : Heap) (did : Nat) (k : String) (x : Value) :
    ∀ (fuel j : Nat), lookupChain h fuel j k = x →
      lookupChain (h.setOwn did k x) fuel j k = x := by
  intro fuel
  induction fuel with
  | zero =>
    intro j hj
    exact hj
  | succ n ih =>
    intro j hj
    by_cases hid : j = did
    · subst hid
      exact lookupChain_setOwn_same h j k x n
    · cases hown : getProp (h j).props k with
      | some v =>
        simp only [lookupChain, hown] at hj
        simp only [lookupChain, setOwn_ne h did k x j hid, hown]
        exact hj
      | none =>
        cases hp : (h j).proto with
        | some q =>
          simp only [lookupChain, hown, hp] at hj
          simp only [lookupChain, setOwn_ne h did k x j hid, hown, hp]
          exact ih q hj
        | none =>
          simp only [lookupChain, hown, hp] at hj
          simp only [lookupChain, setOwn_ne h did k x j hid, hown, hp]
          exact hj

/-- The assignment `defAny[k] = superDef[k]` leaves the read `superDef[k]` as it was. -/
theorem getProperty_copy_back (h : Heap) (did : Nat) (k : String) (x v : Value)
    (hx : getProperty h v k = Except.ok x) :
    getProperty (h.setOwn did k x) v k = Except.ok x := by
  cases v with
  | object j =>
    simp only [getProperty, Except.ok.injEq] at hx
    simp only [getProperty, lookupChain_copy_back h did k x (j + 1) j hx]
  | array j =>
    simp only [getProperty, Except.ok.injEq] at hx
    simp only [getProperty, lookupChain_copy_back h did k x (j + 1) j hx]
  | undefined => exact hx
  | null => exact hx
  | bool b => exact hx
  | number n => exact hx
  | string str => exact hx

/-- One of the copy loops of `ɵɵCopyDefinitionFeature`, on a definition object and an
ancestor definition that is neither `undefined` nor `null`: the loop completes; each listed
field of the definition then reads what the ancestor definition read before the loop; no
other key is touched; the ancestor definition reads as before on every key; no cell other
than the one of the definition changes. -/
theorem copyFields_spec (did : Nat) (superDef : Value) (hu : superDef ≠ Value.undefined)
    (hn : superDef ≠ Value.null) :
    ∀ (fields : List String) (h : Heap), fields.Nodup →
      ∃ hf : Heap, copyFields (Value.object did) superDef fields h = (Except.ok (), hf) ∧
        (∀ f, f ∈ fields → getProperty hf (Value.object did) f = getProperty h superDef f) ∧
        (∀ k, k ∉ fields → ∀ v, getProperty hf v k = getProperty h v k) ∧
        (∀ k, getProperty hf superDef k = getProperty h superDef k) ∧
        (∀ j, j ≠ did → hf j = h j) := by
  intro fields
  induction fields with
  | nil =>
    intro h _
    exact ⟨h, rfl, fun f hf => absurd hf (List.not_mem_nil f), fun _ _ _ => rfl,
      fun _ => rfl, fun _ _ => rfl⟩
  | cons f rest ih =>
    intro h hnodup
    have hfresh : f ∉ rest := (List.nodup_cons.mp hnodup).1
    obtain ⟨x, hx⟩ := getProperty_ok h superDef f hu hn
    obtain ⟨hf, hrun, hcopy, hframe, hsuper, hcells⟩ :=
      ih (h.setOwn did f x) (List.nodup_cons.mp hnodup).2
    refine ⟨hf, ?_, ?_, ?_, ?_, ?_⟩
    · simp only [copyFields, hx, setProperty, hrun]
    · intro g hg
      rcases List.mem_cons.mp hg with hgf | hgr
      · subst hgf
        rw [hframe g hfresh, getProperty_setOwn_same, hx]
      · have hne : g ≠ f := fun hc => hfresh (hc ▸ hgr)
        rw [hcopy g hgr, getProperty_setOwn_other h did f g x superDef hne]
    · intro k hk v
      have hne : k ≠ f := fun hc => hk (hc ▸ List.mem_cons_self f rest)
      have hkr : k ∉ rest := fun hc => hk (List.mem_cons_of_mem f hc)
      rw [hframe k hkr v, getProperty_setOwn_other h did f k x v hne]
    · intro k
      rw [hsuper k]
      by_cases hkf : k = f
      · subst hkf
        rw [getProperty_copy_back h did k x superDef hx, hx]
      · exact getProperty_setOwn_other h did f k x superDef hkf
    · intro j hj
      rw [hcells j hj, setOwn_ne h did f x j hj]

/-- The concrete discriminator reads only the properties of its argument. -/
theorem sampleDefLib_reads_only (h1 h2 : Heap) (v : Value)
    (hsame : ∀ k, getProperty h1 v k = getProperty h2 v k) :
    sampleDefLib.isComponentDef h1 v = sampleDefLib.isComponentDef h2 v := by
  simp only [sampleDefLib, hsame "template"]

/-- The run of `ɵɵCopyDefinitionFeature` on a definition object whose ancestor metadata
slot (`ɵcmp` for a component-kind definition, `ɵdir` otherwise) holds a value that is
neither `undefined` nor `null`, with a discriminator that reads only the properties of its
argument: the call completes; the common fields are copied; the component-only fields are
copied when the ancestor metadata is component-kind, and no key outside the common set is
touched when it is not; no key outside the two sets is touched in either case; the ancestor
metadata reads as before; no cell other than the one of the definition changes. -/
theorem CopyDefinitionFeature_run (D : DefLib) (h : Heap) (did : Nat) (type superDef : Value)
    (hD : ∀ (h1 h2 : Heap) (v : Value), (∀ k, getProperty h1 v k = getProperty h2 v k) →
      D.isComponentDef h1 v = D.isComponentDef h2 v)
    (htype : getProperty h (Value.object did) "type" = Except.ok type)
    (hslot : getProperty h (D.getSuperType h type)
      (if D.isComponentDef h (Value.object did) then "ɵcmp" else "ɵdir") = Except.ok superDef)
    (hu : superDef ≠ Value.undefined) (hn : superDef ≠ Value.null) :
    ∃ hf : Heap,
      CopyDefinitionFeature D (Value.object did) h = (Except.ok Value.undefined, hf) ∧
      (∀ f, f ∈ COPY_DIRECTIVE_FIELDS →
        getProperty hf (Value.object did) f = getProperty h superDef f) ∧
      (D.isComponentDef h superDef = true → ∀ f, f ∈ COPY_COMPONENT_FIELDS →
        getProperty hf (Value.object did) f = getProperty h superDef f) ∧
      (D.isComponentDef h superDef = false → ∀ k, k ∉ COPY_DIRECTIVE_FIELDS →
        ∀ v, getProperty hf v k = getProperty h v k) ∧
      (∀ k, k ∉ COPY_DIRECTIVE_FIELDS → k ∉ COPY_COMPONENT_FIELDS →
        ∀ v, getProperty hf v k = getProperty h v k) ∧
      (∀ k, getProperty hf superDef k = getProperty h superDef k) ∧
      (∀ j, j ≠ did → hf j = h j) := by
  have hslot2 : (if D.isComponentDef h (Value.object did) then
        getProperty h (D.getSuperType h type) "ɵcmp"
      else getProperty h (D.getSuperType h type) "ɵdir") = Except.ok superDef := by
    cases hc : D.isComponentDef h (Value.object did) with
    | false =>
      rw [hc] at hslot
      exact hslot
    | true =>
      rw [hc] at hslot
      exact hslot
  obtain ⟨h1, hrun1, hcopy1, hframe1, hsuper1, hcells1⟩ :=
    copyFields_spec did superDef hu hn COPY_DIRECTIVE_FIELDS h (by decide)
  have hkind : D.isComponentDef h1 superDef = D.isComponentDef h superDef :=
    hD h1 h superDef hsuper1
  cases hk : D.isComponentDef h superDef with
  | false =>
    refine ⟨h1, ?_, hcopy1, fun hc => Bool.noConfusion hc, fun _ k hk1 v => hframe1 k hk1 v,
      fun k hk1 _ v => hframe1 k hk1 v, hsuper1, hcells1⟩
    rw [hk] at hkind
    unfold CopyDefinitionFeature
    simp only [htype, hslot2, hrun1, hkind, Bool.false_eq_true, if_false]
  | true =>
    obtain ⟨h2, hrun2, hcopy2, hframe2, hsuper2, hcells2⟩ :=
      copyFields_spec did superDef hu hn COPY_COMPONENT_FIELDS h1 (by decide)
    refine ⟨h2, ?_, ?_, ?_, fun hc => Bool.noConfusion hc, ?_, ?_, ?_⟩
    · rw [hk] at hkind
      unfold CopyDefinitionFeature
      simp only [htype, hslot2, hrun1, hkind, if_true, hrun2]
    · intro f hf
      have hnot : f ∉ COPY_COMPONENT_FIELDS := by
        have hfeq : f = "providersResolver" := List.mem_singleton.mp hf
        rw [hfeq]
        decide
      rw [hframe2 f hnot, hcopy1 f hf]
    · intro _ f hf
      rw [hcopy2 f hf, hsuper1 f]
    · intro k hk1 hk2 v
      rw [hframe2 k hk2 v, hframe1 k hk1 v]
    · intro k
      rw [hsuper2 k, hsuper1 k]
    · intro j hj
      rw [hcells2 j hj, hcells1 j hj]

/-! ## Claims, third group -/

/-- C21, as stated, fails: for the mapping with `a` set to the string `x` and `b` set
to 1 (address 60), `formatError('text', mapping, 'Err', 'Src')` puts the pairs between
braces inside the square brackets. And for the mapping whose only key is `hasOwnProperty`,
set to 1 (address 64), the call `obj.hasOwnProperty(key)` of line 177 throws a
`TypeError`: there is no context at all. -/
theorem formatError_mapping_counterexample :
    (recordHeap 60).props = [("a", Value.string "x"), ("b", Value.number 1)] ∧
    formatError sampleLib recordHeap "text" (Value.object 60) "Err" (some "Src") =
      Except.ok "Err(Src)[\x7ba:\x22x\x22, b:1\x7d]: text" ∧
    formatError sampleLib recordHeap "text" (Value.object 60) "Err" (some "Src") ≠
      Except.ok "Err(Src)[a:\x22x\x22, b:1]: text" ∧
    (recordHeap 64).props = [("hasOwnProperty", Value.number 1)] ∧
    formatError sampleLib recordHeap "text" (Value.object 64) "Err" (some "Src") =
      Except.error Thrown.typeError := by
  have hfirst : formatError sampleLib recordHeap "text" (Value.object 60) "Err" (some "Src") =
      Except.ok "Err(Src)[\x7ba:\x22x\x22, b:1\x7d]: text" := by
    rw [formatError_split, formatErrorContext_object sampleLib recordHeap 60 rfl (by decide) rfl]
    exact congrArg Except.ok (by decide)
  refine ⟨rfl, hfirst, fun hc => ?_, rfl, ?_⟩
  · exact absurd (Except.ok.inj (hfirst.symm.trans hc)) (by decide)
  · rw [formatError_split, formatErrorContext_shadowed sampleLib recordHeap 64 (Value.number 1)
      rfl rfl (fun f hc => Value.noConfusion hc) (fun hc => List.noConfusion hc)]
    rfl

/-- C21, amended. For a plain mapping with distinct keys on which `hasOwnProperty` is the
built-in method, the bracketed context consists of the `key:value` pairs joined by `, `
between braces, inside the square brackets; for the mapping with `a` set to the string `x`
and `b` set to 1, and a `stringify` that renders 1 as `1`,
`formatError('text', mapping, 'Err', 'Src')` returns `Err(Src)[` `a:"x", b:1` between
braces `]: text`. -/
theorem formatError_mapping (L : Lib) (h : Heap) (id : Nat) (text name : String)
    (source : Option String)
    (hplain : (h id).callable = false) (hnodup : ((h id).props.map Prod.fst).Nodup)
    (hbuiltin : findProperty h (id + 1) id "hasOwnProperty" = none) :
    formatError L h text (Value.object id) name source =
      Except.ok (name ++ sourcePart source ++ "[" ++
        ("\x7b" ++ joinWith ", " ((h id).props.map (renderEntry L h)) ++ "\x7d") ++ "]: " ++
        processedText text) ∧
    ((h id).props = [("a", Value.string "x"), ("b", Value.number 1)] →
      L.stringify h (Value.number 1) = "1" →
      formatError L h "text" (Value.object id) "Err" (some "Src") =
        Except.ok "Err(Src)[\x7ba:\x22x\x22, b:1\x7d]: text") := by
  have hctx := formatErrorContext_object L h id hplain hnodup hbuiltin
  constructor
  · rw [formatError_split, hctx]
    rfl
  · intro hprops hone
    rw [formatError_split, hctx, hprops]
    simp only [List.map, renderEntry, hone, joinWith, Except.map]
    exact congrArg Except.ok (by decide)

/-- C21 amended, at a concrete input: the mapping at address 62, which has one own key. -/
theorem formatError_mapping_witness :
    formatError sampleLib recordHeap "text" (Value.object 62) "Err" none =
      Except.ok "Err[\x7bown:2\x7d]: text" :=
  ((formatError_mapping sampleLib recordHeap 62 "text" "Err" none rfl (by decide) rfl).1).trans
    (congrArg Except.ok (by decide))

/-- C22. For a list path, the context `formatError` puts between the brackets is
`stringify` of the elements, in list order, joined by ` -> `: nothing for an empty path,
`stringify(x)` alone for a one-element path, and otherwise `stringify` of the first
element, the separator, and the rest joined likewise. -/
theorem formatError_path (L : Lib) (h : Heap) (id : Nat) (items : List Value)
    (text name : String) (source : Option String) (hitems : (h id).items = items) :
    formatErrorContext L h (Value.array id) =
      Except.ok (joinWith " -> " (items.map (L.stringify h))) ∧
    formatError L h text (Value.array id) name source =
      Except.ok (name ++ sourcePart source ++ "[" ++
        joinWith " -> " (items.map (L.stringify h)) ++ "]: " ++ processedText text) ∧
    (items = [] → formatErrorContext L h (Value.array id) = Except.ok "") ∧
    (∀ x, items = [x] →
      formatErrorContext L h (Value.array id) = Except.ok (L.stringify h x)) ∧
    (∀ x y rest, items = x :: y :: rest →
      formatErrorContext L h (Value.array id) =
        Except.ok (L.stringify h x ++ " -> " ++
          joinWith " -> " ((y :: rest).map (L.stringify h)))) := by
  have hctx : formatErrorContext L h (Value.array id) =
      Except.ok (joinWith " -> " (items.map (L.stringify h))) := by
    simp only [formatErrorContext, hitems, intercalate_eq_joinWith]
  refine ⟨hctx, ?_, ?_, ?_, ?_⟩
  · rw [formatError_split, hctx]
    rfl
  · intro hnil
    rw [hctx, hnil]
    rfl
  · intro x hx
    rw [hctx, hx]
    rfl
  · intro x y rest hx
    rw [hctx, hx]
    rfl

/-- C22 at concrete inputs: the path `[A, B]` at address 42 and the one-element path at
address 41. -/
theorem formatError_path_witness :
    formatErrorContext sampleLib sampleHeap (Value.array 42) = Except.ok "A -> B" ∧
    formatErrorContext sampleLib sampleHeap (Value.array 41) = Except.ok "B" ∧
    formatErrorContext sampleLib sampleHeap (Value.array 31) = Except.ok "" :=
  ⟨((formatError_path sampleLib sampleHeap 42 [Value.string "A", Value.string "B"] "" ""
      none rfl).1).trans (congrArg Except.ok (by decide)),
   ((formatError_path sampleLib sampleHeap 41 [Value.string "B"] "" "" none rfl).2.2.2.1
      (Value.string "B") rfl).trans (congrArg Except.ok (by decide)),
   (formatError_path sampleLib sampleHeap 31 [] "" "" none rfl).2.2.1 rfl⟩

/-- C23, as stated, fails: the mapping at address 64 is plain (not a list, not callable)
and has the single own key `hasOwnProperty`, set to 1; the call
`obj.hasOwnProperty(key)` of line 177 finds that 1 instead of the built-in method and
throws a `TypeError`, so that `formatError` renders nothing. -/
theorem formatError_mapping_context_counterexample :
    (recordHeap 64).callable = false ∧
    (recordHeap 64).props = [("hasOwnProperty", Value.number 1)] ∧
    callHasOwnProperty sampleLib recordHeap 64 "hasOwnProperty" =
      Except.error Thrown.typeError ∧
    formatErrorContext sampleLib recordHeap (Value.object 64) = Except.error Thrown.typeError ∧
    formatError sampleLib recordHeap "text" (Value.object 64) "Err" none =
      Except.error Thrown.typeError :=
  ⟨rfl, rfl, rfl, rfl, rfl⟩

/-- C23, amended. For a plain (non-list, non-callable) mapping with distinct keys on
which `hasOwnProperty` is the built-in method (neither the mapping nor its prototype chain
defines a property of that name), the context is an opening brace, the mapping's own
entries in enumeration order, each rendered as key, colon, value and joined by `, `, and a
closing brace, whatever else its prototype chain holds: inherited keys are not rendered. A
string value is JSON-quoted, any other value is rendered by `stringify`; an empty mapping
renders as the two braces. -/
theorem formatError_mapping_context (L : Lib) (h : Heap) (id : Nat)
    (hplain : (h id).callable = false) (hnodup : ((h id).props.map Prod.fst).Nodup)
    (hbuiltin : findProperty h (id + 1) id "hasOwnProperty" = none) :
    formatErrorContext L h (Value.object id) =
      Except.ok ("\x7b" ++ joinWith ", " ((h id).props.map (renderEntry L h)) ++ "\x7d") ∧
    (∀ (key str : String),
      renderEntry L h (key, Value.string str) = key ++ ":" ++ JSON_stringify str) ∧
    (∀ (key : String) (v : Value), (∀ str, v ≠ Value.string str) →
      renderEntry L h (key, v) = key ++ ":" ++ L.stringify h v) ∧
    ((h id).props = [] →
      formatErrorContext L h (Value.object id) = Except.ok "\x7b\x7d") := by
  have hctx := formatErrorContext_object L h id hplain hnodup hbuiltin
  refine ⟨hctx, fun key str => rfl, ?_, ?_⟩
  · intro key v hv
    cases v with
    | string str => exact absurd rfl (hv str)
    | undefined => rfl
    | null => rfl
    | bool b => rfl
    | number n => rfl
    | object i => rfl
    | array i => rfl
  · intro hempty
    rw [hctx, hempty]
    rfl

/-- C23 amended, at concrete inputs: the mapping at address 60; the mapping at 62, whose
prototype has the key `inherited`; the empty mapping at 63. -/
theorem formatError_mapping_context_witness :
    formatErrorContext sampleLib recordHeap (Value.object 60) =
      Except.ok "\x7ba:\x22x\x22, b:1\x7d" ∧
    (recordHeap 62).proto = some 59 ∧
    (recordHeap 59).props = [("inherited", Value.string "i")] ∧
    formatErrorContext sampleLib recordHeap (Value.object 62) = Except.ok "\x7bown:2\x7d" ∧
    formatErrorContext sampleLib recordHeap (Value.object 63) = Except.ok "\x7b\x7d" :=
  ⟨((formatError_mapping_context sampleLib recordHeap 60 rfl (by decide) rfl).1).trans
      (congrArg Except.ok (by decide)),
   rfl, rfl,
   ((formatError_mapping_context sampleLib recordHeap 62 rfl (by decide) rfl).1).trans
      (congrArg Except.ok (by decide)),
   (formatError_mapping_context sampleLib recordHeap 63 rfl (by decide) rfl).2.2.2 rfl⟩

/-- C24. The text `formatError` puts after `]: ` is the marker-stripped text with every
newline, wherever it stands, followed by two added spaces, and every other character as
it is; a text without newline is reproduced unchanged. -/
theorem formatError_reindents (L : Lib) (h : Heap) (text : String) (obj : Value)
    (name : String) (source : Option String) :
    formatError L h text obj name source =
      (formatErrorContext L h obj).map (fun context =>
        (name ++ sourcePart source ++ "[" ++ context ++ "]: ") ++ processedText text) ∧
    (processedText text).data = (stripMarker text).data.flatMap indentChar ∧
    (∀ a b : List Char, (stripMarker text).data = a ++ '\n' :: b →
      (processedText text).data =
        a.flatMap indentChar ++ '\n' :: ' ' :: ' ' :: b.flatMap indentChar) ∧
    ((∀ c ∈ text.data, c ≠ '\n') →
      processedText text = text ∧
      formatError L h text obj name source =
        (formatErrorContext L h obj).map (fun context =>
          (name ++ sourcePart source ++ "[" ++ context ++ "]: ") ++ text)) := by
  have hdata : (processedText text).data = (stripMarker text).data.flatMap indentChar := by
    unfold processedText
    rw [replaceNewLine_eq_flatMap]
  refine ⟨formatError_split L h text obj name source, hdata, ?_, ?_⟩
  · intro a b hab
    rw [hdata, hab, List.flatMap_append, List.flatMap_cons]
    rfl
  · intro hnl
    have hsame : processedText text = text := by
      unfold processedText
      rw [stripMarker_of_no_newline text hnl, replaceNewLine_of_no_newline _ hnl]
    exact ⟨hsame, by rw [formatError_split, hsame]⟩

/-- C24 at concrete inputs: both newlines of a three-line text are indented; a text
without newline is unchanged. -/
theorem formatError_reindents_witness :
    processedText "a\nb\nc" = "a\n  b\n  c" ∧
    processedText "No provider for B!" = "No provider for B!" :=
  ⟨String.ext (((formatError_reindents sampleLib sampleHeap "a\nb\nc" Value.null "" none).2.1).trans
      (by decide)),
   ((formatError_reindents sampleLib sampleHeap "No provider for B!" Value.null "" none).2.2.2
      (by decide)).1⟩

/-- C25. For a decorator object `d` whose `prototype` is an object and a flag `f`,
`attachInjectFlag(d, f)` returns `d` itself; afterwards `getInjectFlag(d)` is `f`,
`getInjectFlag(d.prototype)` is `f`, and so is `getInjectFlag` of every instance, that
is, of every object that inherits from `d.prototype` and has no annotation of its own;
attaching a second flag `g` overwrites the first at both places; and in a heap where
nothing was ever annotated `getInjectFlag` of any object or primitive is `undefined`. -/
theorem attachInjectFlag_roundtrip (h : Heap) (did pid : Nat) (f g : Value)
    (hproto : getProperty h (Value.object did) "prototype" = Except.ok (Value.object pid)) :
    ∃ hf hg : Heap,
      attachInjectFlag (Value.object did) f h = (Except.ok (Value.object did), hf) ∧
      getInjectFlag hf (Value.object did) = Except.ok f ∧
      getInjectFlag hf (Value.object pid) = Except.ok f ∧
      (∀ i : Nat, i ≠ did → pid < i → (h i).proto = some pid →
        getProp (h i).props DI_DECORATOR_FLAG = none →
        getInjectFlag hf (Value.object i) = Except.ok f) ∧
      attachInjectFlag (Value.object did) g hf = (Except.ok (Value.object did), hg) ∧
      getInjectFlag hg (Value.object did) = Except.ok g ∧
      getInjectFlag hg (Value.object pid) = Except.ok g ∧
      ((∀ j, getProp (h j).props DI_DECORATOR_FLAG = none) →
        ∀ v : Value, v ≠ Value.undefined → v ≠ Value.null →
          getInjectFlag h v = Except.ok Value.undefined) := by
  have hr := reads_after_attach h did pid f hproto
  have hr2 := reads_after_attach _ did pid g hr.2.2.1
  refine ⟨_, _, attachInjectFlag_eval h did pid f hproto, hr.1, hr.2.1, hr.2.2.2,
    attachInjectFlag_eval _ did pid g hr.2.2.1, hr2.1, hr2.2.1, ?_⟩
  intro habsent v hu hn
  cases v with
  | undefined => exact absurd rfl hu
  | null => exact absurd rfl hn
  | bool b => rfl
  | number n => rfl
  | string str => rfl
  | object j => simp only [getInjectFlag, getProperty, lookupChain_absent h _ habsent]
  | array j => simp only [getInjectFlag, getProperty, lookupChain_absent h _ habsent]

/-- C25 at a concrete input: the decorator function at address 80, whose prototype is
the object at 79 and whose instance is the object at 81, none of them annotated at first;
after `Optional` (8) is attached the instance reads 8, and after `Host` (1) is attached on
top, the decorator reads 1. -/
theorem attachInjectFlag_roundtrip_witness :
    getInjectFlag recordHeap (Value.object 81) = Except.ok Value.undefined ∧
    (attachInjectFlag (Value.object 80) (Value.number 8) recordHeap).1 =
      Except.ok (Value.object 80) ∧
    getInjectFlag (attachInjectFlag (Value.object 80) (Value.number 8) recordHeap).2
      (Value.object 81) = Except.ok (Value.number 8) ∧
    getInjectFlag
      (attachInjectFlag (Value.object 80) (Value.number 1)
        (attachInjectFlag (Value.object 80) (Value.number 8) recordHeap).2).2
      (Value.object 80) = Except.ok (Value.number 1) := by
  obtain ⟨hf, hg, hrun, _, _, hinst, hrun2, hd2, _, _⟩ :=
    attachInjectFlag_roundtrip recordHeap 80 79 (Value.number 8) (Value.number 1) rfl
  refine ⟨rfl, ?_, ?_, ?_⟩
  · rw [hrun]
  · rw [hrun]
    exact hinst 81 (by decide) (by decide) rfl rfl
  · rw [hrun, hrun2]
    exact hd2

/-- C26. For list-like `a` and `b`, `devModeEqual(a, b)` is the element-wise comparison
of their items in iteration order with `devModeEqual` itself as the comparator: it holds
exactly when the iterations have the same length and `devModeEqual` holds on every pair of
items, nested lists included; `devModeEqual([1,2,3], [1,2,3])` is true. -/
theorem devModeEqual_list_like (a b : CmpValue) (ha : isListLikeIterable a = true)
    (hb : isListLikeIterable b = true) :
    devModeEqual a b = areIterablesEqual devModeEqual (itemsOf a) (itemsOf b) ∧
    (devModeEqual a b = true ↔
      List.Forall₂ (fun x y => devModeEqual x y = true) (itemsOf a) (itemsOf b)) ∧
    (∀ i j : Nat,
      devModeEqual (CmpValue.list i [CmpValue.number 1, CmpValue.number 2, CmpValue.number 3])
        (CmpValue.list j [CmpValue.number 1, CmpValue.number 2, CmpValue.number 3]) = true) := by
  have key : devModeEqual a b = areIterablesEqual devModeEqual (itemsOf a) (itemsOf b) := by
    cases a <;> cases b <;> first
      | exact devModeEqual_lists _ _ _ _
      | exact Bool.noConfusion ha
      | exact Bool.noConfusion hb
  refine ⟨key, ?_, ?_⟩
  · rw [key]
    exact areIterablesEqual_iff devModeEqual _ _
  · intro i j
    rw [devModeEqual_lists]
    decide

/-- C26 at a concrete input: nested lists, equal item by item, and lists of different
length. -/
theorem devModeEqual_list_like_witness :
    devModeEqual
        (CmpValue.list 1 [CmpValue.list 2 [CmpValue.nan], CmpValue.string "a"])
        (CmpValue.list 3 [CmpValue.list 4 [CmpValue.nan], CmpValue.string "a"]) = true ∧
    devModeEqual (CmpValue.list 1 [CmpValue.number 1])
        (CmpValue.list 2 [CmpValue.number 1, CmpValue.number 2]) = false :=
  ⟨((devModeEqual_list_like
      (CmpValue.list 1 [CmpValue.list 2 [CmpValue.nan], CmpValue.string "a"])
      (CmpValue.list 3 [CmpValue.list 4 [CmpValue.nan], CmpValue.string "a"]) rfl rfl).1).trans
      (by decide),
   ((devModeEqual_list_like (CmpValue.list 1 [CmpValue.number 1])
      (CmpValue.list 2 [CmpValue.number 1, CmpValue.number 2]) rfl rfl).1).trans (by decide)⟩

/-- C27. For `a` and `b` that are both truthy, of type object or function, and not
list-like, `devModeEqual(a, b)` is true whatever their identity (their contents are never
read): two different objects, an object and a function, two functions. -/
theorem devModeEqual_objects (a b : CmpValue)
    (ha : isListLikeIterable a = false) (hao : isObjectLike a = true)
    (hb : isListLikeIterable b = false) (hbo : isObjectLike b = true) :
    devModeEqual a b = true ∧
    (∀ i j : Nat, devModeEqual (CmpValue.object i) (CmpValue.object j) = true ∧
      devModeEqual (CmpValue.object i) (CmpValue.function j) = true ∧
      devModeEqual (CmpValue.function i) (CmpValue.object j) = true ∧
      devModeEqual (CmpValue.function i) (CmpValue.function j) = true) := by
  constructor
  · rw [devModeEqual_else a b (fun hc => by rw [ha] at hc; exact absurd hc.1 (by decide))]
    simp only [ha, hao, hb, hbo, Bool.not_false, Bool.and_self, if_true]
  · intro i j
    exact ⟨rfl, rfl, rfl, rfl⟩

/-- C27 at a concrete input: two distinct objects. -/
theorem devModeEqual_objects_witness :
    devModeEqual (CmpValue.object 1) (CmpValue.object 2) = true :=
  (devModeEqual_objects (CmpValue.object 1) (CmpValue.object 2) rfl rfl rfl rfl).1

/-- C28. When `a` and `b` are neither both list-like nor both non-list objects or
functions, `devModeEqual(a, b)` is `Object.is(a, b)`: true on `NaN` and `NaN`, false on 1
and the string `1`, and false whenever exactly one of the two is list-like. -/
theorem devModeEqual_same_value (a b : CmpValue)
    (hlists : ¬ (isListLikeIterable a = true ∧ isListLikeIterable b = true))
    (hobjects : ¬ (isListLikeIterable a = false ∧ isObjectLike a = true ∧
      isListLikeIterable b = false ∧ isObjectLike b = true)) :
    devModeEqual a b = objectIs a b ∧
    devModeEqual CmpValue.nan CmpValue.nan = true ∧
    devModeEqual (CmpValue.number 1) (CmpValue.string "1") = false ∧
    (∀ (i : Nat) (xs : List CmpValue) (c : CmpValue), isListLikeIterable c = false →
      devModeEqual (CmpValue.list i xs) c = false ∧
      devModeEqual c (CmpValue.list i xs) = false) := by
  refine ⟨?_, rfl, rfl, ?_⟩
  · rw [devModeEqual_else a b hlists]
    have hcond : (!isListLikeIterable a && isObjectLike a && !isListLikeIterable b &&
        isObjectLike b) = false := by
      cases h1 : isListLikeIterable a <;> cases h2 : isObjectLike a <;>
        cases h3 : isListLikeIterable b <;> cases h4 : isObjectLike b <;>
        first
          | rfl
          | exact absurd ⟨h1, h2, h3, h4⟩ hobjects
    rw [hcond]
    rfl
  · intro i xs c hc
    have h1 : ¬ (isListLikeIterable (CmpValue.list i xs) = true ∧ isListLikeIterable c = true) :=
      fun hboth => by rw [hc] at hboth; exact Bool.noConfusion hboth.2
    have h2 : ¬ (isListLikeIterable c = true ∧ isListLikeIterable (CmpValue.list i xs) = true) :=
      fun hboth => by rw [hc] at hboth; exact Bool.noConfusion hboth.1
    rw [devModeEqual_else _ _ h1, devModeEqual_else _ _ h2]
    cases c <;> first
      | exact Bool.noConfusion hc
      | exact ⟨rfl, rfl⟩
      | (constructor <;>
          simp [isListLikeIterable, isObjectLike, objectIs, CmpValue.truthy, CmpValue.typeof])

/-- C28 at concrete inputs: zero and negative zero are not the same value; `null` is the
same value as `null`; a list is not the same value as an object. -/
theorem devModeEqual_same_value_witness :
    devModeEqual (CmpValue.number 0) CmpValue.negZero = false ∧
    devModeEqual CmpValue.null CmpValue.null = true ∧
    devModeEqual (CmpValue.list 1 []) (CmpValue.object 2) = false :=
  ⟨((devModeEqual_same_value (CmpValue.number 0) CmpValue.negZero (by decide)
      (by decide)).1).trans rfl,
   ((devModeEqual_same_value CmpValue.null CmpValue.null (by decide) (by decide)).1).trans rfl,
   ((devModeEqual_same_value (CmpValue.list 1 []) (CmpValue.object 2) (by decide)
      (by decide)).1).trans rfl⟩

/-- C29. When the ancestor metadata of a definition is component-kind, after
`ɵɵCopyDefinitionFeature(definition)` every field of the common set (`providersResolver`)
and every field of the component-only set (`template`, `decls`, `consts`, `vars`, `onPush`,
`ngContentSelectors`, `styles`, `encapsulation`, `schemas`) of the definition reads the
value the ancestor metadata has for that field (a value the call does not change). The
ancestor metadata is what the slot `ɵcmp` of `getSuperType(definition.type)` holds when the
definition is component-kind, and what the slot `ɵdir` holds otherwise. -/
theorem CopyDefinitionFeature_component_ancestor (D : DefLib) (h : Heap) (did : Nat)
    (type superDef : Value)
    (hD : ∀ (h1 h2 : Heap) (v : Value), (∀ k, getProperty h1 v k = getProperty h2 v k) →
      D.isComponentDef h1 v = D.isComponentDef h2 v)
    (htype : getProperty h (Value.object did) "type" = Except.ok type)
    (hslot : getProperty h (D.getSuperType h type)
      (if D.isComponentDef h (Value.object did) then "ɵcmp" else "ɵdir") = Except.ok superDef)
    (hu : superDef ≠ Value.undefined) (hn : superDef ≠ Value.null)
    (hsuper : D.isComponentDef h superDef = true) :
    COPY_DIRECTIVE_FIELDS ++ COPY_COMPONENT_FIELDS =
      ["providersResolver", "template", "decls", "consts", "vars", "onPush",
        "ngContentSelectors", "styles", "encapsulation", "schemas"] ∧
    ∃ hf : Heap,
      CopyDefinitionFeature D (Value.object did) h = (Except.ok Value.undefined, hf) ∧
      ∀ f, f ∈ COPY_DIRECTIVE_FIELDS ++ COPY_COMPONENT_FIELDS →
        getProperty hf (Value.object did) f = getProperty h superDef f ∧
        getProperty hf superDef f = getProperty h superDef f := by
  obtain ⟨hf, hrun, hcommon, hcomponent, _, _, hsame, _⟩ :=
    CopyDefinitionFeature_run D h did type superDef hD htype hslot hu hn
  refine ⟨rfl, hf, hrun, ?_⟩
  intro f hmem
  rcases List.mem_append.mp hmem with hd | hc
  · exact ⟨hcommon f hd, hsame f⟩
  · exact ⟨hcomponent hsuper f hc, hsame f⟩

/-- C29 on the component-kind definition at 93, whose class extends the class at 91 with
the component definition at 90. -/
theorem CopyDefinitionFeature_component_ancestor_witness :
    COPY_DIRECTIVE_FIELDS ++ COPY_COMPONENT_FIELDS =
      ["providersResolver", "template", "decls", "consts", "vars", "onPush",
        "ngContentSelectors", "styles", "encapsulation", "schemas"] ∧
    ∃ hf : Heap,
      CopyDefinitionFeature sampleDefLib (Value.object 93) recordHeap =
        (Except.ok Value.undefined, hf) ∧
      ∀ f, f ∈ COPY_DIRECTIVE_FIELDS ++ COPY_COMPONENT_FIELDS →
        getProperty hf (Value.object 93) f = getProperty recordHeap (Value.object 90) f ∧
        getProperty hf (Value.object 90) f = getProperty recordHeap (Value.object 90) f :=
  CopyDefinitionFeature_component_ancestor sampleDefLib recordHeap 93 (Value.object 92)
    (Value.object 90) sampleDefLib_reads_only rfl rfl (fun hc => Value.noConfusion hc)
    (fun hc => Value.noConfusion hc) rfl

/-- C30, as stated, fails: the definition at 98 is component-kind and its class extends the
class at 95, which is not component-kind (its only metadata is the directive definition at
94); the slot `ɵcmp` of that class is `undefined`, and the call throws a `TypeError` at
the first read `superDef[field]` instead of completing. -/
theorem CopyDefinitionFeature_other_ancestor_counterexample :
    sampleDefLib.isComponentDef recordHeap (Value.object 98) = true ∧
    getProperty recordHeap (Value.object 98) "type" = Except.ok (Value.object 96) ∧
    sampleDefLib.getSuperType recordHeap (Value.object 96) = Value.object 95 ∧
    getProperty recordHeap (Value.object 95) "ɵdir" = Except.ok (Value.object 94) ∧
    sampleDefLib.isComponentDef recordHeap (Value.object 94) = false ∧
    getProperty recordHeap (Value.object 95) "ɵcmp" = Except.ok Value.undefined ∧
    CopyDefinitionFeature sampleDefLib (Value.object 98) recordHeap =
      (Except.error Thrown.typeError, recordHeap) :=
  ⟨rfl, rfl, rfl, rfl, rfl, rfl, rfl⟩

/-- C30, amended. For every definition, component-kind or directive-kind, whose ancestor
metadata slot (`ɵcmp` for a component-kind definition, `ɵdir` otherwise) holds a
definition that is not component-kind, `ɵɵCopyDefinitionFeature` completes, the common
field (`providersResolver`) of the definition then reads the ancestor metadata's value,
and every component-only field of the definition reads as it did before the call. -/
theorem CopyDefinitionFeature_other_ancestor (D : DefLib) (h : Heap) (did : Nat)
    (type superDef : Value)
    (hD : ∀ (h1 h2 : Heap) (v : Value), (∀ k, getProperty h1 v k = getProperty h2 v k) →
      D.isComponentDef h1 v = D.isComponentDef h2 v)
    (htype : getProperty h (Value.object did) "type" = Except.ok type)
    (hslot : getProperty h (D.getSuperType h type)
      (if D.isComponentDef h (Value.object did) then "ɵcmp" else "ɵdir") = Except.ok superDef)
    (hu : superDef ≠ Value.undefined) (hn : superDef ≠ Value.null)
    (hsuper : D.isComponentDef h superDef = false) :
    ∃ hf : Heap,
      CopyDefinitionFeature D (Value.object did) h = (Except.ok Value.undefined, hf) ∧
      (∀ f, f ∈ COPY_DIRECTIVE_FIELDS →
        getProperty hf (Value.object did) f = getProperty h superDef f) ∧
      (∀ f, f ∈ COPY_COMPONENT_FIELDS →
        getProperty hf (Value.object did) f = getProperty h (Value.object did) f) := by
  obtain ⟨hf, hrun, hcommon, _, hframe, _, _, _⟩ :=
    CopyDefinitionFeature_run D h did type superDef hD htype hslot hu hn
  refine ⟨hf, hrun, hcommon, ?_⟩
  intro f hmem
  have hnot : f ∉ COPY_DIRECTIVE_FIELDS := by
    intro hc
    have hfeq : f = "providersResolver" := List.mem_singleton.mp hc
    rw [hfeq] at hmem
    exact absurd hmem (by decide)
  exact hframe hsuper f hnot (Value.object did)

/-- C30, amended, on the directive-kind definition at 97, whose class extends the class
at 95 with the directive definition at 94: `providersResolver` is copied, and `decls`
stays 7. -/
theorem CopyDefinitionFeature_other_ancestor_witness :
    ∃ hf : Heap,
      CopyDefinitionFeature sampleDefLib (Value.object 97) recordHeap =
        (Except.ok Value.undefined, hf) ∧
      (∀ f, f ∈ COPY_DIRECTIVE_FIELDS →
        getProperty hf (Value.object 97) f = getProperty recordHeap (Value.object 94) f) ∧
      (∀ f, f ∈ COPY_COMPONENT_FIELDS →
        getProperty hf (Value.object 97) f = getProperty recordHeap (Value.object 97) f) :=
  CopyDefinitionFeature_other_ancestor sampleDefLib recordHeap 97 (Value.object 96)
    (Value.object 94) sampleDefLib_reads_only rfl rfl (fun hc => Value.noConfusion hc)
    (fun hc => Value.noConfusion hc) rfl

/-! ## Helper lemmas for the fourth group of claims -/

/-- The scan of entries that are flag decorators or plain tokens does not fail: it ORs
the bits of all of them into `flags` and comes out with some `type`, which is the one it
started with when all the entries are flag decorators. -/
theorem injectArgsScan_unflagged (h : Heap) :
    ∀ (ms : List Value) (type : Value) (flags : Int),
      (∀ m ∈ ms, IsFlagDecorator h m ∨ IsPlainToken h m) →
      ∃ type2 : Value,
        (∀ rest : List Value, injectArgsScan h (ms ++ rest) type flags =
          injectArgsScan h rest type2 (orFlagBits h flags ms)) ∧
        ((∀ m ∈ ms, IsFlagDecorator h m) → type2 = type) := by
  intro ms
  induction ms with
  | nil =>
    intro type flags _
    exact ⟨type, fun _ => rfl, fun _ => rfl⟩
  | cons m ms ih =>
    intro type flags hms
    have hrest : ∀ x ∈ ms, IsFlagDecorator h x ∨ IsPlainToken h x :=
      fun x hx => hms x (List.mem_cons_of_mem m hx)
    rcases hms m (List.mem_cons_self m ms) with hflag | hplain
    · obtain ⟨t2, hscan, hsame⟩ := ih type (bitOr flags (flagBits h m)) hrest
      refine ⟨t2, fun rest => ?_, fun hall => ?_⟩
      · rw [List.cons_append, injectArgsScan_flag h m _ type flags hflag, hscan rest,
          ← orFlagStep_flag h flags m hflag]
        rfl
      · exact hsame (fun x hx => hall x (List.mem_cons_of_mem m hx))
    · obtain ⟨t2, hscan, _⟩ := ih m flags hrest
      refine ⟨t2, fun rest => ?_, fun hall => ?_⟩
      · have hbits : orFlagBits h flags (m :: ms) = orFlagBits h flags ms := by
          simp only [orFlagBits, List.foldl_cons, orFlagStep_plain h flags m hplain]
        rw [List.cons_append, injectArgsScan_plain h m _ type flags hplain, hscan rest, hbits]
      · obtain ⟨f, _, hf⟩ := hall m (List.mem_cons_self m ms)
        obtain ⟨v, hv, hnum⟩ := hplain
        rw [hf] at hv
        exact absurd (Except.ok.inj hv).symm (hnum _)

/-- The scan of a run of flag decorators, to the end of the list. -/
theorem injectArgsScan_flags_end (h : Heap) (ms : List Value) (type : Value) (flags : Int)
    (hms : ∀ m ∈ ms, IsFlagDecorator h m) :
    injectArgsScan h ms type flags = Except.ok (type, orFlagBits h flags ms) := by
  have h2 := injectArgsScan_flags h ms [] type flags hms
  rw [List.append_nil] at h2
  rw [h2, injectArgsScan]

/-- A copy loop over a non-empty list of fields fails when the ancestor definition is
`undefined` or `null`. -/
theorem copyFields_nullish (defAny superDef : Value) (f : String) (fields : List String)
    (h : Heap) (hnull : superDef = Value.undefined ∨ superDef = Value.null) :
    copyFields defAny superDef (f :: fields) h = (Except.error Thrown.typeError, h) := by
  rcases hnull with hu | hn
  · rw [hu]
    rfl
  · rw [hn]
    rfl

/-- What a completed call of `ɵɵCopyDefinitionFeature` on a definition object tells: the
ancestor metadata slot was read, and held a value that is neither `undefined` nor `null`. -/
theorem CopyDefinitionFeature_completed (D : DefLib) (h hf : Heap) (did : Nat) (out : Value)
    (hrun : CopyDefinitionFeature D (Value.object did) h = (Except.ok out, hf)) :
    ∃ type superDef : Value,
      getProperty h (Value.object did) "type" = Except.ok type ∧
      getProperty h (D.getSuperType h type)
        (if D.isComponentDef h (Value.object did) then "ɵcmp" else "ɵdir") =
          Except.ok superDef ∧
      superDef ≠ Value.undefined ∧ superDef ≠ Value.null := by
  have htype : getProperty h (Value.object did) "type" =
      Except.ok (lookupChain h (did + 1) did "type") := rfl
  unfold CopyDefinitionFeature at hrun
  rw [htype] at hrun
  simp only at hrun
  rw [← apply_ite (getProperty h (D.getSuperType h (lookupChain h (did + 1) did "type")))]
    at hrun
  cases hs : getProperty h (D.getSuperType h (lookupChain h (did + 1) did "type"))
      (if D.isComponentDef h (Value.object did) = true then "ɵcmp" else "ɵdir") with
  | error t =>
    rw [hs] at hrun
    exact Except.noConfusion (Prod.mk.inj hrun).1
  | ok superDef =>
    rw [hs] at hrun
    simp only at hrun
    refine ⟨_, superDef, htype, hs, ?_, ?_⟩
    · intro hu
      simp only [COPY_DIRECTIVE_FIELDS, copyFields_nullish _ superDef _ _ h (Or.inl hu)] at hrun
      exact Except.noConfusion (Prod.mk.inj hrun).1
    · intro hn
      simp only [COPY_DIRECTIVE_FIELDS, copyFields_nullish _ superDef _ _ h (Or.inr hn)] at hrun
      exact Except.noConfusion (Prod.mk.inj hrun).1

/-- `Object.is` does not depend on the order of its arguments. -/
theorem objectIs_comm (a b : CmpValue) : objectIs a b = objectIs b a := by
  cases a <;> cases b <;> simp only [objectIs, eq_comm]

/-- The `else` branch of `devModeEqual` does not depend on the order of the arguments. -/
theorem devModeEqual_else_comm (a b : CmpValue) :
    (if !isListLikeIterable a && isObjectLike a && !isListLikeIterable b && isObjectLike b
      then true else objectIs a b) =
    (if !isListLikeIterable b && isObjectLike b && !isListLikeIterable a && isObjectLike a
      then true else objectIs b a) := by
  rw [objectIs_comm a b]
  cases isListLikeIterable a <;> cases isObjectLike a <;> cases isListLikeIterable b <;>
    cases isObjectLike b <;> rfl

mutual

/-- Swapping the arguments of `devModeEqual` does not change the result. -/
theorem devModeEqual_swap : ∀ a b : CmpValue, devModeEqual a b = devModeEqual b a
  | CmpValue.list i xs, CmpValue.list j ys => by
    rw [devModeEqual_lists, devModeEqual_lists, ← devModeEqualItems_eq, ← devModeEqualItems_eq]
    exact devModeEqualItems_swap xs ys
  | CmpValue.list i xs, CmpValue.undefined => rfl
  | CmpValue.list i xs, CmpValue.null => rfl
  | CmpValue.list i xs, CmpValue.bool _ => by
    rw [devModeEqual_else _ _ (fun hc => Bool.noConfusion hc.2),
      devModeEqual_else _ _ (fun hc => Bool.noConfusion hc.1)]
    exact devModeEqual_else_comm _ _
  | CmpValue.list i xs, CmpValue.number _ => by
    rw [devModeEqual_else _ _ (fun hc => Bool.noConfusion hc.2),
      devModeEqual_else _ _ (fun hc => Bool.noConfusion hc.1)]
    exact devModeEqual_else_comm _ _
  | CmpValue.list i xs, CmpValue.negZero => rfl
  | CmpValue.list i xs, CmpValue.nan => rfl
  | CmpValue.list i xs, CmpValue.string _ => by
    rw [devModeEqual_else _ _ (fun hc => Bool.noConfusion hc.2),
      devModeEqual_else _ _ (fun hc => Bool.noConfusion hc.1)]
    exact devModeEqual_else_comm _ _
  | CmpValue.list i xs, CmpValue.object _ => rfl
  | CmpValue.list i xs, CmpValue.function _ => rfl
  | CmpValue.undefined, b => by
    rw [devModeEqual_else _ _ (fun hc => Bool.noConfusion hc.1),
      devModeEqual_else _ _ (fun hc => Bool.noConfusion hc.2)]
    exact devModeEqual_else_comm _ _
  | CmpValue.null, b => by
    rw [devModeEqual_else _ _ (fun hc => Bool.noConfusion hc.1),
      devModeEqual_else _ _ (fun hc => Bool.noConfusion hc.2)]
    exact devModeEqual_else_comm _ _
  | CmpValue.bool _, b => by
    rw [devModeEqual_else _ _ (fun hc => Bool.noConfusion hc.1),
      devModeEqual_else _ _ (fun hc => Bool.noConfusion hc.2)]
    exact devModeEqual_else_comm _ _
  | CmpValue.number _, b => by
    rw [devModeEqual_else _ _ (fun hc => Bool.noConfusion hc.1),
      devModeEqual_else _ _ (fun hc => Bool.noConfusion hc.2)]
    exact devModeEqual_else_comm _ _
  | CmpValue.negZero, b => by
    rw [devModeEqual_else _ _ (fun hc => Bool.noConfusion hc.1),
      devModeEqual_else _ _ (fun hc => Bool.noConfusion hc.2)]
    exact devModeEqual_else_comm _ _
  | CmpValue.nan, b => by
    rw [devModeEqual_else _ _ (fun hc => Bool.noConfusion hc.1),
      devModeEqual_else _ _ (fun hc => Bool.noConfusion hc.2)]
    exact devModeEqual_else_comm _ _
  | CmpValue.string _, b => by
    rw [devModeEqual_else _ _ (fun hc => Bool.noConfusion hc.1),
      devModeEqual_else _ _ (fun hc => Bool.noConfusion hc.2)]
    exact devModeEqual_else_comm _ _
  | CmpValue.object _, b => by
    rw [devModeEqual_else _ _ (fun hc => Bool.noConfusion hc.1),
      devModeEqual_else _ _ (fun hc => Bool.noConfusion hc.2)]
    exact devModeEqual_else_comm _ _
  | CmpValue.function _, b => by
    rw [devModeEqual_else _ _ (fun hc => Bool.noConfusion hc.1),
      devModeEqual_else _ _ (fun hc => Bool.noConfusion hc.2)]
    exact devModeEqual_else_comm _ _

/-- Swapping the two lists of items does not change the result of their comparison. -/
theorem devModeEqualItems_swap :
    ∀ xs ys : List CmpValue, devModeEqualItems xs ys = devModeEqualItems ys xs
  | [], [] => rfl
  | [], _ :: _ => by simp only [devModeEqualItems]
  | _ :: _, [] => by simp only [devModeEqualItems]
  | x :: xs, y :: ys => by
    simp only [devModeEqualItems]
    rw [devModeEqual_swap x y, devModeEqualItems_swap xs ys]

end

/-! ## Claims, fourth group -/

/-- C31. For a non-empty decorator list without explicit-inject decorator (every entry is
a flag decorator or a plain token), `injectArgs` makes one call of `inject` for the entry:
its token is the last entry of the list that carries no numeric annotation, and its flags
are the OR (the 32-bit `|` of `flags |= flag`) of the flag annotations of the list on top
of `Default`; if every entry is a flag decorator, the scan does not fail, and the call is
made with token `undefined` and the OR of the flags. -/
theorem injectArgs_last_unflagged {τ : Type} (env : Env (Store τ)) (fuel : Nat)
    (entry : Value) (id : Nat) (rest args : List Value) (w : World (Store τ))
    (hentry : env.resolveForwardRef entry = Value.array id) :
    (∀ (before after : List Value) (m : Value),
      (w.ext.heap id).items = before ++ m :: after →
      (∀ x ∈ before, IsFlagDecorator w.ext.heap x ∨ IsPlainToken w.ext.heap x) →
      IsPlainToken w.ext.heap m →
      (∀ x ∈ after, IsFlagDecorator w.ext.heap x) →
      injectArgsLoop env fuel (entry :: rest) args w =
        pushThen
          (inject env fuel m
            (orFlagBits w.ext.heap env.InjectFlags.Default (w.ext.heap id).items) w)
          (fun v w1 => injectArgsLoop env fuel rest (args ++ [v]) w1)) ∧
    ((w.ext.heap id).items ≠ [] →
      (∀ x ∈ (w.ext.heap id).items, IsFlagDecorator w.ext.heap x) →
      injectArgsLoop env fuel (entry :: rest) args w =
        pushThen
          (inject env fuel Value.undefined
            (orFlagBits w.ext.heap env.InjectFlags.Default (w.ext.heap id).items) w)
          (fun v w1 => injectArgsLoop env fuel rest (args ++ [v]) w1)) := by
  constructor
  · intro before after m hlist hbefore hplain hafter
    have hne : (w.ext.heap id).items ≠ [] := by
      rw [hlist]
      exact fun hnil => List.noConfusion (List.append_eq_nil.mp hnil).2
    obtain ⟨t1, hpre, _⟩ := injectArgsScan_unflagged w.ext.heap before Value.undefined
      env.InjectFlags.Default hbefore
    have hbits : orFlagBits w.ext.heap env.InjectFlags.Default (before ++ m :: after) =
        orFlagBits w.ext.heap (orFlagBits w.ext.heap env.InjectFlags.Default before) after := by
      simp only [orFlagBits, List.foldl_append, List.foldl_cons,
        orFlagStep_plain w.ext.heap _ m hplain]
    rw [injectArgsLoop_cons, injectArgsEntry_of_scan env fuel entry id w m _ hentry hne]
    rw [hlist, hpre, injectArgsScan_plain w.ext.heap m after t1 _ hplain,
      injectArgsScan_flags_end w.ext.heap after m _ hafter, hbits]
  · intro hne hall
    rw [injectArgsLoop_cons, injectArgsEntry_of_scan env fuel entry id w Value.undefined _
      hentry hne]
    exact injectArgsScan_flags_end w.ext.heap _ Value.undefined _ hall

/-- C31 at concrete inputs: for `[Host, Y, Optional]` (address 34) the call is
`inject(Y, 9)`; for `[Host, Optional]` (address 35) it is `inject(undefined, 9)`, and
`injectArgs` returns what that call returns; for `[Host, 23]` (address 38), where the
annotation of 23 has bit 31 set, it is `inject(undefined, -2147483647)`; for `[24]`
(address 39), with the annotation -2, it is `inject(undefined, -2)`. -/
theorem injectArgs_last_unflagged_witness :
    injectArgsLoop storeEnv 1 [Value.array 34] [] (argsWorld (Value.object 9)) =
      pushThen (inject storeEnv 1 (Value.object 2) 9 (argsWorld (Value.object 9)))
        (fun v w1 => injectArgsLoop storeEnv 1 [] ([] ++ [v]) w1) ∧
    injectArgsLoop storeEnv 1 [Value.array 35] [] (argsWorld (Value.object 9)) =
      pushThen (inject storeEnv 1 Value.undefined 9 (argsWorld (Value.object 9)))
        (fun v w1 => injectArgsLoop storeEnv 1 [] ([] ++ [v]) w1) ∧
    injectArgs storeEnv 1 [Value.array 35] (argsWorld (Value.object 9)) =
      some (Except.ok [Value.null], argsWorld (Value.object 9)) ∧
    injectArgsLoop storeEnv 1 [Value.array 38] [] (argsWorld (Value.object 9)) =
      pushThen (inject storeEnv 1 Value.undefined (-2147483647) (argsWorld (Value.object 9)))
        (fun v w1 => injectArgsLoop storeEnv 1 [] ([] ++ [v]) w1) ∧
    injectArgsLoop storeEnv 1 [Value.array 39] [] (argsWorld (Value.object 9)) =
      pushThen (inject storeEnv 1 Value.undefined (-2) (argsWorld (Value.object 9)))
        (fun v w1 => injectArgsLoop storeEnv 1 [] ([] ++ [v]) w1) :=
  ⟨(injectArgs_last_unflagged storeEnv 1 (Value.array 34) 34 [] []
      (argsWorld (Value.object 9)) rfl).1 [Value.object 21] [Value.object 22] (Value.object 2)
      rfl
      (fun x hx => by
        rw [List.mem_singleton] at hx
        rw [hx]
        exact Or.inl ⟨1, by decide, rfl⟩)
      ⟨Value.undefined, rfl, fun n hc => Value.noConfusion hc⟩
      (fun x hx => by
        rw [List.mem_singleton] at hx
        rw [hx]
        exact ⟨8, by decide, rfl⟩),
   (injectArgs_last_unflagged storeEnv 1 (Value.array 35) 35 [] []
      (argsWorld (Value.object 9)) rfl).2 (fun hc => List.noConfusion hc)
      (fun x hx => by
        have hx2 : x = Value.object 21 ∨ x = Value.object 22 := by
          simpa [argsWorld, argsHeap] using hx
        rcases hx2 with hx2 | hx2
        · rw [hx2]
          exact ⟨1, by decide, rfl⟩
        · rw [hx2]
          exact ⟨8, by decide, rfl⟩),
   rfl,
   (injectArgs_last_unflagged storeEnv 1 (Value.array 38) 38 [] []
      (argsWorld (Value.object 9)) rfl).2 (fun hc => List.noConfusion hc)
      (fun x hx => by
        have hx2 : x = Value.object 21 ∨ x = Value.object 23 := by
          simpa [argsWorld, argsHeap] using hx
        rcases hx2 with hx2 | hx2
        · rw [hx2]
          exact ⟨1, by decide, rfl⟩
        · rw [hx2]
          exact ⟨2147483648, by decide, rfl⟩),
   (injectArgs_last_unflagged storeEnv 1 (Value.array 39) 39 [] []
      (argsWorld (Value.object 9)) rfl).2 (fun hc => List.noConfusion hc)
      (fun x hx => by
        have hx2 : x = Value.object 24 := by
          simpa [argsWorld, argsHeap] using hx
        rw [hx2]
        exact ⟨-2, by decide, rfl⟩)⟩

/-- C32. `formatError` strips the marker only as a two-character prefix: a text that
begins with a newline immediately followed by the glyph loses exactly these two characters
before the newlines are re-indented; any other text is formatted as it is: the empty text,
a text with the glyph at position 0, with the glyph further on, or with a leading newline
not followed by the glyph. A second marker prefix behind the first one stays. -/
theorem formatError_strips_marker (L : Lib) (h : Heap) (text : String) (obj : Value)
    (name : String) (source : Option String) :
    (∀ rest : List Char, text.data = '\n' :: NO_NEW_LINE :: rest →
      stripMarker text = String.mk rest ∧
      formatError L h text obj name source =
        (formatErrorContext L h obj).map (fun context =>
          (name ++ sourcePart source ++ "[" ++ context ++ "]: ") ++
            String.mk (replaceNewLine rest))) ∧
    ((∀ rest : List Char, text.data ≠ '\n' :: NO_NEW_LINE :: rest) →
      stripMarker text = text ∧
      formatError L h text obj name source =
        (formatErrorContext L h obj).map (fun context =>
          (name ++ sourcePart source ++ "[" ++ context ++ "]: ") ++
            String.mk (replaceNewLine text.data))) ∧
    stripMarker "" = "" ∧
    stripMarker "ɵabc" = "ɵabc" ∧
    stripMarker "a\nɵb" = "a\nɵb" ∧
    stripMarker "\nabc" = "\nabc" ∧
    stripMarker "\nɵ\nɵx" = "\nɵx" := by
  refine ⟨?_, ?_, by decide, by decide, by decide, by decide, by decide⟩
  · intro rest hdata
    have hstrip : stripMarker text = String.mk rest := by
      unfold stripMarker
      rw [hdata]
      exact if_pos ⟨rfl, rfl⟩
    refine ⟨hstrip, ?_⟩
    rw [formatError_split]
    unfold processedText
    rw [hstrip]
  · intro hnot
    have hstrip : stripMarker text = text := by
      unfold stripMarker
      cases hd : text.data with
      | nil => rfl
      | cons c0 tl =>
        cases tl with
        | nil => rfl
        | cons c1 rest =>
          refine if_neg (fun hcon => hnot rest ?_)
          rw [hd, hcon.1, hcon.2]
    refine ⟨hstrip, ?_⟩
    rw [formatError_split]
    unfold processedText
    rw [hstrip]

/-- C32 at concrete inputs: the marker prefix is removed from a text of two lines, and a
text that has the glyph after its first character is kept whole. -/
theorem formatError_strips_marker_witness :
    formatError sampleLib sampleHeap "\nɵNo provider\nfor B" (Value.array 42) "E" none =
      Except.ok "E[A -> B]: No provider\n  for B" ∧
    stripMarker "xɵ\n" = "xɵ\n" :=
  ⟨((formatError_strips_marker sampleLib sampleHeap "\nɵNo provider\nfor B" (Value.array 42)
      "E" none).1 "No provider\nfor B".data rfl).2.trans (congrArg Except.ok (by decide)),
   ((formatError_strips_marker sampleLib sampleHeap "xɵ\n" Value.null "" none).2.1
      (fun rest hc => by
        have hx : 'x' = '\n' := (List.cons.inj hc).1
        exact absurd hx (by decide))).1⟩

/-- C33. If the entries before position `i` are all injected successfully, leaving the
world `w1`, and the body of the loop for the entry at position `i` fails with error `e`
in world `w2`, then `injectArgs` fails with that same `e` in that same world `w2`, without
a partial result, whatever follows position `i` (nothing after it is injected). This holds
in particular when the failing step is the call of `inject` for a decorator list, whatever
flags the list accumulated, the `Optional` bit included, and when it is the call of
`inject` for a plain entry. -/
theorem injectArgs_failure_propagates {τ : Type} (env : Env (Store τ)) (fuel : Nat)
    (pre : List Value) (entry : Value) (post : List Value) (vals : List Value)
    (w w1 : World (Store τ))
    (hpre : injectArgs env fuel pre w = some (Except.ok vals, w1)) :
    (∀ (e : Thrown) (w2 : World (Store τ)),
      injectArgsEntry env fuel entry w1 = some (Except.error e, w2) →
      injectArgs env fuel (pre ++ entry :: post) w = some (Except.error e, w2) ∧
      injectArgs env fuel (pre ++ entry :: post) w = injectArgs env fuel (pre ++ [entry]) w) ∧
    (∀ (id : Nat) (type : Value) (flags : Int) (e : Thrown) (w2 : World (Store τ)),
      env.resolveForwardRef entry = Value.array id →
      (w1.ext.heap id).items ≠ [] →
      injectArgsScan w1.ext.heap (w1.ext.heap id).items Value.undefined
        env.InjectFlags.Default = Except.ok (type, flags) →
      inject env fuel type flags w1 = some (Except.error e, w2) →
      injectArgs env fuel (pre ++ entry :: post) w = some (Except.error e, w2)) ∧
    (∀ (e : Thrown) (w2 : World (Store τ)),
      (∀ id, env.resolveForwardRef entry ≠ Value.array id) →
      inject env fuel (env.resolveForwardRef entry) env.InjectFlags.Default w1 =
        some (Except.error e, w2) →
      injectArgs env fuel (pre ++ entry :: post) w = some (Except.error e, w2)) := by
  have key : ∀ (tl : List Value) (e : Thrown) (w2 : World (Store τ)),
      injectArgsEntry env fuel entry w1 = some (Except.error e, w2) →
      injectArgs env fuel (pre ++ entry :: tl) w = some (Except.error e, w2) := by
    intro tl e w2 hfail
    unfold injectArgs at hpre ⊢
    rw [injectArgsLoop_append, hpre]
    simp only
    rw [injectArgsLoop_cons, hfail]
    rfl
  refine ⟨?_, ?_, ?_⟩
  · intro e w2 hfail
    exact ⟨key post e w2 hfail, (key post e w2 hfail).trans (key [] e w2 hfail).symm⟩
  · intro id type flags e w2 hentry hne hscan hfail
    apply key post e w2
    rw [injectArgsEntry_of_scan env fuel entry id w1 type flags hentry hne hscan]
    exact hfail
  · intro e w2 hplain hfail
    apply key post e w2
    rw [injectArgsEntry_plain env fuel entry w1 hplain]
    exact hfail

/-- C33 at concrete inputs. After the plain token `object 1`, the decorator list
`[Optional, Y]` (address 36) is injected as `inject(Y, 8)`; with an injector that throws
for `Y`, `injectArgs` fails with that error although `Optional` is set, and the entry
after it is not injected. With the plain token `object 2` at position 1, `injectArgs`
fails with the injector's error. -/
theorem injectArgs_failure_propagates_witness :
    injectArgs failingEnv 1 ([Value.object 1] ++ Value.array 36 :: [Value.object 1])
        (argsWorld (Value.object 9)) =
      some (Except.error (Thrown.foreign (Value.string "ConstructionError")),
        argsWorld (Value.object 9)) ∧
    injectArgs storeEnv 1 ([Value.object 1] ++ Value.object 2 :: [Value.array 30]) storeWorld =
      some (Except.error (Thrown.foreign (Value.string "NullInjectorError")), storeWorld) :=
  ⟨(injectArgs_failure_propagates failingEnv 1 [Value.object 1] (Value.array 36)
      [Value.object 1] [Value.string "service"] (argsWorld (Value.object 9))
      (argsWorld (Value.object 9)) rfl).2.1 36 (Value.object 2) 8
      (Thrown.foreign (Value.string "ConstructionError")) (argsWorld (Value.object 9)) rfl
      (fun hc => List.noConfusion hc) rfl rfl,
   (injectArgs_failure_propagates storeEnv 1 [Value.object 1] (Value.object 2)
      [Value.array 30] [Value.string "service"] storeWorld storeWorld rfl).2.2
      (Thrown.foreign (Value.string "NullInjectorError")) storeWorld
      (fun _ hc => Value.noConfusion hc) rfl⟩

/-- C34. Let `injectChangeDetectorRef(true)` return `value`. For every `flags` (passed or
defaulted): if `value` is neither `null` nor `undefined`, `ɵɵinjectPipeChangeDetectorRef`
returns it unchanged; if it is `null` or `undefined` and the `Optional` bit is set, the
function returns it as well; and if it is `null` or `undefined`, with
`throwProviderNotFoundError('ChangeDetectorRef')` throwing `e`, the function fails with
that `e` if and only if the `Optional` bit is not set. -/
theorem injectPipeChangeDetectorRef_optional {σ : Type} (P : PipeLib σ) (flags : Option Int)
    (w w1 : World σ) (value : Value)
    (hvalue : P.injectChangeDetectorRef true w = (Except.ok value, w1)) :
    (value ≠ Value.null → value ≠ Value.undefined →
      injectPipeChangeDetectorRef P flags w = (Except.ok value, w1)) ∧
    (bitAnd (flags.getD P.InjectFlags.Default) P.InjectFlags.Optional ≠ 0 →
      injectPipeChangeDetectorRef P flags w = (Except.ok value, w1)) ∧
    (value = Value.null ∨ value = Value.undefined →
      ∀ (e : Thrown) (w2 : World σ),
        P.throwProviderNotFoundError "ChangeDetectorRef" w1 = (Except.error e, w2) →
        (injectPipeChangeDetectorRef P flags w = (Except.error e, w2) ↔
          bitAnd (flags.getD P.InjectFlags.Default) P.InjectFlags.Optional = 0)) := by
  have hflags : (match flags with
      | some f => f
      | none => P.InjectFlags.Default) = flags.getD P.InjectFlags.Default := by
    cases flags <;> rfl
  have hrun : injectPipeChangeDetectorRef P flags w =
      if (value = Value.null ∨ value = Value.undefined) ∧
          bitAnd (flags.getD P.InjectFlags.Default) P.InjectFlags.Optional = 0 then
        match P.throwProviderNotFoundError "ChangeDetectorRef" w1 with
        | (Except.error t, w2) => (Except.error t, w2)
        | (Except.ok _, w2) => (Except.ok Value.undefined, w2)
      else (Except.ok value, w1) := by
    unfold injectPipeChangeDetectorRef
    simp only [hvalue, hflags]
  refine ⟨?_, ?_, ?_⟩
  · intro hn hu
    rw [hrun]
    exact if_neg (fun hc => hc.1.elim hn hu)
  · intro hset
    rw [hrun]
    exact if_neg (fun hc => hset hc.2)
  · intro hnullish e w2 hthrow
    rw [hrun]
    constructor
    · intro hres
      by_cases hbit : bitAnd (flags.getD P.InjectFlags.Default) P.InjectFlags.Optional = 0
      · exact hbit
      · rw [if_neg (fun hc => hbit hc.2)] at hres
        exact Except.noConfusion (Prod.mk.inj hres).1
    · intro hbit
      rw [if_pos ⟨hnullish, hbit⟩, hthrow]

/-- C34 at concrete inputs: a change detector is returned with and without `Optional`;
`null` is returned with `Optional` (8) and, with `Host` only (1) or no argument at all, the
call fails with the error for `ChangeDetectorRef`. -/
theorem injectPipeChangeDetectorRef_optional_witness :
    injectPipeChangeDetectorRef samplePipeLib (some 0) ⟨Value.null, none, Value.object 7⟩ =
      (Except.ok (Value.object 7), ⟨Value.null, none, Value.object 7⟩) ∧
    injectPipeChangeDetectorRef samplePipeLib (some 9) ⟨Value.null, none, Value.null⟩ =
      (Except.ok Value.null, ⟨Value.null, none, Value.null⟩) ∧
    injectPipeChangeDetectorRef samplePipeLib (some 1) ⟨Value.null, none, Value.null⟩ =
      (Except.error (Thrown.newError "No provider for ChangeDetectorRef found"),
        ⟨Value.null, none, Value.null⟩) ∧
    injectPipeChangeDetectorRef samplePipeLib none ⟨Value.null, none, Value.undefined⟩ =
      (Except.error (Thrown.newError "No provider for ChangeDetectorRef found"),
        ⟨Value.null, none, Value.undefined⟩) :=
  ⟨(injectPipeChangeDetectorRef_optional samplePipeLib (some 0)
      ⟨Value.null, none, Value.object 7⟩ ⟨Value.null, none, Value.object 7⟩ (Value.object 7)
      rfl).1 (fun hc => Value.noConfusion hc) (fun hc => Value.noConfusion hc),
   (injectPipeChangeDetectorRef_optional samplePipeLib (some 9)
      ⟨Value.null, none, Value.null⟩ ⟨Value.null, none, Value.null⟩ Value.null rfl).2.1
      (by decide),
   ((injectPipeChangeDetectorRef_optional samplePipeLib (some 1)
      ⟨Value.null, none, Value.null⟩ ⟨Value.null, none, Value.null⟩ Value.null rfl).2.2
      (Or.inl rfl) (Thrown.newError "No provider for ChangeDetectorRef found")
      ⟨Value.null, none, Value.null⟩ rfl).mpr (by decide),
   ((injectPipeChangeDetectorRef_optional samplePipeLib none
      ⟨Value.null, none, Value.undefined⟩ ⟨Value.null, none, Value.undefined⟩ Value.undefined
      rfl).2.2 (Or.inr rfl) (Thrown.newError "No provider for ChangeDetectorRef found")
      ⟨Value.null, none, Value.undefined⟩ rfl).mpr (by decide)⟩

/-- C35. Frame of `ɵɵCopyDefinitionFeature`, for a definition object on which the call
completes, `type` being its `type` and `superDef` the ancestor metadata read from the slot:
every key outside the common set and the component-only set (`type`, `inputs`, `outputs`
for example) reads as before, on the definition and on every other value; the
component-only fields of the definition read as before when the ancestor metadata is not
component-kind; the ancestor metadata reads as before on every key; and no object other
than the definition itself is touched, so that the ancestor metadata object and the
ancestor type, being other objects, are not modified. -/
theorem CopyDefinitionFeature_frame (D : DefLib) (h hf : Heap) (did : Nat)
    (type superDef out : Value)
    (hD : ∀ (h1 h2 : Heap) (v : Value), (∀ k, getProperty h1 v k = getProperty h2 v k) →
      D.isComponentDef h1 v = D.isComponentDef h2 v)
    (htype : getProperty h (Value.object did) "type" = Except.ok type)
    (hslot : getProperty h (D.getSuperType h type)
      (if D.isComponentDef h (Value.object did) then "ɵcmp" else "ɵdir") = Except.ok superDef)
    (hrun : CopyDefinitionFeature D (Value.object did) h = (Except.ok out, hf)) :
    (∀ k, k ∉ COPY_DIRECTIVE_FIELDS → k ∉ COPY_COMPONENT_FIELDS →
      ∀ v, getProperty hf v k = getProperty h v k) ∧
    (getProperty hf (Value.object did) "type" = Except.ok type ∧
      getProperty hf (Value.object did) "inputs" = getProperty h (Value.object did) "inputs" ∧
      getProperty hf (Value.object did) "outputs" =
        getProperty h (Value.object did) "outputs") ∧
    (D.isComponentDef h superDef = false → ∀ f, f ∈ COPY_COMPONENT_FIELDS →
      getProperty hf (Value.object did) f = getProperty h (Value.object did) f) ∧
    (∀ k, getProperty hf superDef k = getProperty h superDef k) ∧
    (∀ j, j ≠ did → hf j = h j) ∧
    (∀ sid, superDef = Value.object sid → sid ≠ did → hf sid = h sid) ∧
    (∀ tid, D.getSuperType h type = Value.object tid → tid ≠ did → hf tid = h tid) := by
  obtain ⟨type2, superDef2, htype2, hslot2, hu, hn⟩ :=
    CopyDefinitionFeature_completed D h hf did out hrun
  have ht : type2 = type := Except.ok.inj (htype2.symm.trans htype)
  subst ht
  have hs : superDef2 = superDef := Except.ok.inj (hslot2.symm.trans hslot)
  subst hs
  obtain ⟨hf2, hrun2, _, _, hother, hframe, hsame, hcells⟩ :=
    CopyDefinitionFeature_run D h did type2 superDef2 hD htype hslot hu hn
  have hheap : hf = hf2 := (Prod.mk.inj (hrun.symm.trans hrun2)).2
  subst hheap
  refine ⟨hframe, ⟨?_, ?_, ?_⟩, ?_, hsame, hcells, fun sid _ hne => hcells sid hne,
    fun tid _ hne => hcells tid hne⟩
  · rw [hframe "type" (by decide) (by decide)]
    exact htype
  · exact hframe "inputs" (by decide) (by decide) _
  · exact hframe "outputs" (by decide) (by decide) _
  · intro hkind f hmem
    have hnot : f ∉ COPY_DIRECTIVE_FIELDS := by
      intro hc
      have hfeq : f = "providersResolver" := List.mem_singleton.mp hc
      rw [hfeq] at hmem
      exact absurd hmem (by decide)
    exact hother hkind f hnot (Value.object did)

/-- C35 at concrete inputs. On the component-kind definition at 93 (ancestor metadata at
90, ancestor class at 91): `inputs` is as before, and the cells at 90 and 91 are as
before. On the directive-kind definition at 97 (ancestor metadata at 94, not
component-kind): `decls` is still 7. -/
theorem CopyDefinitionFeature_frame_witness :
    getProperty (CopyDefinitionFeature sampleDefLib (Value.object 93) recordHeap).2
      (Value.object 93) "inputs" = Except.ok (Value.string "childInputs") ∧
    (CopyDefinitionFeature sampleDefLib (Value.object 93) recordHeap).2 90 = recordHeap 90 ∧
    (CopyDefinitionFeature sampleDefLib (Value.object 93) recordHeap).2 91 = recordHeap 91 ∧
    getProperty (CopyDefinitionFeature sampleDefLib (Value.object 97) recordHeap).2
      (Value.object 97) "decls" = Except.ok (Value.number 7) :=
  ⟨(CopyDefinitionFeature_frame sampleDefLib recordHeap
      (CopyDefinitionFeature sampleDefLib (Value.object 93) recordHeap).2 93 (Value.object 92)
      (Value.object 90) Value.undefined sampleDefLib_reads_only rfl rfl rfl).2.1.2.1,
   (CopyDefinitionFeature_frame sampleDefLib recordHeap
      (CopyDefinitionFeature sampleDefLib (Value.object 93) recordHeap).2 93 (Value.object 92)
      (Value.object 90) Value.undefined sampleDefLib_reads_only rfl rfl rfl).2.2.2.2.2.1 90
      rfl (by decide),
   (CopyDefinitionFeature_frame sampleDefLib recordHeap
      (CopyDefinitionFeature sampleDefLib (Value.object 93) recordHeap).2 93 (Value.object 92)
      (Value.object 90) Value.undefined sampleDefLib_reads_only rfl rfl rfl).2.2.2.2.2.2 91
      rfl (by decide),
   (CopyDefinitionFeature_frame sampleDefLib recordHeap
      (CopyDefinitionFeature sampleDefLib (Value.object 97) recordHeap).2 97 (Value.object 96)
      (Value.object 94) Value.undefined sampleDefLib_reads_only rfl rfl rfl).2.2.1 rfl "decls"
      (by decide)⟩

/-- C36. `devModeEqual` is symmetric: for all values `a` and `b` (scalars, objects,
functions, and lists nested to any depth), `devModeEqual(a, b)` and `devModeEqual(b, a)`
are the same truth value; so are the element-wise comparisons of their items in the two
orders. -/
theorem devModeEqual_symmetric (a b : CmpValue) :
    devModeEqual a b = devModeEqual b a ∧
    (devModeEqual a b = true ↔ devModeEqual b a = true) ∧
    areIterablesEqual devModeEqual (itemsOf a) (itemsOf b) =
      areIterablesEqual devModeEqual (itemsOf b) (itemsOf a) := by
  refine ⟨devModeEqual_swap a b, ?_, ?_⟩
  · rw [devModeEqual_swap a b]
  · rw [← devModeEqualItems_eq, ← devModeEqualItems_eq]
    exact devModeEqualItems_swap _ _

end AngularDI
